import Mathlib

/-!
# VAST: core-to-LLVM conversion patterns and the codegen type driver

A shallow embedding of parts of

* `lib/vast/Conversion/Common/CoreToLLVM.cpp` (rewrite patterns of the core-to-LLVM stage),
* `lib/vast/Translation/CodeGenTypeDriver.cpp` (type cache, function-processing guard set,
  function types under the ABI classification),
* `include/vast/Tower/Tower.hpp` (the tower of module generations),
* `lib/vast/Conversion/FromHL/ToLLVars.cpp` (variable declarations),

together with the properties established about them.
-/

namespace vast

/-! ## Types and attributes -/

/-- Types of the dialects involved, by structure.  `hl_*` are high-level types,
the remaining ones are builtin / LLVM dialect types. -/
inductive mlir_type where
  | hl_integer (bits : Nat) (is_unsigned : Bool)
  | hl_float (bits : Nat)
  | hl_lvalue (element : mlir_type)
  | hl_other (tag : Nat)
  | integer (width : Nat)
  | float (bits : Nat)
  | index
  | llvm_ptr (pointee : mlir_type)
  | llvm_void
  deriving DecidableEq, Repr

/-- Arbitrary-precision integer of LLVM (`llvm::APInt`): `BitWidth` bits holding the
bit pattern `VAL` (an unsigned number below `2 ^ BitWidth`). -/
structure APInt where
  BitWidth : Nat
  VAL : Nat
  deriving DecidableEq, Repr

namespace APInt

/-- The value lies in the range of its width. -/
def wf (a : APInt) : Prop := a.VAL < 2 ^ a.BitWidth

instance (a : APInt) : Decidable a.wf := by unfold wf; infer_instance

/-- Sign bit: `APInt::isNegative`, the top bit of the pattern. -/
def isNegative (a : APInt) : Bool :=
  decide (a.BitWidth ≠ 0 ∧ 2 ^ (a.BitWidth - 1) ≤ a.VAL)

/-- Unsigned reading: `APInt::getZExtValue`. -/
def getZExtValue (a : APInt) : Nat := a.VAL

/-- Two's complement reading: `APInt::getSExtValue`. -/
def getSExtValue (a : APInt) : Int :=
  if a.isNegative then (a.VAL : Int) - 2 ^ a.BitWidth else (a.VAL : Int)

/-- Keep the low `width` bits: `APInt::trunc`. -/
def trunc (a : APInt) (width : Nat) : APInt :=
  ⟨width, a.VAL % 2 ^ width⟩

/-- Widen by filling the new high bits with zero: `APInt::zext`. -/
def zext (a : APInt) (width : Nat) : APInt :=
  ⟨width, a.VAL⟩

/-- Widen by copying the sign bit into the new high bits: `APInt::sext`. -/
def sext (a : APInt) (width : Nat) : APInt :=
  if a.isNegative then ⟨width, a.VAL + (2 ^ width - 2 ^ a.BitWidth)⟩ else ⟨width, a.VAL⟩

/-- The method `APInt::sextOrTrunc`: sign-extend when the new width is larger, truncate
when it is smaller, the value itself otherwise. -/
def sextOrTrunc (a : APInt) (width : Nat) : APInt :=
  if a.BitWidth < width then a.sext width
  else if a.BitWidth > width then a.trunc width
  else a

end APInt

/-- Integer with a signedness flag (`llvm::APSInt`), the payload of `hl::IntegerAttr`. -/
structure APSInt where
  toAPInt : APInt
  IsUnsigned : Bool
  deriving DecidableEq, Repr

/-- Floating point payload of `hl::FloatAttr`; the representation is left abstract. -/
structure APFloat where
  semantics : Nat
  bits : Nat
  deriving DecidableEq, Repr

/-- Attributes of the high-level dialect that a `hl::ConstantOp` may carry. -/
inductive hl_attr where
  | FloatAttr (type : mlir_type) (value : APFloat)
  | IntegerAttr (type : mlir_type) (value : APSInt)
  | other (type : mlir_type)
  deriving DecidableEq, Repr

/-- The accessor `getType()` of a typed attribute. -/
def hl_attr.getType : hl_attr → mlir_type
  | .FloatAttr t _ => t
  | .IntegerAttr t _ => t
  | .other t => t

/-- Builtin attributes produced by the rewriter (`getFloatAttr`, `getIntegerAttr`). -/
inductive mlir_attr where
  | FloatAttr (type : mlir_type) (value : APFloat)
  | IntegerAttr (type : mlir_type) (value : APInt)
  deriving DecidableEq, Repr

/-- The services of `util::tc::LLVMTypeConverter` and of the data layout that the
patterns call; their implementation is outside of the embedded files. -/
structure TypeConverter where
  convertType : mlir_type → Option mlir_type
  convert_type_to_type : mlir_type → Option mlir_type
  getTypeSizeInBits : mlir_type → Nat
  convertToDouble : APFloat → APFloat

namespace constant_int

/-- The method `constant_int::convert_attr`: the attribute of the lowered constant, or
the null attribute (`none`). -/
def convert_attr (tc : TypeConverter) (attr : hl_attr) : Option mlir_attr :=
  match tc.convert_type_to_type attr.getType with
  | none => none
  | some target_type =>
    match attr with
    | .FloatAttr _ float_attr =>
        let raw_value := tc.convertToDouble float_attr
        some (.FloatAttr target_type raw_value)
    | .IntegerAttr _ int_attr =>
        let size := tc.getTypeSizeInBits target_type
        let coerced := int_attr.toAPInt.sextOrTrunc size
        some (.IntegerAttr target_type coerced)
    | .other _ => none

end constant_int

/-- A type converter for the examples: every high-level integer type is lowered to the
integer type of `target` bits, whose size the data layout reports as `target`. -/
def example_tc (target : Nat) : TypeConverter where
  convertType := fun t =>
    match t with
    | .hl_integer _ _ => some (.integer target)
    | _ => none
  convert_type_to_type := fun t =>
    match t with
    | .hl_integer _ _ => some (.integer target)
    | _ => none
  getTypeSizeInBits := fun t =>
    match t with
    | .integer w => w
    | _ => 0
  convertToDouble := fun f => f

/-! ## Short-circuit logical operations: `lazy_bin_logical` -/

/-- SSA values: the values that exist before the rewrite, and the results of the
operations that `lazy_bin_logical::matchAndRewrite` creates (named as in the source). -/
inductive Value where
  | source (n : Nat)
  | zero
  | cmp_lhs
  | cmp_rhs
  | end_arg
  | zext
  deriving DecidableEq, Repr

/-- The three blocks the rewrite works with (named as in the source). -/
inductive BlockId where
  | curr_block
  | rhs_block
  | end_block
  deriving DecidableEq, Repr

/-- Comparison predicates of `LLVM::ICmpOp` used by the logical patterns. -/
inductive ICmpPredicate where
  | eq
  | ne
  deriving DecidableEq, Repr

/-- Truth value of a comparison. -/
def ICmpPredicate.eval : ICmpPredicate → Int → Int → Bool
  | .eq, a, b => decide (a = b)
  | .ne, a, b => decide (a ≠ b)

/-- An operation the pattern does not look into: it has an identity `id` (its side
effect is observed as an event), defines the source value `result` and computes it from
its operands. -/
structure SourceOp where
  id : Nat
  result : Nat
  operands : List Value
  eval : List Int → Int

/-- Operations of the rewritten blocks. -/
inductive Operation where
  | source (op : SourceOp)
  | constant (res : Value) (type : Option mlir_type) (value : Int)
  | icmp (res : Value) (predicate : ICmpPredicate) (lhs rhs : Value)
  | zext (res : Value) (type : Option mlir_type) (arg : Value)
  | cond_br (cond : Value) (trueDest : BlockId) (trueOperands : List Value)
      (falseDest : BlockId) (falseOperands : List Value)
  | br (operands : List Value) (dest : BlockId)

/-- A block: typed arguments and an operation list. -/
structure Block where
  arguments : List (Value × mlir_type)
  operations : List Operation

/-- A `core.lazy.op`: one region with one block whose last operation is the
`hl.value.yield` of `yield_operand`; `body` are the operations before the yield. -/
structure LazyOp where
  body : List SourceOp
  yield_operand : Nat
  yield_type : mlir_type

/-- The block that holds a `core.bin.land` / `core.bin.lor` operation `op`: the
operations before `op` (the two lazy operations apart), the lazy operations that define
the operands of `op`, the result of `op` and the operations after it. -/
structure LogicalOp where
  arguments : List (Value × mlir_type)
  before : List SourceOp
  lhs : LazyOp
  rhs : LazyOp
  result : Nat
  result_type : mlir_type
  after : List SourceOp

/-- Replace the uses of `old` by `new` in the operands of an operation. -/
def SourceOp.replace_uses (old new : Value) (o : SourceOp) : SourceOp :=
  { o with operands := o.operands.map (fun v => if v = old then new else v) }

/-- The blocks after the rewrite. -/
structure Lowered where
  curr_block : Block
  rhs_block : Block
  end_block : Block

/-- Block lookup. -/
def Lowered.block (l : Lowered) : BlockId → Block
  | .curr_block => l.curr_block
  | .rhs_block => l.rhs_block
  | .end_block => l.end_block

namespace lazy_bin_logical

/-- The method `insert_lazy_to_block`: the yield is erased, the operations of the lazy
block are merged to the end of `target`, the lazy operation is erased; the yielded value
is returned. -/
def insert_lazy_to_block (lazy_op : LazyOp) (target : Block) : Value × Block :=
  let res := Value.source lazy_op.yield_operand
  (res, { target with operations := target.operations ++ lazy_op.body.map Operation.source })

/-- The method `lazy_bin_logical< LOp, short_on_true >::matchAndRewrite`. -/
def matchAndRewrite (tc : TypeConverter) (short_on_true : Bool) (op : LogicalOp) : Lowered :=
  -- `curr_block->splitBlock(op)`, `rhs_block->splitBlock(op)`
  let curr_block : Block := ⟨op.arguments, op.before.map Operation.source⟩
  let rhs_block : Block := ⟨[], []⟩
  let end_block : Block := ⟨[], []⟩
  let (lhs_res, curr_block) := insert_lazy_to_block op.lhs curr_block
  let (rhs_res, rhs_block) := insert_lazy_to_block op.rhs rhs_block
  let lhs_res_type := tc.convertType op.lhs.yield_type
  let zero := Operation.constant .zero lhs_res_type 0
  let cmp_lhs := Operation.icmp .cmp_lhs .eq lhs_res .zero
  let end_block : Block :=
    { end_block with arguments := end_block.arguments ++ [(.end_arg, .integer 1)] }
  let cond_br :=
    if short_on_true then
      Operation.cond_br .cmp_lhs .end_block [.cmp_lhs] .rhs_block []
    else
      Operation.cond_br .cmp_lhs .rhs_block [] .end_block [.cmp_lhs]
  let curr_block : Block :=
    { curr_block with operations := curr_block.operations ++ [zero, cmp_lhs, cond_br] }
  let cmp_rhs := Operation.icmp .cmp_rhs .eq rhs_res .zero
  let rhs_block : Block :=
    { rhs_block with
      operations := rhs_block.operations ++ [cmp_rhs, Operation.br [.cmp_rhs] .end_block] }
  let zext := Operation.zext .zext (tc.convertType op.result_type) .end_arg
  -- `replaceOp(op, zext)`: the uses of the result of `op` now refer to `zext`
  let end_block : Block :=
    { end_block with
      operations := zext :: end_block.operations ++
        op.after.map (fun o => Operation.source (o.replace_uses (.source op.result) .zext)) }
  ⟨curr_block, rhs_block, end_block⟩

/-- The pattern `lazy_land = lazy_bin_logical< core::BinLAndOp, false >`. -/
def lazy_land (tc : TypeConverter) (op : LogicalOp) : Lowered := matchAndRewrite tc false op

/-- The pattern `lazy_lor = lazy_bin_logical< core::BinLOrOp, true >`. -/
def lazy_lor (tc : TypeConverter) (op : LogicalOp) : Lowered := matchAndRewrite tc true op

end lazy_bin_logical

/-! ### Execution of the rewritten blocks -/

/-- What an execution lets observe: entering a block, and the side effect of a source
operation. -/
inductive Event where
  | enter (b : BlockId)
  | exec (id : Nat)
  deriving DecidableEq, Repr

/-- Execution state: the values defined so far and the events observed so far. -/
structure Machine where
  env : Value → Int
  trace : List Event

/-- Define a value. -/
def Machine.set (m : Machine) (v : Value) (x : Int) : Machine :=
  { m with env := fun w => if w = v then x else m.env w }

/-- Record an event. -/
def Machine.log (m : Machine) (e : Event) : Machine :=
  { m with trace := m.trace ++ [e] }

/-- Run one source operation: its side effect is observed and its result defined. -/
def SourceOp.exec (o : SourceOp) (m : Machine) : Machine :=
  (m.log (.exec o.id)).set (.source o.result) (o.eval (o.operands.map m.env))

/-- Run a list of source operations in order. -/
def run_source : List SourceOp → Machine → Machine
  | [], m => m
  | o :: rest, m => run_source rest (o.exec m)

/-- Run the operations of a block in order up to its terminator; the result is the state
and, when the block ends in a branch, the successor with the values passed to it. -/
def exec_ops : List Operation → Machine → Machine × Option (BlockId × List Int)
  | [], m => (m, none)
  | .source o :: rest, m => exec_ops rest (o.exec m)
  | .constant res _ value :: rest, m => exec_ops rest (m.set res value)
  | .icmp res predicate lhs rhs :: rest, m =>
      exec_ops rest (m.set res (if predicate.eval (m.env lhs) (m.env rhs) then 1 else 0))
  | .zext res _ arg :: rest, m => exec_ops rest (m.set res (m.env arg))
  | .cond_br cond trueDest trueOperands falseDest falseOperands :: _, m =>
      if m.env cond ≠ 0 then (m, some (trueDest, trueOperands.map m.env))
      else (m, some (falseDest, falseOperands.map m.env))
  | .br operands dest :: _, m => (m, some (dest, operands.map m.env))

/-- Bind the arguments of a block to the values passed by the branch. -/
def bind_arguments : List (Value × mlir_type) → List Int → Machine → Machine
  | (v, _) :: params, x :: xs, m => bind_arguments params xs (m.set v x)
  | _, _, m => m

/-- Run the blocks from block `b`; `none` when `fuel` blocks were not enough. -/
def run (l : Lowered) : Nat → BlockId → List Int → Machine → Option Machine
  | 0, _, _, _ => none
  | fuel + 1, b, args, m =>
      let m := bind_arguments (l.block b).arguments args (m.log (.enter b))
      match exec_ops (l.block b).operations m with
      | (m, none) => some m
      | (m, some (next, values)) => run l fuel next values m

/-- The block of `a && b` / `a || b` used in the examples: the left operand is one
operation (id 1) yielding `a`, the right operand one operation (id 2) yielding `b`. -/
def example_logical (a b : Int) : LogicalOp where
  arguments := []
  before := []
  lhs := ⟨[⟨1, 1, [], fun _ => a⟩], 1, .hl_integer 32 false⟩
  rhs := ⟨[⟨2, 2, [], fun _ => b⟩], 2, .hl_integer 32 false⟩
  result := 3
  result_type := .hl_integer 32 false
  after := []

/-- The empty initial state of the examples. -/
def example_machine : Machine := ⟨fun _ => 0, []⟩

/-! ## Function lowering: `func_op` -/

/-- The type `mlir::LogicalResult`. -/
inductive LogicalResult where
  | success
  | failure
  deriving DecidableEq, Repr

/-- The type `LLVM::LLVMFunctionType`. -/
structure LLVMFunctionType where
  result : mlir_type
  params : List mlir_type
  isVarArg : Bool
  deriving DecidableEq, Repr

/-- One entry of a signature conversion: source argument `i` became the target
arguments `inputNo .. inputNo + size - 1`. -/
structure InputMapping where
  inputNo : Nat
  size : Nat
  deriving DecidableEq, Repr

/-- The type `mlir::TypeConverter::SignatureConversion`: per source argument an optional
mapping, and the converted argument types. -/
structure SignatureConversion where
  input_mappings : List (Option InputMapping)
  converted_types : List mlir_type
  deriving DecidableEq, Repr

/-- The accessor `getInputMapping(i)`. -/
def SignatureConversion.getInputMapping (s : SignatureConversion) (i : Nat) :
    Option InputMapping :=
  (s.input_mappings.get? i).join

/-- Values inside a function body: block arguments of the entry block, results of the
operations that `arg_to_alloca` creates for argument `i`, and all other values. -/
inductive FnValue where
  | argument (i : Nat)
  | count (i : Nat)
  | alloca (i : Nat)
  | other (n : Nat)
  deriving DecidableEq, Repr

/-- Operations inside a function body: the ones present before the rewrite (known by an
identity and their operands) and the ones `arg_to_alloca` creates. -/
inductive FnOp where
  | other (id : Nat) (operands : List FnValue)
  | constant (res : FnValue) (type : Option mlir_type) (value : Int)
  | alloca (res : FnValue) (type : mlir_type) (count : FnValue) (alignment : Nat)
  | store (value : FnValue) (addr : FnValue)
  deriving DecidableEq, Repr

/-- A block of a function body. -/
structure FnBlock where
  arguments : List mlir_type
  operations : List FnOp
  deriving DecidableEq, Repr

/-- The operation `mlir::func::FuncOp`, as far as the pattern reads it: name, function
type, the argument attributes (`getAllArgAttrs`, absent when there are none) and the
blocks of the body. -/
structure FuncOp where
  name : String
  inputs : List mlir_type
  results : List mlir_type
  arg_attrs : Option (List Nat)
  body : List FnBlock
  deriving DecidableEq, Repr

/-- The operation `LLVM::LLVMFuncOp` created by the pattern. -/
structure LLVMFuncOp where
  name : String
  type : LLVMFunctionType
  arg_attrs : Option (List Nat)
  body : List FnBlock
  deriving DecidableEq, Repr

/-- The accessor `LLVMFuncOp::isVarArg`. -/
def LLVMFuncOp.isVarArg (fn : LLVMFuncOp) : Bool := fn.type.isVarArg

/-- The accessor `LLVMFuncOp::empty`: the body has no block. -/
def LLVMFuncOp.empty (fn : LLVMFuncOp) : Bool := fn.body.isEmpty

/-- The method `Block::isEntryBlock` for the block at position `index` of its region:
it is the first block of the region. -/
def isEntryBlock (region : List FnBlock) (index : Nat) : Bool :=
  decide (index = 0 ∧ index < region.length)

/-- The services of the type converter used by `func_op`; `convert_fn_t`,
`get_conversion_signature`, `is_variadic` and `convert_region_types` live in headers
outside of the embedded files and are taken as given.  `convert_region_types` retypes
the arguments of the entry block according to the signature. -/
structure FnTypeConverter where
  convert_fn_t : List mlir_type → List mlir_type → Option (Option LLVMFunctionType)
  is_variadic : FuncOp → Bool
  get_conversion_signature : FuncOp → Bool → Option SignatureConversion
  convert_region_types : SignatureConversion → List mlir_type → List mlir_type
  index_type : Option mlir_type
  pointer_type : mlir_type → Option mlir_type

/-- An `llvm::SmallVector` together with a flag telling whether every indexed write so
far was below its size. -/
structure SmallVector (α : Type) where
  data : List α
  in_bounds : Bool
  deriving DecidableEq, Repr

/-- Indexed write `v[idx] = x`: it never changes the size of the vector; a write at or
beyond the size is recorded in the flag. -/
def SmallVector.write {α : Type} (v : SmallVector α) (idx : Nat) (x : α) : SmallVector α :=
  if idx < v.data.length then { v with data := v.data.set idx x }
  else { v with in_bounds := false }

/-- Attributes are known by a number. -/
abbrev AttrVector := SmallVector Nat

namespace func_op

/-- Replace the uses of `old` by `new` in one operation. -/
def replace_in_op (old new : FnValue) : FnOp → FnOp
  | .other id operands => .other id (operands.map (fun v => if v = old then new else v))
  | .constant res type value => .constant res type value
  | .alloca res type count alignment =>
      .alloca res type (if count = old then new else count) alignment
  | .store value addr =>
      .store (if value = old then new else value) (if addr = old then new else addr)

/-- The method `Value::replaceAllUsesWith` over the whole body. -/
def replaceAllUsesWith (old new : FnValue) (body : List FnBlock) : List FnBlock :=
  body.map (fun b => { b with operations := b.operations.map (replace_in_op old new) })

/-- Insert an operation into the first block at position `ip`. -/
def insert_op (body : List FnBlock) (ip : Nat) (o : FnOp) : List FnBlock :=
  match body with
  | [] => []
  | b :: rest =>
      { b with operations := b.operations.take ip ++ o :: b.operations.drop ip } :: rest

/-- The method `func_op::arg_to_alloca` for argument `i` of type `arg_type`, with the
insertion point at position `ip` of the entry block.  It returns the result, the body
and the new insertion point. -/
def arg_to_alloca (tc : FnTypeConverter) (i : Nat) (arg_type : mlir_type)
    (body : List FnBlock) (ip : Nat) : LogicalResult × List FnBlock × Nat :=
  match tc.pointer_type arg_type with
  | none => (.failure, body, ip)
  | some ptr_type =>
      let body := insert_op body ip (.constant (.count i) tc.index_type 1)
      let body := insert_op body (ip + 1) (.alloca (.alloca i) ptr_type (.count i) 0)
      let body := replaceAllUsesWith (.argument i) (.alloca i) body
      let body := insert_op body (ip + 2) (.store (.argument i) (.alloca i))
      (.success, body, ip + 3)

/-- The loop of `args_to_allocas` over the arguments of the entry block, from argument
number `i` on. -/
def args_loop (tc : FnTypeConverter) :
    List mlir_type → Nat → List FnBlock → Nat → LogicalResult × List FnBlock
  | [], _, body, _ => (.success, body)
  | arg_type :: rest, i, body, ip =>
      match arg_to_alloca tc i arg_type body ip with
      | (.failure, body, _) => (.failure, body)
      | (.success, body, ip) => args_loop tc rest (i + 1) body ip

/-- The method `func_op::args_to_allocas`. -/
def args_to_allocas (tc : FnTypeConverter) (fn : LLVMFuncOp) : LogicalResult × LLVMFuncOp :=
  if fn.isVarArg then (.failure, fn)
  else if fn.empty then (.failure, fn)
  else
    match fn.body with
    | [] => (.failure, fn)
    | block :: _ =>
        if !isEntryBlock fn.body 0 then (.failure, fn)
        else
          -- `setInsertionPointToStart(&block)`
          let (res, body) := args_loop tc block.arguments 0 fn.body 0
          (res, { fn with body := body })

/-- The inner loop `for j < mapping->size` of the attribute redistribution. -/
def write_run (v : AttrVector) (inputNo : Nat) (x : Nat) : Nat → Nat → AttrVector
  | 0, _ => v
  | n + 1, j => write_run (v.write (inputNo + j) x) inputNo x n (j + 1)

/-- The loop `for i < getNumArguments()` of the attribute redistribution, from
`i` on for `n` more arguments: `new_arg_attrs[mapping->inputNo + j] = original_arg_attr[i]`.
An absent mapping or attribute has nothing to read and is recorded in the flag. -/
def redistribute (signature : SignatureConversion) (original : List Nat) :
    Nat → Nat → AttrVector → AttrVector
  | 0, _, v => v
  | n + 1, i, v =>
      match signature.getInputMapping i, original.get? i with
      | some mapping, some attr =>
          redistribute signature original n (i + 1) (write_run v mapping.inputNo attr mapping.size 0)
      | _, _ => redistribute signature original n (i + 1) { v with in_bounds := false }

/-- State of the IR after `func_op::matchAndRewrite`: the result, the function created
(if any), whether the matched operation was erased, and whether every write into
`new_arg_attrs` was within bounds. -/
structure Rewrite where
  result : LogicalResult
  new_func : Option LLVMFuncOp
  erased : Bool
  attr_writes_in_bounds : Bool
  deriving DecidableEq, Repr

/-- The function that `matchAndRewrite` creates, with the body of the matched function
moved into it and its region types converted, as it is handed to `args_to_allocas`. -/
def create_func (tc : FnTypeConverter) (func_op : FuncOp) (target_type : LLVMFunctionType)
    (signature : SignatureConversion) (new_arg_attrs : Option AttrVector) : LLVMFuncOp :=
  let new_func : LLVMFuncOp :=
    { name := func_op.name, type := target_type,
      arg_attrs := new_arg_attrs.map SmallVector.data, body := [] }
  -- `inlineRegionBefore(func_op.getBody(), new_func.getBody(), new_func.end())`
  let new_func := { new_func with body := new_func.body ++ func_op.body }
  -- `util::convert_region_types(func_op, new_func, signature)`
  { new_func with
    body := match new_func.body with
      | [] => []
      | entry :: rest =>
          { entry with arguments := tc.convert_region_types signature entry.arguments }
            :: rest }

/-- The method `func_op::matchAndRewrite`. -/
def matchAndRewrite (tc : FnTypeConverter) (func_op : FuncOp) : Rewrite :=
  let maybe_target_type := tc.convert_fn_t func_op.inputs func_op.results
  let maybe_signature := tc.get_conversion_signature func_op (tc.is_variadic func_op)
  match maybe_target_type, maybe_signature with
  | some (some target_type), some signature =>
      -- `new_arg_attrs` starts as an empty vector
      let new_arg_attrs : Option AttrVector :=
        func_op.arg_attrs.map (fun original_arg_attr =>
          redistribute signature original_arg_attr func_op.inputs.length 0 ⟨[], true⟩)
      let new_func := create_func tc func_op target_type signature new_arg_attrs
      let in_bounds := (new_arg_attrs.map SmallVector.in_bounds).getD true
      match args_to_allocas tc new_func with
      | (.failure, new_func) => ⟨.failure, some new_func, false, in_bounds⟩
      | (.success, new_func) => ⟨.success, some new_func, true, in_bounds⟩
  | _, _ => ⟨.failure, none, false, true⟩

end func_op

/-- A type converter for the examples: the function type is lowered argument by
argument, `variadic` tells whether the target function type is variadic. -/
def example_fn_tc (variadic : Bool) : FnTypeConverter where
  convert_fn_t := fun inputs _ => some (some ⟨.llvm_void, inputs, variadic⟩)
  is_variadic := fun _ => variadic
  get_conversion_signature := fun f _ =>
    some ⟨(List.range f.inputs.length).map (fun i => some ⟨i, 1⟩), f.inputs⟩
  convert_region_types := fun _ args => args
  index_type := some (.integer 64)
  pointer_type := fun t => some (.llvm_ptr t)

/-- A function `f(i32)` whose entry block holds one operation using the argument. -/
def example_func : FuncOp where
  name := "f"
  inputs := [.integer 32]
  results := []
  arg_attrs := none
  body := [⟨[.integer 32], [.other 7 [.argument 0]]⟩]

/-! ## The codegen type driver: `type_conversion_driver` -/

namespace cg

/-- Errors of the codegen layer: the exceptions `cg::unimplemented` and
`cg::codegen_error`, and a failed `assert`. -/
inductive error where
  | unimplemented (what : String)
  | codegen_error (what : String)
  | assertion (what : String)
  deriving DecidableEq, Repr

/-- The type `clang::QualType`: a pointer to a type node and its local qualifiers. -/
structure qual_type where
  type_ptr : Nat
  qualifiers : Nat
  deriving DecidableEq, Repr

/-- ABI classification kinds (`abi_arg_info::abi_arg_kind`).  The three kinds the
driver handles are named; every other kind of the enumeration is `other`. -/
inductive abi_arg_kind where
  | ignore
  | extend
  | direct
  | other (tag : Nat)
  deriving DecidableEq, Repr

/-- ABI classification of one argument or of the return value. -/
structure abi_arg_info where
  kind : abi_arg_kind
  deriving DecidableEq, Repr

/-- The accessor `get_kind`. -/
def abi_arg_info.get_kind (info : abi_arg_info) : abi_arg_kind := info.kind

/-- One argument of a function info: its type and classification. -/
structure arg_info where
  type : qual_type
  info : abi_arg_info
  deriving DecidableEq, Repr

/-- The type `function_info_t`; `id` stands for the address of the object, which is what
the guard set stores. -/
structure function_info_t where
  id : Nat
  return_type : qual_type
  return_info : abi_arg_info
  args : List arg_info
  num_required_args : Nat
  deriving DecidableEq, Repr

/-- The type `clang_to_vast_arg_mapping`, as read by `get_function_type`. -/
structure clang_to_vast_arg_mapping where
  total_vast_args : Nat
  sret_arg : Bool
  inalloca_arg : Bool
  padding_arg : Nat → Bool
  vast_args : Nat → Nat × Nat

/-- The type `mlir::FunctionType`; a null type among the inputs is `none`. -/
structure FunctionType where
  inputs : List (Option mlir_type)
  results : List mlir_type
  deriving DecidableEq, Repr

/-- What the type driver uses of `codegen_driver`: the AST context (canonical types,
record types), the type visitor `codegen.convert`, the construction of the argument
mapping, and whether `assert` is compiled in.  These live outside of the embedded file
and are taken as given. -/
structure codegen_driver where
  getCanonicalType : qual_type → qual_type
  record_decl : qual_type → Option Nat
  convert : qual_type → Except error (Option mlir_type)
  arg_mapping : function_info_t → clang_to_vast_arg_mapping
  asserts_enabled : Bool

/-- The mutable state of `type_conversion_driver`: the type cache (keyed by the type
pointer of the canonical type), the guard set of functions being processed, and, as a
record of what happened, the arguments of the calls to `codegen.convert` so far. -/
structure type_conversion_driver where
  type_cache : List (Nat × Option mlir_type)
  functions_being_processed : Finset Nat
  convert_calls : List qual_type

namespace type_conversion_driver

/-- The method `convert_record_decl_type`: not implemented, it throws. -/
def convert_record_decl_type (_decl : Nat) : Except error (Option mlir_type) :=
  .error (.unimplemented "convert_record_decl_type")

/-- The method `type_conversion_driver::convert_type`. -/
def convert_type (driver : codegen_driver) (type : qual_type) (self : type_conversion_driver) :
    Except error (Option mlir_type) × type_conversion_driver :=
  let canonical := driver.getCanonicalType type
  let ty := canonical.type_ptr
  match driver.record_decl canonical with
  | some decl => (convert_record_decl_type decl, self)
  | none =>
    match self.type_cache.lookup ty with
    | some cached => (.ok cached, self)
    | none =>
      let self := { self with convert_calls := self.convert_calls ++ [canonical] }
      match driver.convert canonical with
      | .error e => (.error e, self)
      | .ok result => (.ok result, { self with type_cache := (ty, result) :: self.type_cache })

/-- The method `start_function_processing`. -/
def start_function_processing (fninfo : Nat) (self : type_conversion_driver) :
    Except error Unit × type_conversion_driver :=
  let inserted := decide (fninfo ∉ self.functions_being_processed)
  let self :=
    { self with functions_being_processed := insert fninfo self.functions_being_processed }
  if !inserted then
    (.error (.codegen_error "trying to process a function recursively"), self)
  else (.ok (), self)

/-- The method `finish_function_processing`. -/
def finish_function_processing (fninfo : Nat) (self : type_conversion_driver) :
    Except error Unit × type_conversion_driver :=
  let erased := decide (fninfo ∈ self.functions_being_processed)
  let self :=
    { self with functions_being_processed := self.functions_being_processed.erase fninfo }
  if !erased then
    (.error (.codegen_error "function info not being processed"), self)
  else (.ok (), self)

/-- The lambda `process_type_info` of `get_function_type`. -/
def process_type_info (driver : codegen_driver) (info : abi_arg_info) (type : qual_type)
    (self : type_conversion_driver) : Except error (Option mlir_type) × type_conversion_driver :=
  match info.get_kind with
  | .ignore => (.ok none, self)
  | .extend => convert_type driver type self
  | .direct => convert_type driver type self
  | _ => (.error (.codegen_error "unsupported abi kind"), self)

/-- The loop of `get_function_type` over the required arguments, from argument number
`arg_no` on. -/
def process_args (driver : codegen_driver) (vast_function_args : clang_to_vast_arg_mapping) :
    List arg_info → Nat → SmallVector (Option mlir_type) → type_conversion_driver →
      Except error (SmallVector (Option mlir_type)) × type_conversion_driver
  | [], _, arg_types, self => (.ok arg_types, self)
  | it :: rest, arg_no, arg_types, self =>
      if driver.asserts_enabled && vast_function_args.padding_arg arg_no then
        (.error (.assertion "NYI"), self)
      else
        let first_vast_arg := (vast_function_args.vast_args arg_no).1
        if driver.asserts_enabled && first_vast_arg != 1 then
          (.error (.assertion "first_vast_arg == 1"), self)
        else
          match process_type_info driver it.info it.type self with
          | (.error e, self) => (.error e, self)
          | (.ok t, self) =>
              process_args driver vast_function_args rest (arg_no + 1)
                (arg_types.write first_vast_arg t) self

/-- The body of `get_function_type(const function_info_t &)` after the lock is taken.
The result is the function type together with the flag of the writes into `arg_types`. -/
def get_function_type_body (driver : codegen_driver) (fninfo : function_info_t)
    (self : type_conversion_driver) :
    Except error (FunctionType × Bool) × type_conversion_driver :=
  match process_type_info driver fninfo.return_info fninfo.return_type self with
  | (.error e, self) => (.error e, self)
  | (.ok rty, self) =>
    let vast_function_args := driver.arg_mapping fninfo
    let arg_types : SmallVector (Option mlir_type) :=
      ⟨List.replicate vast_function_args.total_vast_args none, true⟩
    if driver.asserts_enabled && vast_function_args.sret_arg then
      (.error (.assertion "NYI"), self)
    else if driver.asserts_enabled && vast_function_args.inalloca_arg then
      (.error (.assertion "NYI"), self)
    else
      match process_args driver vast_function_args
          (fninfo.args.take fninfo.num_required_args) 0 arg_types self with
      | (.error e, self) => (.error e, self)
      | (.ok arg_types, self) =>
          (.ok (⟨arg_types.data, rty.toList⟩, arg_types.in_bounds), self)

/-- Modelled from the spec: the lock object returned by `codegen_driver::make_lock` is
missing from the embedded files; by the spec the guard set is "inserted at start of
processing one function signature, removed at the end, checked for recursion on insert".
Taking the lock is `start_function_processing`; releasing it, on return and when an
exception leaves the scope, is `finish_function_processing`.  A failed `assert` ends the
process, so nothing is released then. -/
def with_lock (fninfo : Nat)
    (body : type_conversion_driver → Except error (FunctionType × Bool) × type_conversion_driver)
    (self : type_conversion_driver) :
    Except error (FunctionType × Bool) × type_conversion_driver :=
  match start_function_processing fninfo self with
  | (.error e, self) => (.error e, self)
  | (.ok (), self) =>
    match body self with
    | (.error (.assertion what), self) => (.error (.assertion what), self)
    | (.error e, self) => (.error e, (finish_function_processing fninfo self).2)
    | (.ok r, self) =>
      match finish_function_processing fninfo self with
      | (.error e, self) => (.error e, self)
      | (.ok (), self) => (.ok r, self)

/-- The method `get_function_type(const function_info_t &)`. -/
def get_function_type (driver : codegen_driver) (fninfo : function_info_t)
    (self : type_conversion_driver) :
    Except error (FunctionType × Bool) × type_conversion_driver :=
  with_lock fninfo.id (get_function_type_body driver fninfo) self

end type_conversion_driver

/-- A codegen driver for the examples: qualifiers are dropped by canonicalisation, type
pointer 9 is a record type, every other type pointer `n` converts to the integer type of
`n` bits, each source argument `i` is mapped to the target argument `i`. -/
def example_driver : codegen_driver where
  getCanonicalType := fun t => ⟨t.type_ptr, 0⟩
  record_decl := fun t => if t.type_ptr = 9 then some 0 else none
  convert := fun t => .ok (some (.integer t.type_ptr))
  arg_mapping := fun f =>
    ⟨f.num_required_args, false, false, fun _ => false, fun i => (i, 1)⟩
  asserts_enabled := false

/-- An empty type driver state. -/
def example_state : type_conversion_driver := ⟨[], ∅, []⟩

/-- A function info `id 1 : (direct 32, kind 32) -> direct 32` whose second argument has
the ABI kind given. -/
def example_fninfo (kind : abi_arg_kind) : function_info_t where
  id := 1
  return_type := ⟨32, 0⟩
  return_info := ⟨.direct⟩
  args := [⟨⟨32, 0⟩, ⟨.direct⟩⟩, ⟨⟨32, 1⟩, ⟨kind⟩⟩]
  num_required_args := 2

end cg

namespace cg

/-- The example driver built with `assert` compiled in. -/
def example_debug_driver : codegen_driver :=
  { example_driver with asserts_enabled := true }

/-- A function info `id 1 : (direct 32) -> direct 32` with one required argument, which
the mapping of the example driver places in target slot 0. -/
def example_fninfo_one : function_info_t where
  id := 1
  return_type := ⟨32, 0⟩
  return_info := ⟨.direct⟩
  args := [⟨⟨32, 0⟩, ⟨.direct⟩⟩]
  num_required_args := 1

end cg

/-- The function `f(i32)` of the examples carrying the argument attribute `7`. -/
def example_func_with_attrs : FuncOp :=
  { example_func with arg_attrs := some [7] }

/-- The operands of an operation of a function body (`getOperands`). -/
def FnOp.operands : FnOp → List FnValue
  | .other _ operands => operands
  | .constant _ _ _ => []
  | .alloca _ _ count _ => [count]
  | .store value addr => [value, addr]

namespace func_op

/-- What a use refers to once the arguments `lo .. hi - 1` have been moved to their
slots: a use of such an argument refers to the slot of that argument, every other use is
unchanged.  Used to state what `args_to_allocas` leaves behind. -/
def to_slot (lo hi : Nat) : FnValue → FnValue
  | .argument k => if lo ≤ k ∧ k < hi then .alloca k else .argument k
  | v => v

/-- An operation with every use taken through `to_slot`. -/
def to_slot_op (lo hi : Nat) : FnOp → FnOp
  | .other id operands => .other id (operands.map (to_slot lo hi))
  | .constant res type value => .constant res type value
  | .alloca res type count alignment => .alloca res type (to_slot lo hi count) alignment
  | .store value addr => .store (to_slot lo hi value) (to_slot lo hi addr)

/-- The three operations that `arg_to_alloca` creates for argument `i` when the pointer
type of the argument type is `ptr_type`. -/
def slot_ops (tc : FnTypeConverter) (i : Nat) (ptr_type : mlir_type) : List FnOp :=
  [.constant (.count i) tc.index_type 1,
   .alloca (.alloca i) ptr_type (.count i) 0,
   .store (.argument i) (.alloca i)]

end func_op

/-! ## The tower: `manager_t` -/

namespace tower

/-- Locations of operations: a plain source location, or a location tagged with the
operation it was taken from and the location it stands for. -/
inductive location where
  | plain (n : Nat)
  | tagged (op : Nat) (fallback : location)
  deriving DecidableEq, Repr

/-- An operation of a module, as far as the tower is concerned: what it is and its
location. -/
structure operation where
  name : Nat
  loc : location
  deriving DecidableEq, Repr

/-- The operations of a module in walk order. -/
abbrev module_body := List operation

/-- A `vast_module` value: a pointer to a module operation, an index into the memory that
holds the modules. -/
abbrev vast_module := Nat

/-- The type `handle_t`. -/
structure handle_t where
  id : Nat
  mod : vast_module
  deriving DecidableEq, Repr

/-- The template parameter `loc_rewriter_t`: what `insert` and `remove` do to one
operation. -/
structure loc_rewriter_t where
  insert : operation → operation
  remove : operation → operation

/-- A pass manager: running it on a module either fails or leaves the module with new
contents. -/
structure PassManager where
  run : module_body → Option module_body

/-- The type `manager_t`: the storage `_modules` of owning module references. -/
structure manager_t where
  _modules : List vast_module
  deriving DecidableEq, Repr

/-- The modules in memory and the tower. -/
structure state where
  memory : List module_body
  tower : manager_t
  deriving DecidableEq, Repr

/-- How a call of `apply` can end without a handle. -/
inductive error where
  | fatal (what : String)
  | invalid_module
  deriving DecidableEq, Repr

/-- The method `Operation::walk` on the module at `mod`: `f` is applied to every
operation. -/
def walk (memory : List module_body) (mod : vast_module) (f : operation → operation) :
    List module_body :=
  match memory[mod]? with
  | none => memory
  | some body => memory.set mod (body.map f)

/-- The method `manager_t::get` for the module reference `mod`. -/
def get (mod : vast_module) : manager_t × handle_t :=
  let m : manager_t := ⟨[mod]⟩
  let h : handle_t := { id := 0, mod := m._modules.headD 0 }
  (m, h)

/-- The method `manager_t::apply(handle_t, mlir::PassManager &)`. -/
def apply (loc_rewriter : loc_rewriter_t) (pm : PassManager) (handle : handle_t)
    (s : state) : Except error (handle_t × state) :=
  match s.memory[handle.mod]? with
  | none => .error .invalid_module
  | some _ =>
    -- `handle.mod.walk(loc_rewriter::insert)`
    let memory := walk s.memory handle.mod loc_rewriter.insert
    -- `_modules.emplace_back(handle.mod->clone())`
    let clone := memory[handle.mod]?.getD []
    let _modules := s.tower._modules ++ [memory.length]
    let memory := memory ++ [clone]
    let id := _modules.length - 1
    let mod := _modules.getLastD 0
    -- `VAST_CHECK(mlir::succeeded(pm.run(mod)), ...)`
    match pm.run (memory[mod]?.getD []) with
    | none => .error (.fatal "Some pass in apply() failed")
    | some result =>
      let memory := memory.set mod result
      -- `handle.mod.walk(loc_rewriter::remove)`
      let memory := walk memory handle.mod loc_rewriter.remove
      .ok ({ id := id, mod := mod }, { memory := memory, tower := ⟨_modules⟩ })

/-- Modelled from the spec: the bodies of `default_loc_rewriter_t::insert` and `remove`
are missing from the embedded files (only their declarations are there); by the spec
`insert` tags an operation with a provenance marker and `remove` strips the marker.
Here the marker is a tagged location around the former one. -/
def default_loc_rewriter_t : loc_rewriter_t where
  insert := fun op => { op with loc := .tagged op.name op.loc }
  remove := fun op =>
    match op.loc with
    | .tagged _ fallback => { op with loc := fallback }
    | .plain _ => op

/-- A pass manager for the examples: it renames every operation `n` to `n + 100`. -/
def example_pm : PassManager where
  run := fun body => some (body.map (fun op => { op with name := op.name + 100 }))

/-- A pass manager whose pass fails. -/
def failing_pm : PassManager where
  run := fun _ => none

/-- A memory with one module of two operations, held by a tower as generation 0. -/
def example_state : state where
  memory := [[⟨1, .plain 10⟩, ⟨2, .plain 20⟩]]
  tower := (get 0).1

/-- The tower of the examples after one `apply` on generation 0: two generations. -/
def example_state_two : state where
  memory := [[⟨1, .plain 10⟩, ⟨2, .plain 20⟩],
             [⟨101, .tagged 1 (.plain 10)⟩, ⟨102, .tagged 2 (.plain 20)⟩]]
  tower := ⟨[0, 1]⟩

/-- The tower with two generations after `apply` on generation 0: three generations. -/
def example_state_three : state where
  memory := [[⟨1, .plain 10⟩, ⟨2, .plain 20⟩],
             [⟨101, .tagged 1 (.plain 10)⟩, ⟨102, .tagged 2 (.plain 20)⟩],
             [⟨101, .tagged 1 (.plain 10)⟩, ⟨102, .tagged 2 (.plain 20)⟩]]
  tower := ⟨[0, 1, 2]⟩

end tower

/-! ## Inlining the region of a wrapping operation: `inline_region_from_op` -/

/-- Operations of a region around a wrapping operation: ordinary operations, known by an
identity and the values they use, and the wrapping operation itself (`unit_op`: a
`hl.translation_unit` or a `hl.scope`). -/
inductive RegionOp where
  | other (id : Nat) (operands : List Nat)
  | unit_op
  deriving DecidableEq, Repr

/-- A block of such a region: the names of its arguments and its operations. -/
structure RegionBlock where
  arguments : List Nat
  operations : List RegionOp
  deriving DecidableEq, Repr

namespace inline_region_from_op

/-- Replace the uses of the values `olds` by the values `news`, position by position, in
one operation. -/
def replace_uses (olds news : List Nat) : RegionOp → RegionOp
  | .other id operands =>
      .other id (operands.map (fun v => ((olds.zip news).lookup v).getD v))
  | .unit_op => .unit_op

/-- The method `ConversionPatternRewriter::mergeBlocks(source, dest, argValues)` where
`dest` is the last block of `blocks`: the uses of the arguments of `source` are replaced
by `argValues`, the operations of `source` are moved to the end of `dest`, and `source`
is erased (when `blocks` is empty, `source` is its own destination and nothing is left).
With `assert` compiled in, the number of replacement values must be the number of
arguments of `source`; `none` is the failed assertion. -/
def mergeBlocks (asserts_enabled : Bool) (source : RegionBlock) (blocks : List RegionBlock)
    (argValues : List Nat) : Option (List RegionBlock) :=
  if asserts_enabled && argValues.length != source.arguments.length then none
  else
    match blocks.getLast? with
    | none => some []
    | some dest =>
        let merged : RegionBlock := ⟨dest.arguments, dest.operations ++ source.operations⟩
        some ((blocks.dropLast ++ [merged]).map (fun b =>
          { b with operations := b.operations.map (replace_uses source.arguments argValues) }))

/-- The method `eraseOp(unit_op)`. -/
def eraseOp (blocks : List RegionBlock) : List RegionBlock :=
  blocks.map (fun b => { b with operations := b.operations.filter (fun o => o != .unit_op) })

/-- The method `inline_region_from_op::matchAndRewrite`: `parent` are the blocks of the
region that holds the wrapping operation, `body` the blocks of the region of the wrapping
operation.  The result are the blocks of the parent region after the rewrite. -/
def matchAndRewrite (asserts_enabled : Bool) (parent body : List RegionBlock) :
    Option (List RegionBlock) :=
  -- `inlineRegionBefore(unit_op.getBody(), *parent, parent->end())`
  match parent ++ body with
  | [] => none
  | front :: rest =>
      -- `unit_block = parent->back()`, `mergeBlocks(&parent->front(), &unit_block, ...)`
      let unit_block := rest.getLastD front
      (mergeBlocks asserts_enabled front rest unit_block.arguments).map eraseOp

end inline_region_from_op

/-! ## Rewrite patterns on one operation -/

/-- How a call of `matchAndRewrite` ends: it returns `mlir::success()` or
`mlir::failure()`, it ends the process in a failed check (`fatal`), or it reads the value
of an empty optional (`undefined`). -/
inductive Outcome where
  | success
  | failure
  | fatal
  | undefined
  deriving DecidableEq, Repr

/-- Values a pattern works with: the operands handed over by the adaptor, by position,
and the results of the operations the pattern creates, by order of creation (`created i`
is the one result of the operation created as number `i`, `result i j` its result number
`j` when it may have several). -/
inductive PValue where
  | operand (i : Nat)
  | created (i : Nat)
  | result (i : Nat) (j : Nat)
  deriving DecidableEq, Repr

/-- A value together with its type. -/
structure TypedValue where
  value : PValue
  type : mlir_type
  deriving DecidableEq, Repr

/-- Cast kinds of `hl::CastKind`: the two kinds `implicit_cast` handles, and the rest. -/
inductive CastKind where
  | LValueToRValue
  | IntegralCast
  | other (tag : Nat)
  deriving DecidableEq, Repr

/-- Predicates of `hl::Predicate`: the ten enumerators of the switch of
`convert_predicate`, and any other value of the enumeration type. -/
inductive Predicate where
  | eq | ne | slt | sle | sgt | sge | ult | ule | ugt | uge
  | other (tag : Nat)
  deriving DecidableEq, Repr

/-- Operations of the LLVM dialect (and the re-created `hl::InitListExpr`) that the
patterns create.  `target` names the target operation of `one_to_one`,
`assign_pattern` and `unary_in_place`. -/
inductive LLVMOp where
  | ConstantOp (type : Option mlir_type) (value : Option mlir_attr)
  | ConstantIntOp (type : Option mlir_type) (value : Int)
  | AllocaOp (type : mlir_type) (count : PValue) (alignment : Nat)
  | LoadOp (type : Option mlir_type) (addr : PValue)
  | StoreOp (value : PValue) (addr : PValue)
  | target (name : String) (type : Option mlir_type) (operands : List PValue)
  | ICmpOp (predicate : Predicate) (lhs rhs : PValue)
  | CallOp (types : List mlir_type) (callee : String) (operands : List PValue)
  | SExtOp (type : mlir_type) (arg : PValue)
  | TruncOp (type : mlir_type) (arg : PValue)
  | InitListExpr (type : mlir_type) (elements : List PValue)
  deriving DecidableEq, Repr

/-- What a call of `matchAndRewrite` did: how it ended, the operations it created through
the rewriter (in order), and the values it replaced the matched operation with, if it
did. -/
structure Rewritten where
  outcome : Outcome
  created : List LLVMOp
  replaced : Option (List PValue)
  deriving DecidableEq, Repr

/-- Modelled from the spec: the macro `VAST_PATTERN_CHECK(cond, ...)` is
`VAST_CHECK(cond, ...)`, whose definition is in a header missing from the embedded files;
the spec calls a failed `VAST_CHECK` a fatal error, and the note at the macro says that
returning `mlir::failure()` instead is still to be done.  When the condition holds the
pattern goes on with `rest`, otherwise the process ends in a fatal error with the
operations created so far. -/
def VAST_PATTERN_CHECK (cond : Bool) (created : List LLVMOp) (rest : Rewritten) : Rewritten :=
  if cond then rest else ⟨.fatal, created, none⟩

/-- The matched `hl::ConstantOp`. -/
structure hl_ConstantOp where
  type : mlir_type
  value : hl_attr
  deriving DecidableEq, Repr

namespace constant_int

/-- The methods `constant_int::make_from` and `constant_int::matchAndRewrite`: the target
type is read with `*target_ty` without a test. -/
def matchAndRewrite (tc : TypeConverter) (op : hl_ConstantOp) : Rewritten :=
  let target_ty := tc.convert_type_to_type op.type
  let attr := convert_attr tc op.value
  match target_ty with
  | none => ⟨.undefined, [], none⟩
  | some target_ty =>
      ⟨.success, [.ConstantOp (some target_ty) attr], some [.created 0]⟩

end constant_int

/-- An operation with one result and its operands, as matched by `one_to_one`,
`uninit_var` and `deref`. -/
structure hl_Op where
  type : mlir_type
  operands : List PValue
  deriving DecidableEq, Repr

namespace one_to_one

/-- The method `one_to_one< Src, Trg >::matchAndRewrite`; `trg` names `Trg`. -/
def matchAndRewrite (tc : TypeConverter) (trg : String) (op : hl_Op) : Rewritten :=
  match tc.convert_type_to_type op.type with
  | none => ⟨.undefined, [], none⟩
  | some target_ty => ⟨.success, [.target trg (some target_ty) op.operands], some [.created 0]⟩

end one_to_one

namespace uninit_var

/-- The method `uninit_var::matchAndRewrite`, with `mk_alloca` of `BasePattern`. -/
def matchAndRewrite (tc : TypeConverter) (op : hl_Op) : Rewritten :=
  let trg_type := tc.convert_type_to_type op.type
  VAST_PATTERN_CHECK trg_type.isSome [] <|
    match trg_type with
    | none => ⟨.undefined, [], none⟩
    | some trg_type =>
        ⟨.success,
          [.ConstantIntOp (tc.convertType .index) 1, .AllocaOp trg_type (.created 0) 0],
          some [.created 1]⟩

end uninit_var

namespace deref

/-- The method `deref::matchAndRewrite`; the address is the first operand. -/
def matchAndRewrite (tc : TypeConverter) (op : hl_Op) : Rewritten :=
  match tc.convert_type_to_type op.type with
  | none => ⟨.failure, [], none⟩
  | some trg_type => ⟨.success, [.LoadOp (some trg_type) (.operand 0)], some [.created 0]⟩

end deref

/-- The matched `hl::InitListExpr`: its result types and its elements. -/
structure hl_InitListExpr where
  result_types : List mlir_type
  elements : List PValue
  deriving DecidableEq, Repr

namespace init_list_expr

/-- The method `init_list_expr::matchAndRewrite`. -/
def matchAndRewrite (tc : TypeConverter) (op : hl_InitListExpr) : Rewritten :=
  let converted := op.elements
  VAST_PATTERN_CHECK (op.result_types.length == 1) [] <|
    let res_type := (op.result_types.head?).bind tc.convert_type_to_type
    VAST_PATTERN_CHECK res_type.isSome [] <|
      match res_type with
      | none => ⟨.undefined, [], none⟩
      | some res_type => ⟨.success, [.InitListExpr res_type converted], some [.created 0]⟩

end init_list_expr

/-- The matched assignment (`hl::AssignOp`, `hl::AddIAssignOp`, `hl::SubIAssignOp`): the
operands `dst` and `src` handed over by the adaptor, and the type of the source operand
of the matched operation itself. -/
structure hl_AssignOp where
  dst : TypedValue
  src : TypedValue
  src_type : mlir_type
  deriving DecidableEq, Repr

/-- The type of a value is a `hl::LValueType`. -/
def is_lvalue_type : mlir_type → Bool
  | .hl_lvalue _ => true
  | _ => false

/-- The element type of an LLVM pointer type, which `LLVM::LoadOp` built from an address
alone takes as its result type. -/
def pointee_type : mlir_type → Option mlir_type
  | .llvm_ptr t => some t
  | _ => none

namespace assign_pattern

/-- The method `assign_pattern< Src, Trg >::matchAndRewrite`; `trg` is `none` for
`Trg = void` and names `Trg` otherwise. -/
def matchAndRewrite (tc : TypeConverter) (trg : Option String) (op : hl_AssignOp) :
    Rewritten :=
  let lhs := op.dst
  let rhs := op.src
  if is_lvalue_type rhs.type then ⟨.failure, [], none⟩
  else
    let load_lhs := LLVMOp.LoadOp (pointee_type lhs.type) lhs.value
    let target_ty := tc.convert_type_to_type op.src_type
    match trg with
    | some name =>
        match target_ty with
        | none => ⟨.undefined, [load_lhs], none⟩
        | some target_ty =>
            ⟨.success,
              [load_lhs, .target name (some target_ty) [.created 0, rhs.value],
               .StoreOp (.created 1) lhs.value],
              some [.created 1]⟩
    | none => ⟨.success, [load_lhs, .StoreOp rhs.value lhs.value], some [rhs.value]⟩

end assign_pattern

/-- The matched `hl::ImplicitCastOp`: its result type and kind, the type of its operand,
and the operand handed over by the adaptor. -/
structure hl_ImplicitCastOp where
  type : mlir_type
  kind : CastKind
  operand_type : mlir_type
  operand : TypedValue
  deriving DecidableEq, Repr

/-- The type is an `mlir::IntegerType`. -/
def is_integer_type : mlir_type → Bool
  | .integer _ => true
  | _ => false

/-- The function `create_trunc_or_sext`: the value that stands for `op` converted to
`target` and the operations created for it, with `next` the number of operations created
before; `none` is the failed `VAST_ASSERT` on the two types. -/
def create_trunc_or_sext (tc : TypeConverter) (op : TypedValue) (target : mlir_type)
    (next : Nat) : Option (PValue × List LLVMOp) :=
  if !(is_integer_type op.type && is_integer_type target) then none
  else
    let new_bw := tc.getTypeSizeInBits target
    let original_bw := tc.getTypeSizeInBits op.type
    if new_bw = original_bw then some (op.value, [])
    else if new_bw > original_bw then some (.created next, [.SExtOp target op.value])
    else some (.created next, [.TruncOp target op.value])

namespace implicit_cast

/-- The method `implicit_cast::matchAndRewrite`. -/
def matchAndRewrite (tc : TypeConverter) (op : hl_ImplicitCastOp) : Rewritten :=
  let trg_type := tc.convert_type_to_type op.type
  VAST_PATTERN_CHECK trg_type.isSome [] <|
    match trg_type with
    | none => ⟨.undefined, [], none⟩
    | some trg_type =>
      if op.kind = .LValueToRValue then
        if !is_lvalue_type op.operand_type then ⟨.failure, [], none⟩
        else ⟨.success, [.LoadOp (some trg_type) op.operand.value], some [.created 0]⟩
      else if op.kind = .IntegralCast then
        match create_trunc_or_sext tc op.operand trg_type 0 with
        | none => ⟨.fatal, [], none⟩
        | some (coerced, created) => ⟨.success, created, some [coerced]⟩
      else ⟨.failure, [], none⟩

end implicit_cast

/-- The matched `hl::CallOp` and what the pattern looks up around it: whether the call
sits in a module, the function the module holds under the name of the callee (if any,
by its result types), and the conversion of a list of types. -/
structure hl_CallOp where
  callee : String
  operands : List PValue
  in_module : Bool
  lookupSymbol : Option (List mlir_type)
  deriving DecidableEq, Repr

namespace call

/-- The method `call::matchAndRewrite`; `convert_types_to_types` is the conversion of a
list of types by the type converter. -/
def matchAndRewrite (convert_types_to_types : List mlir_type → Option (List mlir_type))
    (op : hl_CallOp) : Rewritten :=
  if !op.in_module then ⟨.failure, [], none⟩
  else
    match op.lookupSymbol with
    | none => ⟨.failure, [], none⟩
    | some result_types =>
      match convert_types_to_types result_types with
      | none => ⟨.failure, [], none⟩
      | some rtys =>
          ⟨.success, [.CallOp rtys op.callee op.operands],
            some ((List.range rtys.length).map (fun j => PValue.result 0 j))⟩

end call

/-- The matched `hl::CmpOp`. -/
structure hl_CmpOp where
  predicate : Predicate
  lhs : PValue
  rhs : PValue
  deriving DecidableEq, Repr

namespace cmp

/-- The method `cmp::convert_predicate`: the predicate of the same name; for a value
outside of the switch the function does not return (`VAST_UNREACHABLE`), which is the
outer `none`. -/
def convert_predicate : Predicate → Option (Option Predicate)
  | .other _ => none
  | p => some (some p)

/-- The method `cmp::matchAndRewrite`. -/
def matchAndRewrite (op : hl_CmpOp) : Rewritten :=
  match convert_predicate op.predicate with
  | none => ⟨.fatal, [], none⟩
  | some none => ⟨.failure, [], none⟩
  | some (some predicate) =>
      ⟨.success, [.ICmpOp predicate op.lhs op.rhs], some [.created 0]⟩

end cmp

/-- The matched increment or decrement: the operand handed over by the adaptor. -/
structure hl_UnaryOp where
  arg : TypedValue
  deriving DecidableEq, Repr

/-- The template argument `YieldAt` of `unary_in_place`: `pre` is the tag of the forms
that yield the new value (`PreInc`, `PreDec`), `post` the tag of the forms that yield the
former value (`PostInc`, `PostDec`). -/
inductive YieldAt where
  | pre
  | post
  deriving DecidableEq, Repr

namespace unary_in_place

/-- The function `is_lvalue` on a value that is present. -/
def is_lvalue (op : TypedValue) : Bool := is_lvalue_type op.type

/-- The method `unary_in_place< Op, Trg, YieldAt >::matchAndRewrite`; `trg` names
`Trg`. -/
def matchAndRewrite (trg : String) (yield_at : YieldAt) (op : hl_UnaryOp) : Rewritten :=
  let arg := op.arg
  if is_lvalue arg then ⟨.failure, [], none⟩
  else
    let value_type := pointee_type arg.type
    let value := LLVMOp.LoadOp value_type arg.value
    let one := LLVMOp.ConstantIntOp value_type 1
    let adjust := LLVMOp.target trg value_type [.created 0, .created 1]
    let store := LLVMOp.StoreOp (.created 2) arg.value
    let yielded :=
      match yield_at with
      | .pre => PValue.created 2
      | .post => PValue.created 0
    ⟨.success, [value, one, adjust, store], some [yielded]⟩

end unary_in_place

/-- A type converter that converts no type. -/
def failing_tc : TypeConverter where
  convertType := fun _ => none
  convert_type_to_type := fun _ => none
  getTypeSizeInBits := fun _ => 0
  convertToDouble := fun f => f

/-! ## The core-to-LLVM pass: registered patterns and legality -/

/-- The dialects whose operations the pass names. -/
inductive Dialect where
  | hl
  | ll
  | core
  | func
  | other (name : String)
  deriving DecidableEq, Repr

/-- An operation kind: its dialect and the name of its class. -/
structure OpKind where
  dialect : Dialect
  name : String
  deriving DecidableEq, Repr

/-- The pattern templates of the pass with their template arguments other than the source
operation: the target operation, the yield tag, `short_on_true`. -/
inductive PatternImpl where
  | ignore_pattern
  | inline_region_from_op
  | uninit_var
  | initialize_var
  | init_list_expr
  | func_op
  | constant_int
  | ret
  | implicit_cast
  | one_to_one (trg : String)
  | assign_pattern (trg : Option String)
  | call
  | unary_in_place (trg : String) (yield_at : YieldAt)
  | cmp
  | deref
  | lazy_bin_logical (short_on_true : Bool)
  deriving DecidableEq, Repr

/-- A pattern of the pass: the name of its alias, the operation kind it matches and its
implementation. -/
structure RegisteredPattern where
  name : String
  source : OpKind
  impl : PatternImpl
  deriving DecidableEq, Repr

/-- The pattern is a candidate for an operation of the kind `kind`. -/
def RegisteredPattern.is_match (p : RegisteredPattern) (kind : OpKind) : Bool :=
  decide (p.source = kind)

/-- The LLVM-compatible types (`mlir::LLVM::isCompatibleType`): signless integers,
floats, `void`, and pointers to compatible types. -/
def isCompatibleType : mlir_type → Bool
  | .integer _ => true
  | .float _ => true
  | .llvm_void => true
  | .llvm_ptr pointee => isCompatibleType pointee
  | .index => false
  | .hl_integer _ _ => false
  | .hl_float _ => false
  | .hl_lvalue _ => false
  | .hl_other _ => false

/-- Modelled from the spec: the helper `util::for_each_subtype` is missing from the
embedded files; by the spec an operation under such a policy is "legal only if all result
types are already target-compatible": the predicate is tested on every type of the
range. -/
def for_each_subtype (types : List mlir_type) (fn : mlir_type → Bool) : Bool :=
  types.all fn

/-- The function `has_llvm_only_types` on the result types of an operation. -/
def has_llvm_only_types (result_types : List mlir_type) : Bool :=
  for_each_subtype result_types isCompatibleType

namespace CoreToLLVMPass

/-- The aliases `shl` and `shr` of the source: both are
`one_to_one< hl::BinShlOp, LLVM::ShlOp >`. -/
def shl : RegisteredPattern := ⟨"shl", ⟨.hl, "BinShlOp"⟩, .one_to_one "llvm.shl"⟩

/-- See `shl`. -/
def shr : RegisteredPattern := ⟨"shr", ⟨.hl, "BinShlOp"⟩, .one_to_one "llvm.shl"⟩

/-- The patterns that `CoreToLLVMPass::runOnOperation` adds, in the order of the
source. -/
def patterns : List RegisteredPattern :=
  [⟨"translation_unit", ⟨.hl, "TranslationUnitOp"⟩, .inline_region_from_op⟩,
   ⟨"scope", ⟨.hl, "ScopeOp"⟩, .inline_region_from_op⟩,
   ⟨"func_op", ⟨.func, "FuncOp"⟩, .func_op⟩,
   ⟨"constant_int", ⟨.hl, "ConstantOp"⟩, .constant_int⟩,
   ⟨"ret", ⟨.hl, "ReturnOp"⟩, .ret⟩,
   ⟨"add", ⟨.hl, "AddIOp"⟩, .one_to_one "llvm.add"⟩,
   ⟨"sub", ⟨.hl, "SubIOp"⟩, .one_to_one "llvm.sub"⟩,
   ⟨"mul", ⟨.hl, "MulIOp"⟩, .one_to_one "llvm.mul"⟩,
   ⟨"fadd", ⟨.hl, "AddFOp"⟩, .one_to_one "llvm.fadd"⟩,
   ⟨"fsub", ⟨.hl, "SubFOp"⟩, .one_to_one "llvm.fsub"⟩,
   ⟨"fmul", ⟨.hl, "MulFOp"⟩, .one_to_one "llvm.fmul"⟩,
   ⟨"sdiv", ⟨.hl, "DivSOp"⟩, .one_to_one "llvm.sdiv"⟩,
   ⟨"udiv", ⟨.hl, "DivUOp"⟩, .one_to_one "llvm.udiv"⟩,
   ⟨"fdiv", ⟨.hl, "DivFOp"⟩, .one_to_one "llvm.fdiv"⟩,
   ⟨"srem", ⟨.hl, "RemSOp"⟩, .one_to_one "llvm.srem"⟩,
   ⟨"urem", ⟨.hl, "RemUOp"⟩, .one_to_one "llvm.urem"⟩,
   ⟨"frem", ⟨.hl, "RemFOp"⟩, .one_to_one "llvm.frem"⟩,
   ⟨"bor", ⟨.hl, "BinOrOp"⟩, .one_to_one "llvm.or"⟩,
   ⟨"bxor", ⟨.hl, "BinXorOp"⟩, .one_to_one "llvm.xor"⟩,
   ⟨"band", ⟨.hl, "BinAndOp"⟩, .one_to_one "llvm.and"⟩,
   shl,
   shr,
   ⟨"assign_add", ⟨.hl, "AddIAssignOp"⟩, .assign_pattern (some "llvm.add")⟩,
   ⟨"assign_sub", ⟨.hl, "SubIAssignOp"⟩, .assign_pattern (some "llvm.sub")⟩,
   ⟨"assign", ⟨.hl, "AssignOp"⟩, .assign_pattern none⟩,
   ⟨"deref", ⟨.hl, "Deref"⟩, .deref⟩,
   ⟨"declref", ⟨.hl, "DeclRefOp"⟩, .ignore_pattern⟩,
   ⟨"implicit_cast", ⟨.hl, "ImplicitCastOp"⟩, .implicit_cast⟩,
   ⟨"call", ⟨.hl, "CallOp"⟩, .call⟩,
   ⟨"cmp", ⟨.hl, "CmpOp"⟩, .cmp⟩,
   ⟨"pre_inc", ⟨.hl, "PreIncOp"⟩, .unary_in_place "llvm.add" .pre⟩,
   ⟨"post_inc", ⟨.hl, "PostIncOp"⟩, .unary_in_place "llvm.add" .post⟩,
   ⟨"pre_dec", ⟨.hl, "PreDecOp"⟩, .unary_in_place "llvm.sub" .pre⟩,
   ⟨"post_dec", ⟨.hl, "PostDecOp"⟩, .unary_in_place "llvm.sub" .post⟩,
   ⟨"init_list_expr", ⟨.hl, "InitListExpr"⟩, .init_list_expr⟩,
   ⟨"uninit_var", ⟨.ll, "UninitializedVar"⟩, .uninit_var⟩,
   ⟨"initialize_var", ⟨.ll, "InitializeVar"⟩, .initialize_var⟩,
   ⟨"lazy_land", ⟨.core, "BinLAndOp"⟩, .lazy_bin_logical false⟩,
   ⟨"lazy_lor", ⟨.core, "BinLOrOp"⟩, .lazy_bin_logical true⟩]

/-- The patterns of the pass that are candidates for an operation kind. -/
def patterns_for (kind : OpKind) : List RegisteredPattern :=
  patterns.filter (fun p => p.is_match kind)

/-- The conversion target of `CoreToLLVMPass::runOnOperation`: whether an operation of
the kind `kind` with the result types `result_types` is legal.  The entries for single
operations go before the entries for dialects, and an operation no entry names is
legal. -/
def is_legal (kind : OpKind) (result_types : List mlir_type) : Bool :=
  if kind = ⟨.hl, "TypeDefOp"⟩ then true
  else if kind = ⟨.hl, "ValueYieldOp"⟩ then true
  else if kind = ⟨.core, "LazyOp"⟩ then true
  else if kind = ⟨.hl, "InitListExpr"⟩ then has_llvm_only_types result_types
  else if kind = ⟨.func, "FuncOp"⟩ then false
  else if kind.dialect = .hl then false
  else if kind.dialect = .ll then false
  else if kind.dialect = .core then false
  else true

end CoreToLLVMPass

/-! ## Variable declarations: `vardecl_op` of the high-level to low-level variables pass -/

/-- Values around a variable declaration: the result of the `hl::VarDeclOp`, the results
of the two operations the pattern creates, and all other values. -/
inductive VValue where
  | var
  | uninit_var
  | init_var
  | other (n : Nat)
  deriving DecidableEq, Repr

/-- Operations around a variable declaration: the ones present before the rewrite, known
by an identity and their operands, and the two operations the pattern creates. -/
inductive VOp where
  | other (id : Nat) (operands : List VValue)
  | UninitializedVar (type : mlir_type)
  | InitializeVar (type : mlir_type) (addr : VValue) (elements : List VValue)
  deriving DecidableEq, Repr

/-- The operands of an operation. -/
def VOp.operands : VOp → List VValue
  | .other _ operands => operands
  | .UninitializedVar _ => []
  | .InitializeVar _ addr elements => addr :: elements

/-- A user of the declared variable, as its use list names it: an operation known by its
identity, or the terminator of the initializer (the `hl::ValueYieldOp`). -/
inductive VUser where
  | op (id : Nat)
  | yield
  deriving DecidableEq, Repr

/-- A non-empty initializer region of a `hl::VarDeclOp`: the blocks before its last
block, the operations of its last block before the terminator, and the operand of the
terminator, an `hl::ValueYieldOp`. -/
structure Initializer where
  leading_blocks : List (List VOp)
  body : List VOp
  yield_operand : VValue
  deriving DecidableEq, Repr

/-- The matched `hl::VarDeclOp`: its type, its initializer (`none` for an empty region),
whether its parent operation is the module, and the users of its result in the order in
which `op->getUsers()` walks the use list (one entry for every use). -/
structure hl_VarDeclOp where
  type : mlir_type
  initializer : Option Initializer
  parent_is_module : Bool
  users : List VUser
  deriving DecidableEq, Repr

/-- The IR around the declaration after the rewrite: the blocks placed in front of the
block of the declaration, and that block. -/
structure VarDeclRewritten where
  blocks_before : List (List VOp)
  block : List VOp
  deriving DecidableEq, Repr

namespace vardecl_op

/-- Replace the uses of `old` by `new` in one operation. -/
def replace_uses (old new : VValue) : VOp → VOp
  | .other id operands => .other id (operands.map (fun v => if v = old then new else v))
  | .UninitializedVar type => .UninitializedVar type
  | .InitializeVar type addr elements =>
      .InitializeVar type (if addr = old then new else addr)
        (elements.map (fun v => if v = old then new else v))

/-- The test `op->isAncestor(user)`: the user is the terminator or one of the operations
of the initializer. -/
def isAncestor (init : Initializer) : VUser → Bool
  | .yield => true
  | .op id =>
      init.leading_blocks.any (fun b => b.any (fun o =>
        match o with
        | .other k _ => decide (k = id)
        | _ => false))
      || init.body.any (fun o =>
        match o with
        | .other k _ => decide (k = id)
        | _ => false)

/-- The walk `for (auto user : op->getUsers())` of the lambda `fix_init_refs`; the result
is the user whose operands were set.  The range steps through the use list of the result
of the declaration by the link of the current use.  A user outside of the declaration is
passed over.  At the first user inside of it the inner loop calls `setOperand` on every
operand that is the variable, which takes these uses, the current one among them, out of
the use list of the variable and puts them into the use list of `uninit_var`; from there
the walk only meets uses of this same user, none of which is the variable any more, and
ends.  The users that follow in the use list of the variable are not visited. -/
def fix_init_refs (init : Initializer) : List VUser → Option VUser
  | [] => none
  | user :: rest => if isAncestor init user then some user else fix_init_refs init rest

/-- The effect of `fix_init_refs` on one operation of the initializer: the operation
`fixed` has its uses of the variable set to `uninit_var`. -/
def set_operands (fixed : Option VUser) : VOp → VOp
  | .other id operands =>
      if fixed = some (.op id) then replace_uses .var .uninit_var (.other id operands)
      else .other id operands
  | o => o

/-- The method `vardecl_op::matchAndRewrite` with the function `inline_init_region`, for
a declaration that sits between the operations `before` and `after` of its block. -/
def matchAndRewrite (op : hl_VarDeclOp) (before after : List VOp) : VarDeclRewritten :=
  let trg_type := op.type
  -- created at the insertion point, in front of the declaration
  let uninit_var := VOp.UninitializedVar trg_type
  match op.initializer with
  | none =>
      -- `replaceOp(op, uninit_var)`
      ⟨[], before.map (replace_uses .var .uninit_var) ++ uninit_var
        :: after.map (replace_uses .var .uninit_var)⟩
  | some init =>
      let fixed := fix_init_refs init op.users
      let leading_blocks := init.leading_blocks.map (fun b => b.map (set_operands fixed))
      let body := init.body.map (set_operands fixed)
      let yield_operand :=
        if fixed = some .yield ∧ init.yield_operand = .var then VValue.uninit_var
        else init.yield_operand
      -- `inline_init_region`: the blocks of the region go in front of the block of the
      -- declaration, the operations of the last one in front of the declaration
      let init_var := VOp.InitializeVar trg_type .uninit_var [yield_operand]
      -- `replaceOp(op, init_var)` with the created `InitializeVar`: every use of the
      -- variable that is left now uses its result; `eraseOp(yield)`
      ⟨leading_blocks.map (fun b => b.map (replace_uses .var .init_var)),
        (before ++ uninit_var :: body ++ init_var :: after).map
          (replace_uses .var .init_var)⟩

end vardecl_op

namespace HLToLLVarsPass

/-- The legality of a `hl::VarDeclOp` under the conversion target of
`HLToLLVarsPass::runOnOperation`: its parent operation is the module. -/
def is_legal (op : hl_VarDeclOp) : Bool := op.parent_is_module

/-- The partial conversion on one declaration: the pattern is applied to an illegal
declaration; a legal one is left as it is (`none`). -/
def runOnOperation (op : hl_VarDeclOp) (before after : List VOp) : Option VarDeclRewritten :=
  if is_legal op then none else some (vardecl_op.matchAndRewrite op before after)

end HLToLLVarsPass

/-- The declaration `int *x = malloc(sizeof(*x))` of the comment in the source, inside a
function: the initializer holds one operation (1) that uses `x` itself and yields its
result; the operation after the declaration (2) uses `x` and was created last, so its
use is the first of the use list. -/
def example_vardecl : hl_VarDeclOp where
  type := .hl_lvalue (.hl_other 0)
  initializer := some ⟨[], [.other 1 [.var]], .other 1⟩
  parent_is_module := false
  users := [.op 2, .op 1]

/-- The declaration `struct node h = { &h, &h }` inside a function: two operations of the
initializer (1 and 2) use `h` itself, operation 3 builds the value from them and is
yielded; the operation after the declaration (4) uses `h`.  The use list names the users
in the order `users`. -/
def example_vardecl_two_users (users : List VUser) : hl_VarDeclOp where
  type := .hl_lvalue (.hl_other 0)
  initializer :=
    some ⟨[], [.other 1 [.var], .other 2 [.var], .other 3 [.other 1, .other 2]], .other 3⟩
  parent_is_module := false
  users := users

/-- The value an operation defines. -/
def VOp.result : VOp → VValue
  | .other id _ => .other id
  | .UninitializedVar _ => .uninit_var
  | .InitializeVar _ _ _ => .init_var

/-- The values defined after the operations `ops`, when `defined` were defined before. -/
def defs_after (defined : List VValue) (ops : List VOp) : List VValue :=
  ops.reverse.map VOp.result ++ defined

/-- Definitions before uses in a straight sequence of operations: every operand of an
operation is among the values `defined` in front of the sequence or is the result of an
earlier operation of the sequence. -/
def dominated (defined : List VValue) : List VOp → Bool
  | [] => true
  | o :: rest => o.operands.all (fun v => decide (v ∈ defined))
      && dominated (o.result :: defined) rest

/-! ## Values of the created operations: loads, stores and integer arithmetic -/

/-- The state in which created operations run: the memory, a value for every address,
and the results of the operations run so far, in the order of their creation (`none` for
an operation without result). -/
structure ExecState where
  memory : Nat → Nat
  results : List (Option Nat)

/-- The bit width of an integer type. -/
def integer_width : Option mlir_type → Option Nat
  | some (.integer w) => some w
  | _ => none

namespace ExecState

/-- The value of an operand of a created operation: `operands` gives the values of the
operands of the matched operation (an address for a pointer). -/
def eval (operands : Nat → Nat) (st : ExecState) : PValue → Option Nat
  | .operand i => some (operands i)
  | .created i => (st.results.get? i).join
  | .result _ _ => none

/-- Append the result of an operation. -/
def push (st : ExecState) (r : Option Nat) : ExecState :=
  { st with results := st.results ++ [r] }

/-- Run one created operation: a load reads the memory at its address, an integer
constant is its value modulo `2^w`, `llvm.add` and `llvm.sub` are the addition and the
subtraction modulo `2^w` for operations of the `w`-bit integer type, a store writes the
memory at its address. The other operations are not given a value (`none`). -/
def step (operands : Nat → Nat) (st : ExecState) : LLVMOp → Option ExecState
  | .LoadOp _ addr =>
      (st.eval operands addr).map (fun a => st.push (some (st.memory a)))
  | .ConstantIntOp type value =>
      (integer_width type).map (fun w => st.push (some (value % 2 ^ w).toNat))
  | .target name type [lhs, rhs] =>
      match integer_width type, st.eval operands lhs, st.eval operands rhs with
      | some w, some x, some y =>
          if name = "llvm.add" then some (st.push (some ((x + y) % 2 ^ w)))
          else if name = "llvm.sub" then
            some (st.push (some (((x : Int) - (y : Int)) % 2 ^ w).toNat))
          else none
      | _, _, _ => none
  | .StoreOp value addr =>
      match st.eval operands value, st.eval operands addr with
      | some x, some a =>
          some { memory := fun b => if b = a then x else st.memory b,
                 results := st.results ++ [none] }
      | _, _ => none
  | _ => none

/-- Run created operations in order. -/
def exec (operands : Nat → Nat) : ExecState → List LLVMOp → Option ExecState
  | st, [] => some st
  | st, op :: rest => (st.step operands op).bind (fun st => exec operands st rest)

end ExecState

/-- The memory of the examples: the value 41 at every address. -/
def example_memory : ExecState := ⟨fun _ => 41, []⟩

/-- The memory of the examples for a wrap-around: the value 0 at every address. -/
def zero_memory : ExecState := ⟨fun _ => 0, []⟩

namespace cg

/-- A call of one of the methods of the type driver. -/
inductive driver_call where
  | convert_type (type : qual_type)
  | get_function_type (fninfo : function_info_t)
  | start_function_processing (fninfo : Nat)
  | finish_function_processing (fninfo : Nat)
  deriving DecidableEq, Repr

/-- The state of the type driver after a call, whether the call returned or threw. -/
def driver_call.run (driver : codegen_driver) :
    driver_call → type_conversion_driver → type_conversion_driver
  | .convert_type type, self => (type_conversion_driver.convert_type driver type self).2
  | .get_function_type fninfo, self =>
      (type_conversion_driver.get_function_type driver fninfo self).2
  | .start_function_processing fninfo, self =>
      (type_conversion_driver.start_function_processing fninfo self).2
  | .finish_function_processing fninfo, self =>
      (type_conversion_driver.finish_function_processing fninfo self).2

/-- The state of the type driver after a sequence of calls. -/
def run_calls (driver : codegen_driver) (calls : List driver_call)
    (self : type_conversion_driver) : type_conversion_driver :=
  calls.foldl (fun self call => call.run driver self) self

/-- The type cache only grows from `s` to `t`: every entry of `s` is found unchanged in
`t`, and `codegen.convert` was invoked in between only on types that `s` had no entry
for. -/
def cache_grows (s t : type_conversion_driver) : Prop :=
  (∀ p v, s.type_cache.lookup p = some v → t.type_cache.lookup p = some v)
  ∧ ∃ later, t.convert_calls = s.convert_calls ++ later
      ∧ ∀ c ∈ later, s.type_cache.lookup c.type_ptr = none

end cg

end vast

namespace vast

/-! ## Integer constants: `constant_int::convert_attr` -/

theorem two_pow_pred_double (n : Nat) (h : n ≠ 0) : 2 ^ n = 2 * 2 ^ (n - 1) := by
  obtain ⟨k, rfl⟩ := Nat.exists_eq_succ_of_ne_zero h
  simp [pow_succ, Nat.mul_comm]

theorem two_pow_le_pred (n w : Nat) (h : n < w) : 2 ^ n ≤ 2 ^ (w - 1) :=
  Nat.pow_le_pow_right (by decide) (by omega)

theorem APInt.sext_spec (a : APInt) (w : Nat) (h : a.wf) (hw : a.BitWidth < w) :
    (a.sext w).BitWidth = w ∧ (a.sext w).wf ∧ (a.sext w).getSExtValue = a.getSExtValue := by
  obtain ⟨N, v⟩ := a
  simp only [APInt.wf] at h hw
  have hQ := two_pow_pred_double w (by omega)
  have hPq := two_pow_le_pred N w hw
  by_cases hneg : (APInt.mk N v).isNegative = true
  · have hn := hneg
    simp only [APInt.isNegative, decide_eq_true_eq] at hn
    have hP := two_pow_pred_double N hn.1
    have hneg2 : (APInt.mk w (v + (2 ^ w - 2 ^ N))).isNegative = true := by
      simp only [APInt.isNegative, decide_eq_true_eq]
      refine ⟨by omega, ?_⟩
      omega
    simp only [APInt.sext, hneg, if_true, APInt.wf, APInt.getSExtValue, hneg2]
    refine ⟨trivial, by omega, ?_⟩
    have hle : 2 ^ N ≤ 2 ^ w := by omega
    push_cast [Nat.cast_sub hle]
    ring
  · have hn := hneg
    simp only [APInt.isNegative, decide_eq_true_eq, not_and_or, not_not, not_le] at hn
    have hv : v < 2 ^ (w - 1) := by
      rcases hn with h0 | h1
      · subst h0; simp at h; subst h; exact Nat.pos_pow_of_pos _ (by decide)
      · by_cases h0 : N = 0
        · subst h0; simp at h; subst h; exact Nat.pos_pow_of_pos _ (by decide)
        · have hP := two_pow_pred_double N h0
          omega
    have hneg2 : (APInt.mk w v).isNegative = false := by
      simp only [APInt.isNegative, decide_eq_false_iff_not, not_and_or, not_not, not_le]
      right; exact hv
    simp only [Bool.not_eq_true] at hneg
    simp only [APInt.sext, hneg, APInt.wf, APInt.getSExtValue, hneg2, Bool.false_eq_true,
      if_false]
    exact ⟨trivial, by omega, trivial⟩

theorem APInt.trunc_fits (a : APInt) (w : Nat) (h : a.wf) (hw : w < a.BitWidth) (h0 : 0 < w)
    (hlo : -(2 ^ (w - 1) : Int) ≤ a.getSExtValue) (hhi : a.getSExtValue < 2 ^ (w - 1)) :
    (a.trunc w).getSExtValue = a.getSExtValue := by
  obtain ⟨N, v⟩ := a
  simp only [APInt.wf] at h hw
  have hQ := two_pow_pred_double w (by omega)
  have hP := two_pow_pred_double N (by omega)
  have hK : 2 ^ N = 2 ^ w * 2 ^ (N - w) := by
    rw [← pow_add]; congr 1; omega
  have hKpos : 2 ^ (N - w) ≠ 0 := by positivity
  obtain ⟨K, hKs⟩ := Nat.exists_eq_succ_of_ne_zero hKpos
  rw [hKs, Nat.mul_succ] at hK
  by_cases hneg : (APInt.mk N v).isNegative = true
  · have hn := hneg
    simp only [APInt.isNegative, decide_eq_true_eq] at hn
    simp only [APInt.getSExtValue, hneg, if_true] at hlo hhi ⊢
    have hlo2 : 2 ^ N ≤ v + 2 ^ (w - 1) := by
      have : ((2 ^ N : Nat) : Int) ≤ ((v + 2 ^ (w - 1) : Nat) : Int) := by
        push_cast; linarith
      exact_mod_cast this
    have hmod : v % 2 ^ w = v - 2 ^ w * K := by
      have hv : v = (v - 2 ^ w * K) + 2 ^ w * K := by omega
      conv_lhs => rw [hv]
      rw [Nat.add_mul_mod_self_left]
      exact Nat.mod_eq_of_lt (by omega)
    have hneg2 : (APInt.mk w (v % 2 ^ w)).isNegative = true := by
      simp only [APInt.isNegative, decide_eq_true_eq]
      refine ⟨by omega, ?_⟩
      rw [hmod]; omega
    rw [hmod] at hneg2
    simp only [APInt.trunc, hmod, hneg2, if_true]
    have hle : 2 ^ w * K ≤ v := by omega
    have hKi : (2 : Int) ^ N = 2 ^ w * K + 2 ^ w := by exact_mod_cast hK
    rw [hKi]
    push_cast [Nat.cast_sub hle]
    ring
  · have hn := hneg
    simp only [APInt.isNegative, decide_eq_true_eq, not_and_or, not_not, not_le] at hn
    simp only [Bool.not_eq_true] at hneg
    simp only [APInt.getSExtValue, hneg, Bool.false_eq_true, if_false] at hlo hhi ⊢
    have hv : v < 2 ^ (w - 1) := by exact_mod_cast hhi
    have hmod : v % 2 ^ w = v := Nat.mod_eq_of_lt (by omega)
    have hneg2 : (APInt.mk w (v % 2 ^ w)).isNegative = false := by
      simp only [APInt.isNegative, decide_eq_false_iff_not, not_and_or, not_not, not_le]
      right; rw [hmod]; exact hv
    rw [hmod] at hneg2
    simp only [APInt.trunc, hmod, hneg2, Bool.false_eq_true, if_false]

/-- C1 (as stated, refuted): the 8-bit unsigned constant `0xFF` converted to a 32-bit
target becomes `0xFFFFFFFF`, which is not its zero-extension `0x000000FF`. -/
theorem convert_attr_unsigned_0xFF_not_zext :
    constant_int.convert_attr (example_tc 32)
        (.IntegerAttr (.hl_integer 8 true) ⟨⟨8, 0xFF⟩, true⟩)
      = some (.IntegerAttr (.integer 32) ⟨32, 0xFFFFFFFF⟩)
    ∧ constant_int.convert_attr (example_tc 32)
        (.IntegerAttr (.hl_integer 8 true) ⟨⟨8, 0xFF⟩, true⟩)
      ≠ some (.IntegerAttr (.integer 32) (APInt.zext ⟨8, 0xFF⟩ 32)) := by
  decide

/-- C1 (amended): an unsigned source constant of `N` bits converted by
`constant_int::convert_attr` to a target of `M > N` bits yields the sign-extension of the
source bit pattern: an `M`-bit constant with the same two's complement reading, which is
the zero-extension when the top bit of the source is clear and has all new high bits set
otherwise. -/
theorem convert_attr_unsigned_widen (tc : TypeConverter) (ty target : mlir_type) (v : APSInt)
    (_hu : v.IsUnsigned = true) (hwf : v.toAPInt.wf)
    (hconv : tc.convert_type_to_type ty = some target)
    (hM : v.toAPInt.BitWidth < tc.getTypeSizeInBits target) :
    ∃ r : APInt,
      constant_int.convert_attr tc (.IntegerAttr ty v) = some (.IntegerAttr target r)
      ∧ r.BitWidth = tc.getTypeSizeInBits target ∧ r.wf
      ∧ r.getSExtValue = v.toAPInt.getSExtValue
      ∧ (v.toAPInt.isNegative = false → r = v.toAPInt.zext (tc.getTypeSizeInBits target))
      ∧ (v.toAPInt.isNegative = true →
          r.VAL = v.toAPInt.VAL
            + (2 ^ tc.getTypeSizeInBits target - 2 ^ v.toAPInt.BitWidth)) := by
  refine ⟨v.toAPInt.sext (tc.getTypeSizeInBits target), ?_, ?_⟩
  · simp [constant_int.convert_attr, hl_attr.getType, hconv, APInt.sextOrTrunc, hM]
  · obtain ⟨h1, h2, h3⟩ := APInt.sext_spec v.toAPInt _ hwf hM
    refine ⟨h1, h2, h3, ?_, ?_⟩
    · intro hn; simp [APInt.sext, APInt.zext, hn]
    · intro hn; simp [APInt.sext, hn]

/-- Witness of `convert_attr_unsigned_widen`: the unsigned 8-bit constant `0x7F`
converted to 32 bits. -/
theorem convert_attr_unsigned_widen_witness :
    (⟨⟨8, 0x7F⟩, true⟩ : APSInt).IsUnsigned = true ∧ (⟨8, 0x7F⟩ : APInt).wf
    ∧ (example_tc 32).convert_type_to_type (.hl_integer 8 true) = some (.integer 32)
    ∧ (8 : Nat) < (example_tc 32).getTypeSizeInBits (.integer 32)
    ∧ ∃ r : APInt,
      constant_int.convert_attr (example_tc 32)
          (.IntegerAttr (.hl_integer 8 true) ⟨⟨8, 0x7F⟩, true⟩)
        = some (.IntegerAttr (.integer 32) r)
      ∧ r.BitWidth = 32 ∧ r.wf
      ∧ r.getSExtValue = (⟨8, 0x7F⟩ : APInt).getSExtValue
      ∧ ((⟨8, 0x7F⟩ : APInt).isNegative = false → r = (⟨8, 0x7F⟩ : APInt).zext 32)
      ∧ ((⟨8, 0x7F⟩ : APInt).isNegative = true → r.VAL = 0x7F + (2 ^ 32 - 2 ^ 8)) :=
  ⟨rfl, by decide, rfl, by decide,
    convert_attr_unsigned_widen (example_tc 32) (.hl_integer 8 true) (.integer 32)
      ⟨⟨8, 0x7F⟩, true⟩ rfl (by decide) rfl (by decide)⟩

/-- C2: a signed source constant of `N` bits converted by `constant_int::convert_attr`
to a target of `M` bits yields an `M`-bit constant that is the sign-extension of the
value when `M > N` (same two's complement reading), the value itself when `M = N`, and
its low `M` bits when `M < N`; a value that fits in `M` signed bits keeps its two's
complement reading in every case. -/
theorem convert_attr_signed (tc : TypeConverter) (ty target : mlir_type) (v : APSInt)
    (_hs : v.IsUnsigned = false) (hwf : v.toAPInt.wf)
    (hconv : tc.convert_type_to_type ty = some target) :
    ∃ r : APInt,
      constant_int.convert_attr tc (.IntegerAttr ty v) = some (.IntegerAttr target r)
      ∧ r.BitWidth = tc.getTypeSizeInBits target ∧ r.wf
      ∧ (v.toAPInt.BitWidth < tc.getTypeSizeInBits target →
          r.getSExtValue = v.toAPInt.getSExtValue)
      ∧ (v.toAPInt.BitWidth = tc.getTypeSizeInBits target → r = v.toAPInt)
      ∧ (tc.getTypeSizeInBits target < v.toAPInt.BitWidth →
          r.VAL = v.toAPInt.VAL % 2 ^ tc.getTypeSizeInBits target)
      ∧ (0 < tc.getTypeSizeInBits target →
          -(2 ^ (tc.getTypeSizeInBits target - 1) : Int) ≤ v.toAPInt.getSExtValue →
          v.toAPInt.getSExtValue < 2 ^ (tc.getTypeSizeInBits target - 1) →
          r.getSExtValue = v.toAPInt.getSExtValue) := by
  refine ⟨v.toAPInt.sextOrTrunc (tc.getTypeSizeInBits target), ?_, ?_⟩
  · simp [constant_int.convert_attr, hl_attr.getType, hconv]
  · rcases Nat.lt_trichotomy v.toAPInt.BitWidth (tc.getTypeSizeInBits target) with hlt | heq | hgt
    · obtain ⟨h1, h2, h3⟩ := APInt.sext_spec v.toAPInt _ hwf hlt
      have hr : v.toAPInt.sextOrTrunc (tc.getTypeSizeInBits target)
          = v.toAPInt.sext (tc.getTypeSizeInBits target) := by
        simp [APInt.sextOrTrunc, hlt]
      rw [hr]
      exact ⟨h1, h2, fun _ => h3, fun h => absurd h (by omega), fun h => absurd h (by omega),
        fun _ _ _ => h3⟩
    · have hr : v.toAPInt.sextOrTrunc (tc.getTypeSizeInBits target) = v.toAPInt := by
        simp [APInt.sextOrTrunc, heq]
      rw [hr]
      exact ⟨heq, hwf, fun _ => rfl, fun _ => rfl, fun h => absurd h (by omega),
        fun _ _ _ => rfl⟩
    · have hr : v.toAPInt.sextOrTrunc (tc.getTypeSizeInBits target)
          = v.toAPInt.trunc (tc.getTypeSizeInBits target) := by
        simp [APInt.sextOrTrunc, hgt, Nat.lt_asymm hgt]
      rw [hr]
      refine ⟨rfl, ?_, fun h => absurd h (by omega), fun h => absurd h (by omega),
        fun _ => rfl, fun h0 hlo hhi => APInt.trunc_fits v.toAPInt _ hwf hgt h0 hlo hhi⟩
      exact Nat.mod_lt _ (by positivity)

/-- Witness of `convert_attr_signed`: the signed 8-bit constant `-1` (pattern `0xFF`)
converted to 32 bits; the result reads `-1` again. -/
theorem convert_attr_signed_witness :
    (⟨⟨8, 0xFF⟩, false⟩ : APSInt).IsUnsigned = false ∧ (⟨8, 0xFF⟩ : APInt).wf
    ∧ (example_tc 32).convert_type_to_type (.hl_integer 8 false) = some (.integer 32)
    ∧ ∃ r : APInt,
      constant_int.convert_attr (example_tc 32)
          (.IntegerAttr (.hl_integer 8 false) ⟨⟨8, 0xFF⟩, false⟩)
        = some (.IntegerAttr (.integer 32) r)
      ∧ r.BitWidth = 32 ∧ r.wf
      ∧ ((8 : Nat) < 32 → r.getSExtValue = (⟨8, 0xFF⟩ : APInt).getSExtValue)
      ∧ ((8 : Nat) = 32 → r = ⟨8, 0xFF⟩)
      ∧ ((32 : Nat) < 8 → r.VAL = 0xFF % 2 ^ 32)
      ∧ (0 < 32 →
          -(2 ^ (32 - 1) : Int) ≤ (⟨8, 0xFF⟩ : APInt).getSExtValue →
          (⟨8, 0xFF⟩ : APInt).getSExtValue < 2 ^ (32 - 1) →
          r.getSExtValue = (⟨8, 0xFF⟩ : APInt).getSExtValue) :=
  ⟨rfl, by decide, rfl,
    convert_attr_signed (example_tc 32) (.hl_integer 8 false) (.integer 32)
      ⟨⟨8, 0xFF⟩, false⟩ rfl (by decide) rfl⟩

/-- Examples of the conversion of signed constants: the 8-bit `-1` becomes the 32-bit
`-1`, the 32-bit `0x1FF` becomes the 8-bit `0xFF`, and the 32-bit `5` stays `5`. -/
theorem convert_attr_signed_examples :
    constant_int.convert_attr (example_tc 32)
        (.IntegerAttr (.hl_integer 8 false) ⟨⟨8, 0xFF⟩, false⟩)
      = some (.IntegerAttr (.integer 32) ⟨32, 0xFFFFFFFF⟩)
    ∧ (⟨8, 0xFF⟩ : APInt).getSExtValue = -1
    ∧ (⟨32, 0xFFFFFFFF⟩ : APInt).getSExtValue = -1
    ∧ constant_int.convert_attr (example_tc 8)
        (.IntegerAttr (.hl_integer 32 false) ⟨⟨32, 0x1FF⟩, false⟩)
      = some (.IntegerAttr (.integer 8) ⟨8, 0xFF⟩)
    ∧ constant_int.convert_attr (example_tc 32)
        (.IntegerAttr (.hl_integer 32 false) ⟨⟨32, 5⟩, false⟩)
      = some (.IntegerAttr (.integer 32) ⟨32, 5⟩) := by
  decide

/-! ## Short-circuit logical operations -/

theorem run_source_trace (l : List SourceOp) (m : Machine) :
    (run_source l m).trace = m.trace ++ l.map (fun o => Event.exec o.id) := by
  induction l generalizing m with
  | nil => simp [run_source]
  | cons o rest ih =>
    simp [run_source, ih, SourceOp.exec, Machine.set, Machine.log]

theorem run_source_append (l₁ l₂ : List SourceOp) (m : Machine) :
    run_source (l₁ ++ l₂) m = run_source l₂ (run_source l₁ m) := by
  induction l₁ generalizing m with
  | nil => rfl
  | cons o rest ih => simp [run_source, ih]

theorem exec_ops_source_append (l : List SourceOp) (rest : List Operation) (m : Machine) :
    exec_ops (l.map Operation.source ++ rest) m = exec_ops rest (run_source l m) := by
  induction l generalizing m with
  | nil => rfl
  | cons o tl ih => simp [exec_ops, run_source, ih]

theorem exec_ops_source_map (f : SourceOp → SourceOp) (l : List SourceOp) (m : Machine) :
    exec_ops (l.map (fun o => Operation.source (f o))) m = (run_source (l.map f) m, none) := by
  induction l generalizing m with
  | nil => rfl
  | cons o tl ih => simp [exec_ops, run_source, ih]

theorem bind_arguments_nil (ps : List (Value × mlir_type)) (m : Machine) :
    bind_arguments ps [] m = m := by
  cases ps with
  | nil => rfl
  | cons p tl => obtain ⟨v, t⟩ := p; rfl

theorem replace_uses_id (old new : Value) (o : SourceOp) :
    (o.replace_uses old new).id = o.id := rfl

/-- Execution of the blocks produced by `lazy_bin_logical::matchAndRewrite`: three
blocks of fuel are enough, and the events observed are those of the head block (with the
left operand), then those of the right-hand block exactly when the comparison of the
left value with zero differs from `short_on_true`, then those of the join block. -/
theorem run_matchAndRewrite (tc : TypeConverter) (short_on_true : Bool) (op : LogicalOp)
    (m₀ : Machine) :
    ∃ mf : Machine,
      run (lazy_bin_logical.matchAndRewrite tc short_on_true op) 3 .curr_block [] m₀ = some mf
      ∧ mf.trace = m₀.trace ++ [Event.enter .curr_block]
          ++ (op.before ++ op.lhs.body).map (fun o => Event.exec o.id)
          ++ (if (decide ((run_source (op.before ++ op.lhs.body)
                  (m₀.log (.enter .curr_block))).env (.source op.lhs.yield_operand) = 0)
                != short_on_true)
              then Event.enter .rhs_block :: op.rhs.body.map (fun o => Event.exec o.id)
              else [])
          ++ [Event.enter .end_block]
          ++ op.after.map (fun o => Event.exec o.id) := by
  have hmap : ∀ (f : SourceOp → SourceOp), (∀ o, (f o).id = o.id) → ∀ l : List SourceOp,
      (l.map f).map (fun o => Event.exec o.id) = l.map (fun o => Event.exec o.id) := by
    intro f hf l
    simp [List.map_map, Function.comp_def, hf]
  by_cases ha : (run_source (op.before ++ op.lhs.body)
      (m₀.log (.enter .curr_block))).env (.source op.lhs.yield_operand) = 0
  all_goals simp only [ha, decide_True, decide_False]
  all_goals simp only [run_source_append, Machine.log] at ha
  · cases short_on_true
    · simp [lazy_bin_logical.matchAndRewrite, lazy_bin_logical.insert_lazy_to_block, run,
        Lowered.block, bind_arguments_nil, bind_arguments, exec_ops_source_append,
        exec_ops_source_map, exec_ops, Machine.set, Machine.log, ICmpPredicate.eval,
        run_source_trace, run_source_append, ha, hmap, replace_uses_id]
    · simp [lazy_bin_logical.matchAndRewrite, lazy_bin_logical.insert_lazy_to_block, run,
        Lowered.block, bind_arguments_nil, bind_arguments, exec_ops_source_append,
        exec_ops_source_map, exec_ops, Machine.set, Machine.log, ICmpPredicate.eval,
        run_source_trace, run_source_append, ha, hmap, replace_uses_id]
  · cases short_on_true
    · simp [lazy_bin_logical.matchAndRewrite, lazy_bin_logical.insert_lazy_to_block, run,
        Lowered.block, bind_arguments_nil, bind_arguments, exec_ops_source_append,
        exec_ops_source_map, exec_ops, Machine.set, Machine.log, ICmpPredicate.eval,
        run_source_trace, run_source_append, ha, hmap, replace_uses_id]
    · simp [lazy_bin_logical.matchAndRewrite, lazy_bin_logical.insert_lazy_to_block, run,
        Lowered.block, bind_arguments_nil, bind_arguments, exec_ops_source_append,
        exec_ops_source_map, exec_ops, Machine.set, Machine.log, ICmpPredicate.eval,
        run_source_trace, run_source_append, ha, hmap, replace_uses_id]

/-- C3 (what the code does): in the blocks produced by `lazy_bin_logical`, the head
block with the left operand runs first, and the right-hand block is entered, for
`lazy_land`, exactly when the left value is zero, and for `lazy_lor`, exactly when the
left value is nonzero: the opposite of the short-circuit rule of `&&` and `||`. -/
theorem lazy_bin_logical_rhs_reached_iff (tc : TypeConverter) (op : LogicalOp) (m₀ : Machine) :
    (∃ mf new, run (lazy_bin_logical.lazy_land tc op) 3 .curr_block [] m₀ = some mf
      ∧ mf.trace = m₀.trace ++ Event.enter .curr_block
          :: (op.before ++ op.lhs.body).map (fun o => Event.exec o.id) ++ new
      ∧ (Event.enter .rhs_block ∈ new ↔
          (run_source (op.before ++ op.lhs.body)
            (m₀.log (.enter .curr_block))).env (.source op.lhs.yield_operand) = 0))
    ∧ (∃ mf new, run (lazy_bin_logical.lazy_lor tc op) 3 .curr_block [] m₀ = some mf
      ∧ mf.trace = m₀.trace ++ Event.enter .curr_block
          :: (op.before ++ op.lhs.body).map (fun o => Event.exec o.id) ++ new
      ∧ (Event.enter .rhs_block ∈ new ↔
          (run_source (op.before ++ op.lhs.body)
            (m₀.log (.enter .curr_block))).env (.source op.lhs.yield_operand) ≠ 0)) := by
  constructor
  · obtain ⟨mf, hrun, htr⟩ := run_matchAndRewrite tc false op m₀
    refine ⟨mf, (if (decide ((run_source (op.before ++ op.lhs.body)
          (m₀.log (.enter .curr_block))).env (.source op.lhs.yield_operand) = 0) != false)
        then Event.enter .rhs_block :: op.rhs.body.map (fun o => Event.exec o.id) else [])
        ++ [Event.enter .end_block] ++ op.after.map (fun o => Event.exec o.id), hrun, ?_, ?_⟩
    · rw [htr]; simp only [List.append_assoc, List.singleton_append, List.cons_append,
        List.nil_append]
    · by_cases ha : (run_source (op.before ++ op.lhs.body)
          (m₀.log (.enter .curr_block))).env (.source op.lhs.yield_operand) = 0
      · simp [ha]
      · simp [ha]
  · obtain ⟨mf, hrun, htr⟩ := run_matchAndRewrite tc true op m₀
    refine ⟨mf, (if (decide ((run_source (op.before ++ op.lhs.body)
          (m₀.log (.enter .curr_block))).env (.source op.lhs.yield_operand) = 0) != true)
        then Event.enter .rhs_block :: op.rhs.body.map (fun o => Event.exec o.id) else [])
        ++ [Event.enter .end_block] ++ op.after.map (fun o => Event.exec o.id), hrun, ?_, ?_⟩
    · rw [htr]; simp only [List.append_assoc, List.singleton_append, List.cons_append,
        List.nil_append]
    · by_cases ha : (run_source (op.before ++ op.lhs.body)
          (m₀.log (.enter .curr_block))).env (.source op.lhs.yield_operand) = 0
      · simp [ha]
      · simp [ha]

/-- C4: for a logical-AND lowered by `lazy_land` whose left operand evaluates to a
nonzero value and whose right operand would evaluate to zero, running the lowered
blocks observes the head block with the operations before the logical operation and
the left operand body, then the join block; the right-hand block is not entered. -/
theorem lazy_land_true_false_skips_rhs (tc : TypeConverter) (op : LogicalOp) (m₀ : Machine)
    (hl : (run_source (op.before ++ op.lhs.body)
        (m₀.log (.enter .curr_block))).env (.source op.lhs.yield_operand) ≠ 0)
    (_hr : (run_source op.rhs.body (run_source (op.before ++ op.lhs.body)
        (m₀.log (.enter .curr_block)))).env (.source op.rhs.yield_operand) = 0) :
    ∃ mf, run (lazy_bin_logical.lazy_land tc op) 3 .curr_block [] m₀ = some mf
      ∧ mf.trace = m₀.trace ++ [Event.enter .curr_block]
          ++ op.before.map (fun o => Event.exec o.id)
          ++ op.lhs.body.map (fun o => Event.exec o.id)
          ++ [Event.enter .end_block]
          ++ op.after.map (fun o => Event.exec o.id)
      ∧ Event.enter .rhs_block ∉ [Event.enter .curr_block]
          ++ op.before.map (fun o => Event.exec o.id)
          ++ op.lhs.body.map (fun o => Event.exec o.id)
          ++ [Event.enter .end_block]
          ++ op.after.map (fun o => Event.exec o.id) := by
  obtain ⟨mf, hrun, htr⟩ := run_matchAndRewrite tc false op m₀
  refine ⟨mf, hrun, ?_, ?_⟩
  · rw [htr]; simp [hl]
  · simp

/-- Witness of `lazy_land_true_false_skips_rhs`: `1 && 0`. -/
theorem lazy_land_true_false_skips_rhs_witness :
    (run_source ((example_logical 1 0).before ++ (example_logical 1 0).lhs.body)
        (example_machine.log (.enter .curr_block))).env
          (.source (example_logical 1 0).lhs.yield_operand) ≠ 0
    ∧ (run_source (example_logical 1 0).rhs.body
        (run_source ((example_logical 1 0).before ++ (example_logical 1 0).lhs.body)
          (example_machine.log (.enter .curr_block)))).env
          (.source (example_logical 1 0).rhs.yield_operand) = 0
    ∧ ∃ mf, run (lazy_bin_logical.lazy_land (example_tc 32) (example_logical 1 0)) 3
          .curr_block [] example_machine = some mf
      ∧ mf.trace = example_machine.trace ++ [Event.enter .curr_block]
          ++ (example_logical 1 0).before.map (fun o => Event.exec o.id)
          ++ (example_logical 1 0).lhs.body.map (fun o => Event.exec o.id)
          ++ [Event.enter .end_block]
          ++ (example_logical 1 0).after.map (fun o => Event.exec o.id)
      ∧ Event.enter .rhs_block ∉ [Event.enter .curr_block]
          ++ (example_logical 1 0).before.map (fun o => Event.exec o.id)
          ++ (example_logical 1 0).lhs.body.map (fun o => Event.exec o.id)
          ++ [Event.enter .end_block]
          ++ (example_logical 1 0).after.map (fun o => Event.exec o.id) :=
  ⟨by decide, by decide,
    lazy_land_true_false_skips_rhs (example_tc 32) (example_logical 1 0) example_machine
      (by decide) (by decide)⟩

/-- C5 (what the code does): for the logical-OR `1 || 0` lowered by `lazy_lor`, running
the lowered blocks enters the right-hand block and runs the right operand (id 2) after
the left operand (id 1), although the left value already determines the result. -/
theorem lazy_lor_true_false_runs_rhs :
    (run (lazy_bin_logical.lazy_lor (example_tc 32) (example_logical 1 0)) 3
        .curr_block [] example_machine).map Machine.trace
      = some [Event.enter .curr_block, Event.exec 1, Event.enter .rhs_block, Event.exec 2,
          Event.enter .end_block] := by
  decide

/-! ## Function lowering -/

/-- The variadicity of the matched function reaches the result of `func_op` through the
conversion signature only: with the same signature the rewrite is the same, whatever
`is_variadic` says about the function. -/
theorem func_op_variadicity_only_in_signature (tc : FnTypeConverter) (f : FuncOp)
    (v : Bool)
    (hsig : tc.get_conversion_signature f v
      = tc.get_conversion_signature f (tc.is_variadic f)) :
    func_op.matchAndRewrite { tc with is_variadic := fun _ => v } f
      = func_op.matchAndRewrite tc f := by
  have hargs : ∀ (args : List mlir_type) (i : Nat) (body : List FnBlock) (ip : Nat),
      func_op.args_loop { tc with is_variadic := fun _ => v } args i body ip
        = func_op.args_loop tc args i body ip := by
    intro args
    induction args with
    | nil => intro i body ip; rfl
    | cons a rest ih =>
      intro i body ip
      simp only [func_op.args_loop, func_op.arg_to_alloca]
      cases tc.pointer_type a with
      | none => rfl
      | some ptr => exact ih _ _ _
  have hallocas : ∀ fn, func_op.args_to_allocas { tc with is_variadic := fun _ => v } fn
      = func_op.args_to_allocas tc fn := by
    intro fn
    simp only [func_op.args_to_allocas, hargs]
  simp only [func_op.matchAndRewrite, hsig, hallocas, func_op.create_func]

namespace cg

open type_conversion_driver

theorem cache_grows_refl (s : type_conversion_driver) : cache_grows s s :=
  ⟨fun _ _ h => h, [], by simp, by simp⟩

theorem cache_grows_trans {s t u : type_conversion_driver}
    (h₁ : cache_grows s t) (h₂ : cache_grows t u) : cache_grows s u := by
  obtain ⟨hc₁, l₁, hl₁, hn₁⟩ := h₁
  obtain ⟨hc₂, l₂, hl₂, hn₂⟩ := h₂
  refine ⟨fun p v h => hc₂ p v (hc₁ p v h), l₁ ++ l₂, by rw [hl₂, hl₁, List.append_assoc], ?_⟩
  intro c hc
  rcases List.mem_append.mp hc with hc | hc
  · exact hn₁ c hc
  · rcases hs : s.type_cache.lookup c.type_ptr with _ | v
    · rfl
    · have := hc₁ _ _ hs
      rw [hn₂ c hc] at this
      cases this

theorem cache_grows_of_eq {s t : type_conversion_driver}
    (hc : t.type_cache = s.type_cache) (hl : t.convert_calls = s.convert_calls) :
    cache_grows s t :=
  ⟨fun p v h => by rw [hc]; exact h, [], by simp [hl], by simp⟩

theorem convert_type_cache_grows (driver : codegen_driver) (t : qual_type)
    (s : type_conversion_driver) : cache_grows s (convert_type driver t s).2 := by
  rcases hr : driver.record_decl (driver.getCanonicalType t) with _ | decl
  · rcases hc : s.type_cache.lookup (driver.getCanonicalType t).type_ptr with _ | cached
    · rcases hv : driver.convert (driver.getCanonicalType t) with e | result
      · have hs : (convert_type driver t s).2
            = { s with convert_calls := s.convert_calls ++ [driver.getCanonicalType t] } := by
          simp [convert_type, hr, hc, hv]
        rw [hs]
        exact ⟨fun _ _ h => h, [driver.getCanonicalType t], rfl, by simpa using hc⟩
      · have hs : (convert_type driver t s).2
            = { s with
                convert_calls := s.convert_calls ++ [driver.getCanonicalType t],
                type_cache :=
                  ((driver.getCanonicalType t).type_ptr, result) :: s.type_cache } := by
          simp [convert_type, hr, hc, hv]
        rw [hs]
        refine ⟨?_, [driver.getCanonicalType t], rfl, by simpa using hc⟩
        intro p v h
        have hne : p ≠ (driver.getCanonicalType t).type_ptr := by
          intro e; rw [e, hc] at h; cases h
        have hb : (p == (driver.getCanonicalType t).type_ptr) = false := by
          simpa using hne
        simp only [List.lookup, hb]
        exact h
    · have hs : (convert_type driver t s).2 = s := by simp [convert_type, hr, hc]
      rw [hs]; exact cache_grows_refl s
  · have hs : (convert_type driver t s).2 = s := by simp [convert_type, hr]
    rw [hs]; exact cache_grows_refl s

theorem process_type_info_cache_grows (driver : codegen_driver) (info : abi_arg_info)
    (t : qual_type) (s : type_conversion_driver) :
    cache_grows s (process_type_info driver info t s).2 := by
  unfold process_type_info
  rcases info.get_kind with _ | _ | _ | tag
  · exact cache_grows_refl s
  · exact convert_type_cache_grows driver t s
  · exact convert_type_cache_grows driver t s
  · exact cache_grows_refl s

theorem process_args_cache_grows (driver : codegen_driver)
    (m : clang_to_vast_arg_mapping) (args : List arg_info) :
    ∀ (arg_no : Nat) (arg_types : SmallVector (Option mlir_type))
      (s : type_conversion_driver),
      cache_grows s (process_args driver m args arg_no arg_types s).2 := by
  induction args with
  | nil => intro _ _ s; exact cache_grows_refl s
  | cons it rest ih =>
    intro arg_no arg_types s
    unfold process_args
    by_cases h1 : (driver.asserts_enabled && m.padding_arg arg_no) = true
    · simp only [h1, if_true]; exact cache_grows_refl s
    · simp only [h1, Bool.false_eq_true, if_false]
      by_cases h2 : (driver.asserts_enabled && (m.vast_args arg_no).1 != 1) = true
      · simp only [h2, if_true]; exact cache_grows_refl s
      · simp only [h2, Bool.false_eq_true, if_false]
        have hstep := process_type_info_cache_grows driver it.info it.type s
        rcases hp : process_type_info driver it.info it.type s with ⟨e | r, s1⟩
        · rw [hp] at hstep; exact hstep
        · rw [hp] at hstep
          exact cache_grows_trans hstep (ih _ _ s1)

theorem get_function_type_body_cache_grows (driver : codegen_driver)
    (fninfo : function_info_t) (s : type_conversion_driver) :
    cache_grows s (get_function_type_body driver fninfo s).2 := by
  unfold get_function_type_body
  have hstep := process_type_info_cache_grows driver fninfo.return_info fninfo.return_type s
  rcases hp : process_type_info driver fninfo.return_info fninfo.return_type s
    with ⟨e | r, s1⟩
  · rw [hp] at hstep; exact hstep
  · rw [hp] at hstep
    simp only
    by_cases h1 : (driver.asserts_enabled && (driver.arg_mapping fninfo).sret_arg) = true
    · simp only [h1, if_true]; exact hstep
    · simp only [h1, Bool.false_eq_true, if_false]
      by_cases h2 :
          (driver.asserts_enabled && (driver.arg_mapping fninfo).inalloca_arg) = true
      · simp only [h2, if_true]; exact hstep
      · simp only [h2, Bool.false_eq_true, if_false]
        have hargs := process_args_cache_grows driver (driver.arg_mapping fninfo)
          (fninfo.args.take fninfo.num_required_args) 0
          ⟨List.replicate (driver.arg_mapping fninfo).total_vast_args none, true⟩ s1
        rcases ha : process_args driver (driver.arg_mapping fninfo)
            (fninfo.args.take fninfo.num_required_args) 0
            ⟨List.replicate (driver.arg_mapping fninfo).total_vast_args none, true⟩ s1
          with ⟨e | r, s2⟩
        · rw [ha] at hargs; exact cache_grows_trans hstep hargs
        · rw [ha] at hargs; exact cache_grows_trans hstep hargs

theorem start_function_processing_cache_grows (f : Nat) (s : type_conversion_driver) :
    cache_grows s (start_function_processing f s).2 := by
  apply cache_grows_of_eq <;>
    (unfold start_function_processing; by_cases h : f ∈ s.functions_being_processed <;>
      simp [h])

theorem finish_function_processing_cache_grows (f : Nat) (s : type_conversion_driver) :
    cache_grows s (finish_function_processing f s).2 := by
  apply cache_grows_of_eq <;>
    (unfold finish_function_processing; by_cases h : f ∈ s.functions_being_processed <;>
      simp [h])

theorem get_function_type_cache_grows (driver : codegen_driver)
    (fninfo : function_info_t) (s : type_conversion_driver) :
    cache_grows s (get_function_type driver fninfo s).2 := by
  unfold get_function_type with_lock
  have h0 := start_function_processing_cache_grows fninfo.id s
  rcases hs : start_function_processing fninfo.id s with ⟨e | u, s1⟩
  · rw [hs] at h0; exact h0
  · rw [hs] at h0
    cases u
    dsimp only
    have h1 := get_function_type_body_cache_grows driver fninfo s1
    rcases hb : get_function_type_body driver fninfo s1 with ⟨e | r, s2⟩
    · rw [hb] at h1
      cases e with
      | assertion what => exact cache_grows_trans h0 h1
      | unimplemented what =>
        exact cache_grows_trans h0
          (cache_grows_trans h1 (finish_function_processing_cache_grows fninfo.id s2))
      | codegen_error what =>
        exact cache_grows_trans h0
          (cache_grows_trans h1 (finish_function_processing_cache_grows fninfo.id s2))
    · rw [hb] at h1
      dsimp only
      have h2 := finish_function_processing_cache_grows fninfo.id s2
      rcases hf : finish_function_processing fninfo.id s2 with ⟨e | u, s3⟩
      · rw [hf] at h2; exact cache_grows_trans h0 (cache_grows_trans h1 h2)
      · rw [hf] at h2; cases u; exact cache_grows_trans h0 (cache_grows_trans h1 h2)

theorem driver_call_cache_grows (driver : codegen_driver) (call : driver_call)
    (s : type_conversion_driver) : cache_grows s (call.run driver s) := by
  cases call with
  | convert_type t => exact convert_type_cache_grows driver t s
  | get_function_type fninfo => exact get_function_type_cache_grows driver fninfo s
  | start_function_processing f => exact start_function_processing_cache_grows f s
  | finish_function_processing f => exact finish_function_processing_cache_grows f s

theorem run_calls_cache_grows (driver : codegen_driver) (calls : List driver_call) :
    ∀ s : type_conversion_driver, cache_grows s (run_calls driver calls s) := by
  induction calls with
  | nil => intro s; exact cache_grows_refl s
  | cons call rest ih =>
    intro s
    exact cache_grows_trans (driver_call_cache_grows driver call s)
      (ih (call.run driver s))

/-- C7: for a non-record type, when a call of `convert_type` returns a type, then after
any sequence `between` of further calls of the methods of the type driver (whether they
return or throw) a call with a type of the same canonical type returns the identical type
and leaves the whole driver state, the type cache included, unchanged (it is answered from
`type_cache`); the first call invoked `codegen.convert` at most once, and only with that
canonical type, the calls after it did not invoke it for that canonical type, so that over
all these calls it was invoked at most once for it. -/
theorem convert_type_cached (driver : codegen_driver) (s : type_conversion_driver)
    (t₁ t₂ : qual_type) (r : Option mlir_type) (between : List driver_call)
    (hcanon : driver.getCanonicalType t₁ = driver.getCanonicalType t₂)
    (hrec : driver.record_decl (driver.getCanonicalType t₁) = none)
    (h₁ : (convert_type driver t₁ s).1 = .ok r) :
    convert_type driver t₂ (run_calls driver between (convert_type driver t₁ s).2)
        = (.ok r, run_calls driver between (convert_type driver t₁ s).2)
    ∧ (run_calls driver between (convert_type driver t₁ s).2).type_cache.lookup
          (driver.getCanonicalType t₁).type_ptr
        = some r
    ∧ ((convert_type driver t₁ s).2.convert_calls = s.convert_calls
        ∨ (convert_type driver t₁ s).2.convert_calls
            = s.convert_calls ++ [driver.getCanonicalType t₁])
    ∧ (∃ later,
        (run_calls driver between (convert_type driver t₁ s).2).convert_calls
          = (convert_type driver t₁ s).2.convert_calls ++ later
        ∧ ∀ c ∈ later, c.type_ptr ≠ (driver.getCanonicalType t₁).type_ptr)
    ∧ ((run_calls driver between (convert_type driver t₁ s).2).convert_calls.drop
          s.convert_calls.length).count (driver.getCanonicalType t₁) ≤ 1 := by
  -- the first call leaves the result in the cache
  have hfirst : (convert_type driver t₁ s).2.type_cache.lookup
        (driver.getCanonicalType t₁).type_ptr = some r
      ∧ ((convert_type driver t₁ s).2.convert_calls = s.convert_calls
        ∨ (convert_type driver t₁ s).2.convert_calls
            = s.convert_calls ++ [driver.getCanonicalType t₁]) := by
    rcases hc : s.type_cache.lookup (driver.getCanonicalType t₁).type_ptr with _ | cached
    · rcases hv : driver.convert (driver.getCanonicalType t₁) with e | result
      · simp [convert_type, hrec, hc, hv] at h₁
      · have hs : convert_type driver t₁ s
            = (.ok result, { s with
                convert_calls := s.convert_calls ++ [driver.getCanonicalType t₁],
                type_cache :=
                  ((driver.getCanonicalType t₁).type_ptr, result) :: s.type_cache }) := by
          simp [convert_type, hrec, hc, hv]
        rw [hs] at h₁ ⊢
        simp only [Except.ok.injEq] at h₁
        subst h₁
        exact ⟨by simp [List.lookup], Or.inr rfl⟩
    · have hs : convert_type driver t₁ s = (.ok cached, s) := by
        simp [convert_type, hrec, hc]
      rw [hs] at h₁ ⊢
      simp only [Except.ok.injEq] at h₁
      subst h₁
      exact ⟨hc, Or.inl rfl⟩
  -- the calls in between keep it there
  obtain ⟨hkeep, later, hlater, hnone⟩ :=
    run_calls_cache_grows driver between (convert_type driver t₁ s).2
  have hlookup := hkeep _ _ hfirst.1
  have hne : ∀ c ∈ later, c.type_ptr ≠ (driver.getCanonicalType t₁).type_ptr := by
    intro c hc e
    have := hnone c hc
    rw [e, hfirst.1] at this
    cases this
  have hnotin : driver.getCanonicalType t₁ ∉ later := fun h => hne _ h rfl
  refine ⟨?_, hlookup, hfirst.2, ⟨later, hlater, hne⟩, ?_⟩
  · generalize run_calls driver between (convert_type driver t₁ s).2 = s₂ at hlookup ⊢
    simp [convert_type, ← hcanon, hrec, hlookup]
  · rw [hlater]
    rcases hfirst.2 with h | h
    · rw [h, List.drop_left, List.count_eq_zero_of_not_mem hnotin]
      exact Nat.zero_le 1
    · rw [h, List.append_assoc, List.drop_left, List.count_append,
        List.count_eq_zero_of_not_mem hnotin]
      simp

/-- Witness of `convert_type_cached`: `int` after `const int` in the example driver, with
a conversion of another type and the processing of a function type in between. -/
theorem convert_type_cached_witness :
    convert_type example_driver ⟨32, 0⟩
        (run_calls example_driver
          [.convert_type ⟨16, 0⟩, .get_function_type (example_fninfo .direct)]
          (convert_type example_driver ⟨32, 1⟩ example_state).2)
        = (.ok (some (.integer 32)),
            run_calls example_driver
              [.convert_type ⟨16, 0⟩, .get_function_type (example_fninfo .direct)]
              (convert_type example_driver ⟨32, 1⟩ example_state).2)
    ∧ (run_calls example_driver
          [.convert_type ⟨16, 0⟩, .get_function_type (example_fninfo .direct)]
          (convert_type example_driver ⟨32, 1⟩ example_state).2).type_cache.lookup
          (example_driver.getCanonicalType ⟨32, 1⟩).type_ptr
        = some (some (.integer 32))
    ∧ ((convert_type example_driver ⟨32, 1⟩ example_state).2.convert_calls
          = example_state.convert_calls
        ∨ (convert_type example_driver ⟨32, 1⟩ example_state).2.convert_calls
            = example_state.convert_calls ++ [example_driver.getCanonicalType ⟨32, 1⟩])
    ∧ (∃ later,
        (run_calls example_driver
          [.convert_type ⟨16, 0⟩, .get_function_type (example_fninfo .direct)]
          (convert_type example_driver ⟨32, 1⟩ example_state).2).convert_calls
          = (convert_type example_driver ⟨32, 1⟩ example_state).2.convert_calls ++ later
        ∧ ∀ c ∈ later, c.type_ptr ≠ (example_driver.getCanonicalType ⟨32, 1⟩).type_ptr)
    ∧ ((run_calls example_driver
          [.convert_type ⟨16, 0⟩, .get_function_type (example_fninfo .direct)]
          (convert_type example_driver ⟨32, 1⟩ example_state).2).convert_calls.drop
          example_state.convert_calls.length).count
          (example_driver.getCanonicalType ⟨32, 1⟩) ≤ 1 :=
  convert_type_cached example_driver example_state ⟨32, 1⟩ ⟨32, 0⟩ (some (.integer 32))
    [.convert_type ⟨16, 0⟩, .get_function_type (example_fninfo .direct)] rfl rfl rfl

/-- The sequence `int`, `short`, `const int`, `int` in the example driver: the visitor
`codegen.convert` is invoked once for `int` and once for `short`, and the cache holds
both. -/
theorem convert_type_sequence_example :
    (run_calls example_driver
        [.convert_type ⟨32, 0⟩, .convert_type ⟨16, 0⟩, .convert_type ⟨32, 1⟩,
          .convert_type ⟨32, 0⟩] example_state).convert_calls = [⟨32, 0⟩, ⟨16, 0⟩]
    ∧ (run_calls example_driver
        [.convert_type ⟨32, 0⟩, .convert_type ⟨16, 0⟩, .convert_type ⟨32, 1⟩,
          .convert_type ⟨32, 0⟩] example_state).type_cache
        = [(16, some (.integer 16)), (32, some (.integer 32))] := by
  decide

theorem start_of_mem (F : Nat) (s : type_conversion_driver)
    (h : F ∈ s.functions_being_processed) :
    start_function_processing F s
      = (.error (.codegen_error "trying to process a function recursively"), s) := by
  obtain ⟨c, fs, l⟩ := s
  simp only at h
  simp [start_function_processing, h, Finset.insert_eq_of_mem h]

theorem start_of_not_mem (F : Nat) (s : type_conversion_driver)
    (h : F ∉ s.functions_being_processed) :
    start_function_processing F s
      = (.ok (), { s with functions_being_processed := insert F s.functions_being_processed }) := by
  simp [start_function_processing, h]

theorem finish_of_mem (F : Nat) (s : type_conversion_driver)
    (h : F ∈ s.functions_being_processed) :
    finish_function_processing F s
      = (.ok (), { s with functions_being_processed := s.functions_being_processed.erase F }) := by
  simp [finish_function_processing, h]

theorem finish_of_not_mem (F : Nat) (s : type_conversion_driver)
    (h : F ∉ s.functions_being_processed) :
    finish_function_processing F s
      = (.error (.codegen_error "function info not being processed"), s) := by
  obtain ⟨c, fs, l⟩ := s
  simp only at h
  simp [finish_function_processing, h, Finset.erase_eq_of_not_mem h]

/-- C8: `start_function_processing(F)` fails, with the recursion error, if and only if
`F` is already in the set of functions being processed; when it fails the driver state
is unchanged, when it succeeds the new set is the old set with `F` added.  Hence
`get_function_type` for a function info that is already being processed fails with that
error and leaves the driver state (type cache, calls of `codegen.convert`) unchanged. -/
theorem start_function_processing_spec (F : Nat) (s : type_conversion_driver) :
    ((∃ e, (start_function_processing F s).1 = .error e) ↔ F ∈ s.functions_being_processed)
    ∧ (F ∈ s.functions_being_processed →
        start_function_processing F s
          = (.error (.codegen_error "trying to process a function recursively"), s))
    ∧ (F ∉ s.functions_being_processed →
        start_function_processing F s
          = (.ok (),
              { s with functions_being_processed := insert F s.functions_being_processed }))
    ∧ (∀ (driver : codegen_driver) (fninfo : function_info_t), fninfo.id = F →
        F ∈ s.functions_being_processed →
        get_function_type driver fninfo s
          = (.error (.codegen_error "trying to process a function recursively"), s)) := by
  refine ⟨?_, start_of_mem F s, start_of_not_mem F s, ?_⟩
  · by_cases h : F ∈ s.functions_being_processed
    · simp [start_of_mem F s h, h]
    · simp [start_of_not_mem F s h, h]
  · intro driver fninfo hid h
    subst hid
    simp [get_function_type, with_lock, start_of_mem _ s h]

/-- Witness of `start_function_processing_spec`: function 1 requested while the set of
functions being processed is `{1}`. -/
theorem start_function_processing_spec_witness :
    get_function_type example_driver (example_fninfo .direct)
        { example_state with functions_being_processed := {1} }
      = (.error (.codegen_error "trying to process a function recursively"),
          { example_state with functions_being_processed := {1} }) :=
  (start_function_processing_spec 1
      { example_state with functions_being_processed := {1} }).2.2.2
    example_driver (example_fninfo .direct) rfl (by decide)

/-- C9: for a guard set `S` and a function `F` not in `S`, `start_function_processing(F)`
followed by `finish_function_processing(F)` succeeds and restores exactly the state
with set `S`; `finish_function_processing(F)` fails if and only if `F` is not in the
set, and then leaves the state unchanged. -/
theorem start_finish_restores (F : Nat) (s : type_conversion_driver) :
    (F ∉ s.functions_being_processed →
        (start_function_processing F s).1 = .ok ()
        ∧ finish_function_processing F (start_function_processing F s).2 = (.ok (), s))
    ∧ ((∃ e, (finish_function_processing F s).1 = .error e)
        ↔ F ∉ s.functions_being_processed)
    ∧ (F ∉ s.functions_being_processed → (finish_function_processing F s).2 = s) := by
  refine ⟨?_, ?_, ?_⟩
  · intro h
    rw [start_of_not_mem F s h]
    refine ⟨rfl, ?_⟩
    rw [finish_of_mem F _ (by simp)]
    obtain ⟨c, fs, l⟩ := s
    simp only at h
    simp [Finset.erase_insert h]
  · by_cases h : F ∈ s.functions_being_processed
    · simp [finish_of_mem F s h, h]
    · simp [finish_of_not_mem F s h, h]
  · intro h
    rw [finish_of_not_mem F s h]

/-- Witness of `start_finish_restores`: function 1 and the guard set `{2}`. -/
theorem start_finish_restores_witness :
    (start_function_processing 1
        { example_state with functions_being_processed := {2} }).1 = .ok ()
    ∧ finish_function_processing 1 (start_function_processing 1
        { example_state with functions_being_processed := {2} }).2
      = (.ok (), { example_state with functions_being_processed := {2} }) :=
  (start_finish_restores 1 { example_state with functions_being_processed := {2} }).1
    (by decide)

theorem process_type_info_unsupported (driver : codegen_driver) (info : abi_arg_info)
    (type : qual_type) (s : type_conversion_driver)
    (h : info.kind ≠ .ignore ∧ info.kind ≠ .extend ∧ info.kind ≠ .direct) :
    process_type_info driver info type s
      = (.error (.codegen_error "unsupported abi kind"), s) := by
  obtain ⟨k⟩ := info
  cases k <;> simp_all [process_type_info, abi_arg_info.get_kind]

theorem process_args_unsupported (driver : codegen_driver) (m : clang_to_vast_arg_mapping)
    (args : List arg_info) (arg_no : Nat) (v : SmallVector (Option mlir_type))
    (s : type_conversion_driver)
    (h : ∃ a ∈ args, a.info.kind ≠ .ignore ∧ a.info.kind ≠ .extend ∧ a.info.kind ≠ .direct) :
    ∃ e, (process_args driver m args arg_no v s).1 = .error e := by
  induction args generalizing arg_no v s with
  | nil => simp at h
  | cons a rest ih =>
    rw [process_args]
    by_cases hpad : (driver.asserts_enabled && m.padding_arg arg_no) = true
    · simp only [hpad, ↓reduceIte]; exact ⟨_, rfl⟩
    · by_cases hfirst : (driver.asserts_enabled && (m.vast_args arg_no).1 != 1) = true
      · simp only [hpad, hfirst, ↓reduceIte]; exact ⟨_, rfl⟩
      · simp only [hpad, hfirst, ↓reduceIte]
        rcases hp : process_type_info driver a.info a.type s with ⟨res, s'⟩
        cases res with
        | error e => exact ⟨e, rfl⟩
        | ok t =>
          simp only
          apply ih
          obtain ⟨b, hb, hk⟩ := h
          rcases List.mem_cons.mp hb with rfl | hb'
          · rw [process_type_info_unsupported driver b.info b.type s hk] at hp
            simp at hp
          · exact ⟨b, hb', hk⟩

theorem with_lock_error (F : Nat)
    (body : type_conversion_driver → Except error (FunctionType × Bool) × type_conversion_driver)
    (s : type_conversion_driver)
    (h : ∀ s', ∃ e, (body s').1 = .error e) :
    ∃ e, (with_lock F body s).1 = .error e := by
  unfold with_lock
  rcases hs : start_function_processing F s with ⟨res, s₁⟩
  cases res with
  | error e => exact ⟨e, rfl⟩
  | ok u =>
    cases u
    obtain ⟨e, he⟩ := h s₁
    rcases hb : body s₁ with ⟨r, s₂⟩
    rw [hb] at he
    simp only at he
    subst he
    simp only [hb]
    cases e <;> exact ⟨_, rfl⟩

/-- C10: `get_function_type` ends with an error, and returns no function type, whenever
the return value or one of the required arguments has an ABI classification other than
ignore, extend or direct. -/
theorem get_function_type_unsupported (driver : codegen_driver) (fninfo : function_info_t)
    (s : type_conversion_driver)
    (h : (fninfo.return_info.kind ≠ .ignore ∧ fninfo.return_info.kind ≠ .extend
          ∧ fninfo.return_info.kind ≠ .direct)
        ∨ ∃ a ∈ fninfo.args.take fninfo.num_required_args,
            a.info.kind ≠ .ignore ∧ a.info.kind ≠ .extend ∧ a.info.kind ≠ .direct) :
    ∃ e, (get_function_type driver fninfo s).1 = .error e := by
  apply with_lock_error
  intro s'
  unfold get_function_type_body
  rcases hr : process_type_info driver fninfo.return_info fninfo.return_type s' with ⟨res, s₁⟩
  cases res with
  | error e => exact ⟨e, rfl⟩
  | ok rty =>
    rcases h with h | h
    · rw [process_type_info_unsupported driver _ _ s' h] at hr
      simp at hr
    · by_cases hsret : (driver.asserts_enabled && (driver.arg_mapping fninfo).sret_arg) = true
      · simp only [hsret, ↓reduceIte]; exact ⟨_, rfl⟩
      · by_cases hina :
            (driver.asserts_enabled && (driver.arg_mapping fninfo).inalloca_arg) = true
        · simp only [hsret, hina, ↓reduceIte]; exact ⟨_, rfl⟩
        · simp only [hsret, hina, ↓reduceIte]
          obtain ⟨e, he⟩ := process_args_unsupported driver (driver.arg_mapping fninfo)
            (fninfo.args.take fninfo.num_required_args) 0
            ⟨List.replicate (driver.arg_mapping fninfo).total_vast_args none, true⟩ s₁ h
          rcases hp : process_args driver (driver.arg_mapping fninfo)
            (fninfo.args.take fninfo.num_required_args) 0
            ⟨List.replicate (driver.arg_mapping fninfo).total_vast_args none, true⟩ s₁
            with ⟨res, s₂⟩
          rw [hp] at he
          simp only at he
          subst he
          exact ⟨e, rfl⟩

/-- Witness of `get_function_type_unsupported`: the second required argument is
classified with an unsupported kind. -/
theorem get_function_type_unsupported_witness :
    (((example_fninfo (.other 0)).return_info.kind ≠ .ignore
        ∧ (example_fninfo (.other 0)).return_info.kind ≠ .extend
        ∧ (example_fninfo (.other 0)).return_info.kind ≠ .direct)
      ∨ (∃ a ∈ (example_fninfo (.other 0)).args.take
            (example_fninfo (.other 0)).num_required_args,
          a.info.kind ≠ .ignore ∧ a.info.kind ≠ .extend ∧ a.info.kind ≠ .direct))
    ∧ ∃ e, (get_function_type example_driver (example_fninfo (.other 0)) example_state).1
        = .error e :=
  ⟨Or.inr ⟨⟨⟨32, 1⟩, ⟨.other 0⟩⟩, by decide, by decide⟩,
    get_function_type_unsupported example_driver (example_fninfo (.other 0)) example_state
      (Or.inr ⟨⟨⟨32, 1⟩, ⟨.other 0⟩⟩, by decide, by decide⟩)⟩

end cg

/-! ## Function types under the ABI classification -/

namespace cg

open type_conversion_driver

/-- C11 (what the code does): in a build with `assert` compiled in, `get_function_type`
never returns a function type for a function info that has a required argument when the
mapping places the first argument in a slot other than 1 (slot 0 for the first argument
of an ordinary mapping): the assertion `first_vast_arg == 1` stops it. -/
theorem get_function_type_first_slot_assert (driver : codegen_driver)
    (fninfo : function_info_t) (s : type_conversion_driver) (a : arg_info)
    (rest : List arg_info)
    (hassert : driver.asserts_enabled = true)
    (hargs : fninfo.args.take fninfo.num_required_args = a :: rest)
    (hslot : ((driver.arg_mapping fninfo).vast_args 0).1 ≠ 1) :
    ∃ e, (get_function_type driver fninfo s).1 = .error e := by
  apply with_lock_error
  intro s'
  unfold get_function_type_body
  rcases hr : process_type_info driver fninfo.return_info fninfo.return_type s' with ⟨res, s₁⟩
  cases res with
  | error e => exact ⟨e, rfl⟩
  | ok rty =>
    by_cases hsret : (driver.arg_mapping fninfo).sret_arg = true
    · simp only [hassert, hsret, Bool.and_self, ↓reduceIte]; exact ⟨_, rfl⟩
    · by_cases hina : (driver.arg_mapping fninfo).inalloca_arg = true
      · simp only [hassert, hsret, hina, Bool.and_self, Bool.and_false, Bool.true_and,
          Bool.false_eq_true, ↓reduceIte]
        exact ⟨_, rfl⟩
      · simp only [hassert, hsret, hina, Bool.and_self, Bool.and_false, Bool.true_and,
          Bool.false_eq_true, ↓reduceIte, hargs]
        rw [process_args]
        by_cases hpad : (driver.arg_mapping fninfo).padding_arg 0 = true
        · simp only [hassert, hpad, Bool.and_self, ↓reduceIte]; exact ⟨_, rfl⟩
        · have hne : (((driver.arg_mapping fninfo).vast_args 0).1 != 1) = true :=
            bne_iff_ne.mpr hslot
          simp only [hassert, hpad, hne, Bool.and_self, Bool.true_and, Bool.false_eq_true,
            ↓reduceIte]
          exact ⟨_, rfl⟩

/-- Witness of `get_function_type_first_slot_assert`: one required argument, classified
direct and mapped to slot 0. -/
theorem get_function_type_first_slot_assert_witness :
    example_debug_driver.asserts_enabled = true
    ∧ example_fninfo_one.args.take example_fninfo_one.num_required_args
        = [⟨⟨32, 0⟩, ⟨.direct⟩⟩]
    ∧ ((example_debug_driver.arg_mapping example_fninfo_one).vast_args 0).1 ≠ 1
    ∧ ∃ e, (get_function_type example_debug_driver example_fninfo_one example_state).1
        = .error e :=
  ⟨rfl, rfl, by decide,
    get_function_type_first_slot_assert example_debug_driver example_fninfo_one example_state
      ⟨⟨32, 0⟩, ⟨.direct⟩⟩ [] rfl rfl (by decide)⟩

/-- The same function info in both builds: with `assert` compiled in the call ends in the
failed assertion, without it the call returns the function type `(i32) -> i32`. -/
theorem get_function_type_one_argument_examples :
    (get_function_type example_debug_driver example_fninfo_one example_state).1
      = .error (.assertion "first_vast_arg == 1")
    ∧ (get_function_type example_driver example_fninfo_one example_state).1
      = .ok (⟨[some (.integer 32)], [.integer 32]⟩, true) := by
  constructor <;> rfl

end cg

/-! ## Argument attributes of a lowered function -/

theorem write_data_length {α : Type} (v : SmallVector α) (idx : Nat) (x : α) :
    (v.write idx x).data.length = v.data.length := by
  unfold SmallVector.write
  split <;> simp

theorem write_run_data_length (v : SmallVector Nat) (inputNo x n j : Nat) :
    (func_op.write_run v inputNo x n j).data.length = v.data.length := by
  induction n generalizing v j with
  | zero => rfl
  | succ n ih => simp [func_op.write_run, ih, write_data_length]

theorem redistribute_data_length (signature : SignatureConversion) (original : List Nat)
    (n i : Nat) (v : SmallVector Nat) :
    (func_op.redistribute signature original n i v).data.length = v.data.length := by
  induction n generalizing i v with
  | zero => rfl
  | succ n ih =>
    unfold func_op.redistribute
    split
    · rw [ih, write_run_data_length]
    · rw [ih]

theorem args_to_allocas_arg_attrs (tc : FnTypeConverter) (fn : LLVMFuncOp) :
    (func_op.args_to_allocas tc fn).2.arg_attrs = fn.arg_attrs := by
  unfold func_op.args_to_allocas
  split
  · rfl
  · split
    · rfl
    · split
      · rfl
      · split <;> rfl

/-- The argument attributes of the function that `func_op::matchAndRewrite` creates for
a function carrying argument attributes are always the empty array: `new_arg_attrs`
starts empty and indexed writes never enlarge it. -/
theorem func_op_arg_attrs_always_empty (tc : FnTypeConverter) (f : FuncOp) (attrs : List Nat)
    (fn : LLVMFuncOp) (hattrs : f.arg_attrs = some attrs)
    (hnew : (func_op.matchAndRewrite tc f).new_func = some fn) :
    fn.arg_attrs = some [] := by
  rcases ht : tc.convert_fn_t f.inputs f.results with _ | _ | target
  · simp [func_op.matchAndRewrite, ht] at hnew
  · simp [func_op.matchAndRewrite, ht] at hnew
  rcases hs : tc.get_conversion_signature f (tc.is_variadic f) with _ | sig
  · simp [func_op.matchAndRewrite, ht, hs] at hnew
  simp only [func_op.matchAndRewrite, ht, hs, hattrs, Option.map_some'] at hnew
  have hlen := redistribute_data_length sig attrs f.inputs.length 0 ⟨[], true⟩
  have hdata : (func_op.redistribute sig attrs f.inputs.length 0 ⟨[], true⟩).data = [] :=
    List.length_eq_zero.mp (by simpa using hlen)
  have hattr := args_to_allocas_arg_attrs tc (func_op.create_func tc f target sig
    (some (func_op.redistribute sig attrs f.inputs.length 0 ⟨[], true⟩)))
  rcases hres : func_op.args_to_allocas tc (func_op.create_func tc f target sig
    (some (func_op.redistribute sig attrs f.inputs.length 0 ⟨[], true⟩))) with ⟨res, fn'⟩
  rw [hres] at hnew hattr
  have hfn : fn' = fn := by
    cases res <;> simpa using hnew
  subst hfn
  simp only at hattr
  rw [hattr]
  simp [func_op.create_func, hdata]

/-- C12 (what the code does): for the function `f(i32)` whose argument carries the
attribute `7` and is mapped to target argument 0, the new function has one target
argument but an empty argument-attribute array, and the write `new_arg_attrs[0]` was
beyond the size of the array. -/
theorem func_op_arg_attrs_lost :
    (∃ fn, (func_op.matchAndRewrite (example_fn_tc false) example_func_with_attrs).new_func
          = some fn
        ∧ fn.type.params.length = 1 ∧ fn.arg_attrs = some [])
    ∧ (func_op.matchAndRewrite (example_fn_tc false) example_func_with_attrs).attr_writes_in_bounds
        = false := by
  refine ⟨⟨_, rfl, ?_, ?_⟩, ?_⟩ <;> decide

/-! ## Arguments moved to stack slots: `args_to_allocas` -/

theorem to_slot_replace (i hi : Nat) (h : i < hi) (v : FnValue) :
    func_op.to_slot (i + 1) hi (if v = .argument i then .alloca i else v)
      = func_op.to_slot i hi v := by
  cases v with
  | argument k =>
    by_cases hk : k = i
    · subst hk; simp [func_op.to_slot, h]
    · have : (FnValue.argument k = FnValue.argument i) = False := by simp [hk]
      simp only [this, ↓reduceIte, func_op.to_slot]
      by_cases h1 : i + 1 ≤ k ∧ k < hi
      · have h2 : i ≤ k ∧ k < hi := ⟨by omega, h1.2⟩
        simp [h1, h2]
      · have h2 : ¬ (i ≤ k ∧ k < hi) := by omega
        simp [h1, h2]
  | count k => simp [func_op.to_slot]
  | alloca k => simp [func_op.to_slot]
  | other n => simp [func_op.to_slot]

theorem to_slot_op_replace (i hi : Nat) (h : i < hi) (o : FnOp) :
    func_op.to_slot_op (i + 1) hi (func_op.replace_in_op (.argument i) (.alloca i) o)
      = func_op.to_slot_op i hi o := by
  cases o with
  | other id operands =>
    simp only [func_op.replace_in_op, func_op.to_slot_op, List.map_map, FnOp.other.injEq,
      true_and]
    apply List.map_congr_left
    intro v _
    exact to_slot_replace i hi h v
  | constant res type value => rfl
  | alloca res type count alignment =>
    simp only [func_op.replace_in_op, func_op.to_slot_op, to_slot_replace i hi h]
  | store value addr =>
    simp only [func_op.replace_in_op, func_op.to_slot_op, to_slot_replace i hi h]

theorem to_slot_op_slot_ops (tc : FnTypeConverter) (i lo hi : Nat) (p : mlir_type)
    (h : i < lo) :
    (func_op.slot_ops tc i p).map (func_op.to_slot_op lo hi) = func_op.slot_ops tc i p := by
  have h1 : ¬ (lo ≤ i ∧ i < hi) := by omega
  simp [func_op.slot_ops, func_op.to_slot_op, func_op.to_slot, h1]

theorem insert_op_at_prefix (A : List mlir_type) (pre ops : List FnOp) (rest : List FnBlock)
    (o : FnOp) (ip : Nat) (hip : ip = pre.length) :
    func_op.insert_op (⟨A, pre ++ ops⟩ :: rest) ip o = ⟨A, pre ++ o :: ops⟩ :: rest := by
  subst hip
  simp [func_op.insert_op]

theorem arg_to_alloca_step (tc : FnTypeConverter) (i : Nat) (t p : mlir_type)
    (A : List mlir_type) (pre ops : List FnOp) (rest : List FnBlock) (ip : Nat)
    (hp : tc.pointer_type t = some p) (hip : ip = pre.length) :
    func_op.arg_to_alloca tc i t (⟨A, pre ++ ops⟩ :: rest) ip
      = (.success,
          ⟨A, (pre.map (func_op.replace_in_op (.argument i) (.alloca i))
                ++ func_op.slot_ops tc i p)
              ++ ops.map (func_op.replace_in_op (.argument i) (.alloca i))⟩
            :: rest.map (fun b =>
                { b with operations :=
                    b.operations.map (func_op.replace_in_op (.argument i) (.alloca i)) }),
          ip + 3) := by
  have h1 := insert_op_at_prefix A pre ops rest (.constant (.count i) tc.index_type 1) ip hip
  have h2 := insert_op_at_prefix A (pre ++ [.constant (.count i) tc.index_type 1]) ops rest
    (.alloca (.alloca i) p (.count i) 0) (ip + 1) (by simp [hip])
  have h3 := insert_op_at_prefix A
    (pre.map (func_op.replace_in_op (.argument i) (.alloca i))
      ++ [.constant (.count i) tc.index_type 1, .alloca (.alloca i) p (.count i) 0])
    (ops.map (func_op.replace_in_op (.argument i) (.alloca i)))
    (rest.map (fun b =>
      { b with operations :=
          b.operations.map (func_op.replace_in_op (.argument i) (.alloca i)) }))
    (.store (.argument i) (.alloca i)) (ip + 2) (by simp [hip])
  simp only [List.append_assoc, List.singleton_append, List.cons_append, List.nil_append]
    at h2 h3
  simp only [func_op.arg_to_alloca, hp, h1, h2]
  simp only [func_op.replaceAllUsesWith, List.map_cons, List.map_append,
    func_op.replace_in_op, FnValue.count.injEq, reduceCtorEq, ↓reduceIte]
  rw [h3]
  simp [func_op.slot_ops]

theorem to_slot_op_id (lo hi : Nat) (h : hi ≤ lo) (o : FnOp) :
    func_op.to_slot_op lo hi o = o := by
  have hv : ∀ v, func_op.to_slot lo hi v = v := by
    intro v
    cases v with
    | argument k =>
      have : ¬ (lo ≤ k ∧ k < hi) := by omega
      simp [func_op.to_slot, this]
    | count k => rfl
    | alloca k => rfl
    | other n => rfl
  cases o with
  | other id operands =>
    simp only [func_op.to_slot_op, FnOp.other.injEq, true_and]
    conv_rhs => rw [← List.map_id operands]
    exact List.map_congr_left (fun v _ => hv v)
  | constant res type value => rfl
  | alloca res type count alignment => simp [func_op.to_slot_op, hv]
  | store value addr => simp [func_op.to_slot_op, hv]

theorem args_loop_success (tc : FnTypeConverter) (ts : List mlir_type) (i : Nat)
    (A : List mlir_type) (pre ops : List FnOp) (rest : List FnBlock) (ip : Nat)
    (body' : List FnBlock) (hip : ip = pre.length)
    (h : func_op.args_loop tc ts i (⟨A, pre ++ ops⟩ :: rest) ip = (.success, body')) :
    ∃ ptrs : List mlir_type, ts.map tc.pointer_type = ptrs.map some
      ∧ body' = ⟨A, pre.map (func_op.to_slot_op i (i + ts.length))
              ++ ((List.range' i ts.length).zip ptrs).flatMap
                  (fun q => func_op.slot_ops tc q.1 q.2)
              ++ ops.map (func_op.to_slot_op i (i + ts.length))⟩
            :: rest.map (fun b =>
                { b with operations :=
                    b.operations.map (func_op.to_slot_op i (i + ts.length)) }) := by
  induction ts generalizing i pre ops rest ip with
  | nil =>
    simp only [func_op.args_loop, Prod.mk.injEq, true_and] at h
    subst h
    refine ⟨[], rfl, ?_⟩
    have hid : func_op.to_slot_op i i = id := by
      funext o; exact to_slot_op_id _ _ (Nat.le_refl i) o
    simp [hid]
  | cons t ts ih =>
    rcases hp : tc.pointer_type t with _ | p
    · simp [func_op.args_loop, func_op.arg_to_alloca, hp] at h
    · rw [func_op.args_loop, arg_to_alloca_step tc i t p A pre ops rest ip hp hip] at h
      simp only at h
      obtain ⟨ptrs, hptrs, hbody⟩ := ih (i + 1) _ _ _ (ip + 3)
        (by simp [func_op.slot_ops, hip]) h
      refine ⟨p :: ptrs, by simp [hp, hptrs], ?_⟩
      have hhi : i + 1 + ts.length = i + (t :: ts).length := by simp; omega
      rw [hhi] at hbody
      have hlt : i < i + (t :: ts).length := by simp
      rw [hbody]
      simp only [List.map_append, List.map_map, List.length_cons, List.range'_succ,
        List.zip_cons_cons, List.flatMap_cons, List.append_assoc]
      have hcomp : (func_op.to_slot_op (i + 1) (i + (ts.length + 1))
            ∘ func_op.replace_in_op (.argument i) (.alloca i))
          = func_op.to_slot_op i (i + (ts.length + 1)) := by
        funext o
        exact to_slot_op_replace i _ (by omega) o
      have hslots := to_slot_op_slot_ops tc i (i + 1) (i + (ts.length + 1)) p (by omega)
      simp only [List.length_cons] at hlt
      rw [hcomp, hslots]
      congr 1
      apply List.map_congr_left
      intro b _
      simp only [Function.comp_apply, List.map_map, hcomp]

theorem to_slot_op_no_argument (lo hi k : Nat) (hk : lo ≤ k ∧ k < hi) (o : FnOp) :
    FnValue.argument k ∉ (func_op.to_slot_op lo hi o).operands := by
  have hv : ∀ v, func_op.to_slot lo hi v ≠ .argument k := by
    intro v
    cases v with
    | argument j =>
      by_cases hj : lo ≤ j ∧ j < hi
      · simp [func_op.to_slot, hj]
      · simp only [func_op.to_slot, hj, ↓reduceIte, ne_eq, FnValue.argument.injEq]
        intro hjk; subst hjk; exact hj hk
    | count j => simp [func_op.to_slot]
    | alloca j => simp [func_op.to_slot]
    | other n => simp [func_op.to_slot]
  cases o with
  | other id operands =>
    simp only [func_op.to_slot_op, FnOp.operands, List.mem_map, not_exists, not_and]
    intro v _
    exact hv v
  | constant res type value => simp [func_op.to_slot_op, FnOp.operands]
  | alloca res type count alignment =>
    simp only [func_op.to_slot_op, FnOp.operands, List.mem_singleton]
    exact fun h => hv count h.symm
  | store value addr =>
    simp only [func_op.to_slot_op, FnOp.operands, List.mem_cons, List.mem_singleton,
      List.not_mem_nil, or_false, not_or]
    exact ⟨fun h => hv value h.symm, fun h => hv addr h.symm⟩

/-- C13: after `args_to_allocas` succeeds on a function, the entry block starts, for each
of its arguments in argument order, with the constant 1, one alloca of the pointer type
of the argument type and one store of the argument into that alloca, followed by the
operations the block had before; in these operations and in all other blocks every use
of an argument now refers to the alloca of that argument and no use of an argument
remains, so the only use of an argument is the value operand of its store. -/
theorem args_to_allocas_slots (tc : FnTypeConverter) (fn fn' : LLVMFuncOp)
    (h : func_op.args_to_allocas tc fn = (.success, fn')) :
    ∃ (entry : FnBlock) (rest : List FnBlock) (ptrs : List mlir_type),
      fn.body = entry :: rest
      ∧ entry.arguments.map tc.pointer_type = ptrs.map some
      ∧ fn'.body =
          ⟨entry.arguments,
            ((List.range entry.arguments.length).zip ptrs).flatMap
                (fun q => [FnOp.constant (.count q.1) tc.index_type 1,
                  FnOp.alloca (.alloca q.1) q.2 (.count q.1) 0,
                  FnOp.store (.argument q.1) (.alloca q.1)])
              ++ entry.operations.map (func_op.to_slot_op 0 entry.arguments.length)⟩
          :: rest.map (fun b =>
              { b with operations :=
                  b.operations.map (func_op.to_slot_op 0 entry.arguments.length) })
      ∧ (∀ k < entry.arguments.length,
          func_op.to_slot 0 entry.arguments.length (.argument k) = .alloca k
          ∧ ∀ o, FnValue.argument k
              ∉ (func_op.to_slot_op 0 entry.arguments.length o).operands)
      ∧ (∀ v, (∀ k < entry.arguments.length, v ≠ .argument k) →
          func_op.to_slot 0 entry.arguments.length v = v) := by
  unfold func_op.args_to_allocas at h
  by_cases hv : fn.isVarArg = true
  · simp [hv] at h
  by_cases he : fn.empty = true
  · simp [hv, he] at h
  simp only [hv, he, Bool.false_eq_true, if_false] at h
  cases hb : fn.body with
  | nil => simp [LLVMFuncOp.empty, hb] at he
  | cons block rest =>
    simp only [hb] at h
    split at h
    · simp at h
    · rcases hl : func_op.args_loop tc block.arguments 0 (block :: rest) 0 with ⟨res, body⟩
      rw [hl] at h
      simp only [Prod.mk.injEq] at h
      obtain ⟨hres, hfn⟩ := h
      subst hres
      subst hfn
      obtain ⟨A, ops⟩ := block
      have hl' : func_op.args_loop tc A 0 (⟨A, [] ++ ops⟩ :: rest) 0 = (.success, body) := by
        simpa using hl
      obtain ⟨ptrs, hptrs, hbody⟩ := args_loop_success tc A 0 A [] ops rest 0 body rfl hl'
      refine ⟨⟨A, ops⟩, rest, ptrs, rfl, hptrs, ?_, ?_, ?_⟩
      · simp only [hbody, List.map_nil, List.nil_append, Nat.zero_add, List.range_eq_range']
        rfl
      · intro k hk
        refine ⟨by simp only [func_op.to_slot]; simp [hk], fun o => ?_⟩
        exact to_slot_op_no_argument 0 _ k ⟨Nat.zero_le k, hk⟩ o
      · intro v hne
        cases v with
        | argument j =>
          by_cases hj : j < A.length
          · exact absurd rfl (hne j hj)
          · simp [func_op.to_slot, hj]
        | count j => rfl
        | alloca j => rfl
        | other n => rfl

/-- Witness of `args_to_allocas_slots`: the function `f(i32)` of the examples as the
pattern hands it to `args_to_allocas`. -/
theorem args_to_allocas_slots_witness :
    ∃ (entry : FnBlock) (rest : List FnBlock) (ptrs : List mlir_type),
      (⟨"f", ⟨.llvm_void, [.integer 32], false⟩, none, example_func.body⟩ : LLVMFuncOp).body
        = entry :: rest
      ∧ entry.arguments.map (example_fn_tc false).pointer_type = ptrs.map some
      ∧ (⟨"f", ⟨.llvm_void, [.integer 32], false⟩, none,
            [⟨[.integer 32],
              [.constant (.count 0) (some (.integer 64)) 1,
               .alloca (.alloca 0) (.llvm_ptr (.integer 32)) (.count 0) 0,
               .store (.argument 0) (.alloca 0),
               .other 7 [.alloca 0]]⟩]⟩ : LLVMFuncOp).body =
          ⟨entry.arguments,
            ((List.range entry.arguments.length).zip ptrs).flatMap
                (fun q => [FnOp.constant (.count q.1) (example_fn_tc false).index_type 1,
                  FnOp.alloca (.alloca q.1) q.2 (.count q.1) 0,
                  FnOp.store (.argument q.1) (.alloca q.1)])
              ++ entry.operations.map (func_op.to_slot_op 0 entry.arguments.length)⟩
          :: rest.map (fun b =>
              { b with operations :=
                  b.operations.map (func_op.to_slot_op 0 entry.arguments.length) })
      ∧ (∀ k < entry.arguments.length,
          func_op.to_slot 0 entry.arguments.length (.argument k) = .alloca k
          ∧ ∀ o, FnValue.argument k
              ∉ (func_op.to_slot_op 0 entry.arguments.length o).operands)
      ∧ (∀ v, (∀ k < entry.arguments.length, v ≠ .argument k) →
          func_op.to_slot 0 entry.arguments.length v = v) :=
  args_to_allocas_slots (example_fn_tc false)
    ⟨"f", ⟨.llvm_void, [.integer 32], false⟩, none, example_func.body⟩
    ⟨"f", ⟨.llvm_void, [.integer 32], false⟩, none,
      [⟨[.integer 32],
        [.constant (.count 0) (some (.integer 64)) 1,
         .alloca (.alloca 0) (.llvm_ptr (.integer 32)) (.count 0) 0,
         .store (.argument 0) (.alloca 0),
         .other 7 [.alloca 0]]⟩]⟩
    (by decide)

/-! ## The tower -/

namespace tower

theorem walk_of_get (memory : List module_body) (mod : vast_module) (f : operation → operation)
    (body : module_body) (h : memory[mod]? = some body) :
    walk memory mod f = memory.set mod (body.map f) := by
  simp [walk, h]

theorem apply_ok (lr : loc_rewriter_t) (pm : PassManager) (h : handle_t) (s : state)
    (body r : module_body) (hbody : s.memory[h.mod]? = some body)
    (hrun : pm.run (body.map lr.insert) = some r) :
    apply lr pm h s
      = .ok (⟨s.tower._modules.length, s.memory.length⟩,
          ⟨s.memory.set h.mod ((body.map lr.insert).map lr.remove) ++ [r],
            ⟨s.tower._modules ++ [s.memory.length]⟩⟩) := by
  have hlt : h.mod < s.memory.length := by
    rcases Nat.lt_or_ge h.mod s.memory.length with hl | hg
    · exact hl
    · rw [List.getElem?_eq_none hg] at hbody; cases hbody
  have hw := walk_of_get s.memory h.mod lr.insert body hbody
  have hget : (s.memory.set h.mod (body.map lr.insert))[h.mod]?
      = some (body.map lr.insert) := by
    simp [List.getElem?_set, hlt]
  have hclone : ((s.memory.set h.mod (body.map lr.insert))
      ++ [body.map lr.insert])[s.memory.length]? = some (body.map lr.insert) := by
    simp
  have hset : ((s.memory.set h.mod (body.map lr.insert)) ++ [body.map lr.insert]).set
      s.memory.length r = s.memory.set h.mod (body.map lr.insert) ++ [r] := by
    rw [List.set_append_right _ _ (by simp)]
    simp
  have hget2 : (s.memory.set h.mod (body.map lr.insert) ++ [r])[h.mod]?
      = some (body.map lr.insert) := by
    rw [List.getElem?_append_left (by simpa using hlt)]
    exact hget
  have hw2 := walk_of_get _ h.mod lr.remove _ hget2
  have hset2 : (s.memory.set h.mod (body.map lr.insert) ++ [r]).set h.mod
      ((body.map lr.insert).map lr.remove)
      = s.memory.set h.mod ((body.map lr.insert).map lr.remove) ++ [r] := by
    rw [List.set_append_left _ _ (by simpa using hlt), List.set_set]
  simp only [apply, hbody, hw, hget, Option.getD_some, List.length_set, List.length_append,
    List.length_singleton, Nat.add_sub_cancel, List.getLastD_concat, hclone, hrun, hset, hw2,
    hset2]

theorem apply_fatal (lr : loc_rewriter_t) (pm : PassManager) (h : handle_t) (s : state)
    (body : module_body) (hbody : s.memory[h.mod]? = some body)
    (hrun : pm.run (body.map lr.insert) = none) :
    apply lr pm h s = .error (.fatal "Some pass in apply() failed") := by
  have hlt : h.mod < s.memory.length := by
    rcases Nat.lt_or_ge h.mod s.memory.length with hl | hg
    · exact hl
    · rw [List.getElem?_eq_none hg] at hbody; cases hbody
  have hw := walk_of_get s.memory h.mod lr.insert body hbody
  have hget : (s.memory.set h.mod (body.map lr.insert))[h.mod]?
      = some (body.map lr.insert) := by
    simp [List.getElem?_set, hlt]
  have hclone : ((s.memory.set h.mod (body.map lr.insert))
      ++ [body.map lr.insert])[s.memory.length]? = some (body.map lr.insert) := by
    simp
  simp only [apply, hbody, hw, hget, Option.getD_some, List.length_set,
    List.getLastD_concat, hclone, hrun]

theorem apply_inv (lr : loc_rewriter_t) (pm : PassManager) (h h' : handle_t) (s s' : state)
    (hok : apply lr pm h s = .ok (h', s')) :
    ∃ body r, s.memory[h.mod]? = some body ∧ pm.run (body.map lr.insert) = some r
      ∧ h' = ⟨s.tower._modules.length, s.memory.length⟩
      ∧ s' = ⟨s.memory.set h.mod ((body.map lr.insert).map lr.remove) ++ [r],
            ⟨s.tower._modules ++ [s.memory.length]⟩⟩ := by
  rcases hbody : s.memory[h.mod]? with _ | body
  · simp [apply, hbody] at hok
  · rcases hrun : pm.run (body.map lr.insert) with _ | r
    · rw [apply_fatal lr pm h s body hbody hrun] at hok
      cases hok
    · rw [apply_ok lr pm h s body r hbody hrun] at hok
      simp only [Except.ok.injEq, Prod.mk.injEq] at hok
      exact ⟨body, r, rfl, hrun, hok.1.symm, hok.2.symm⟩

/-- C14: `manager_t::get` returns a tower with exactly one generation and a handle with
id 0 whose module is that generation; a successful `apply` on a tower with `n`
generations appends exactly one generation, keeps the first `n` stored generations in
place and in order, and returns a handle with id `n` whose module is the stored
generation `n`; the next successful `apply` returns the id `n + 1`. -/
theorem tower_generation_ids (lr : loc_rewriter_t) (pm : PassManager) (mod : vast_module)
    (h h' : handle_t) (s s' : state) (hok : apply lr pm h s = .ok (h', s')) :
    ((get mod).1._modules = [mod] ∧ (get mod).2 = ⟨0, mod⟩
      ∧ (get mod).1._modules[(get mod).2.id]? = some (get mod).2.mod)
    ∧ s'.tower._modules.length = s.tower._modules.length + 1
    ∧ s'.tower._modules.take s.tower._modules.length = s.tower._modules
    ∧ h'.id = s.tower._modules.length
    ∧ s'.tower._modules[h'.id]? = some h'.mod
    ∧ (∀ (pm₂ : PassManager) (h₂ h'' : handle_t) (s'' : state),
        apply lr pm₂ h₂ s' = .ok (h'', s'') → h''.id = h'.id + 1) := by
  obtain ⟨body, r, _, _, hh, hs⟩ := apply_inv lr pm h h' s s' hok
  subst hh
  subst hs
  refine ⟨⟨rfl, rfl, rfl⟩, by simp, by simp, rfl, by simp, ?_⟩
  intro pm₂ h₂ h'' s'' hok₂
  obtain ⟨_, _, _, _, hh₂, _⟩ := apply_inv lr pm₂ h₂ h'' _ s'' hok₂
  subst hh₂
  simp

/-- Witness of `tower_generation_ids`: the first `apply` on the tower of the examples. -/
theorem tower_generation_ids_witness :
    apply default_loc_rewriter_t example_pm ⟨0, 0⟩ example_state
      = .ok (⟨1, 1⟩, example_state_two)
    ∧ example_state_two.tower._modules.length = example_state.tower._modules.length + 1
    ∧ (⟨1, 1⟩ : handle_t).id = example_state.tower._modules.length
    ∧ example_state_two.tower._modules[(⟨1, 1⟩ : handle_t).id]? = some (⟨1, 1⟩ : handle_t).mod :=
  ⟨rfl,
    (tower_generation_ids default_loc_rewriter_t example_pm 0 ⟨0, 0⟩ ⟨1, 1⟩ example_state
      example_state_two rfl).2.1,
    (tower_generation_ids default_loc_rewriter_t example_pm 0 ⟨0, 0⟩ ⟨1, 1⟩ example_state
      example_state_two rfl).2.2.2.1,
    (tower_generation_ids default_loc_rewriter_t example_pm 0 ⟨0, 0⟩ ⟨1, 1⟩ example_state
      example_state_two rfl).2.2.2.2.1⟩

/-- C15 (as stated, refuted): on the tower with two generations, `apply` with the handle
of generation 0 (id 0) returns a handle with id 2, not 1. -/
theorem apply_on_older_generation_id :
    example_state_two.tower._modules[0]? = some 0
    ∧ (apply default_loc_rewriter_t example_pm ⟨0, 0⟩ example_state_two).toOption.map
        (fun res => res.1) = some ⟨2, 2⟩
    ∧ (2 : Nat) ≠ 0 + 1 := by
  decide

/-- C15 (amended): for a handle with id `i` that refers to generation `i` of a tower with
`n` generations, a successful `apply` returns a handle whose id is `n`; this is `i + 1`
exactly when generation `i` is the newest generation of the tower. -/
theorem apply_returns_generation_count (lr : loc_rewriter_t) (pm : PassManager)
    (h h' : handle_t) (s s' : state)
    (href : s.tower._modules[h.id]? = some h.mod)
    (hok : apply lr pm h s = .ok (h', s')) :
    h'.id = s.tower._modules.length ∧ h.id < s.tower._modules.length
    ∧ (h'.id = h.id + 1 ↔ h.id + 1 = s.tower._modules.length) := by
  obtain ⟨body, r, _, _, hh, _⟩ := apply_inv lr pm h h' s s' hok
  subst hh
  have hlt : h.id < s.tower._modules.length := by
    rcases Nat.lt_or_ge h.id s.tower._modules.length with hl | hg
    · exact hl
    · rw [List.getElem?_eq_none hg] at href; cases href
  exact ⟨rfl, hlt, by simp only; omega⟩

/-- Witness of `apply_returns_generation_count`: the handle of generation 0 on the tower
with two generations. -/
theorem apply_returns_generation_count_witness :
    example_state_two.tower._modules[(⟨0, 0⟩ : handle_t).id]? = some (⟨0, 0⟩ : handle_t).mod
    ∧ (⟨2, 2⟩ : handle_t).id = example_state_two.tower._modules.length
    ∧ (⟨0, 0⟩ : handle_t).id < example_state_two.tower._modules.length
    ∧ ((⟨2, 2⟩ : handle_t).id = (⟨0, 0⟩ : handle_t).id + 1
        ↔ (⟨0, 0⟩ : handle_t).id + 1 = example_state_two.tower._modules.length) :=
  ⟨by decide,
    apply_returns_generation_count default_loc_rewriter_t example_pm ⟨0, 0⟩ ⟨2, 2⟩
      example_state_two example_state_three (by decide) rfl⟩

/-- C16: when `remove` strips from every operation what `insert` put on it, then after a
successful `apply` every module that existed before the call, the one of the handle
included, has the contents it had before the call; the new generation is a fresh module
whose contents are the result of the passes on the clone, and the clone was taken from
the module of the handle with the markers inserted. -/
theorem apply_keeps_earlier_generations (lr : loc_rewriter_t) (pm : PassManager)
    (h h' : handle_t) (s s' : state)
    (hlr : ∀ op, lr.remove (lr.insert op) = op)
    (hok : apply lr pm h s = .ok (h', s')) :
    (∀ a, a < s.memory.length → s'.memory[a]? = s.memory[a]?)
    ∧ h'.mod = s.memory.length
    ∧ s'.memory.length = s.memory.length + 1
    ∧ ∃ body r, s.memory[h.mod]? = some body ∧ pm.run (body.map lr.insert) = some r
        ∧ s'.memory[h'.mod]? = some r := by
  obtain ⟨body, r, hbody, hrun, hh, hs⟩ := apply_inv lr pm h h' s s' hok
  subst hh
  subst hs
  have hrm : (body.map lr.insert).map lr.remove = body := by
    simp [List.map_map, Function.comp_def, hlr]
  refine ⟨?_, rfl, by simp, body, r, hbody, hrun, by simp⟩
  intro a ha
  simp only [hrm]
  rw [List.getElem?_append_left (by simpa using ha), List.getElem?_set]
  by_cases hma : h.mod = a
  · subst hma
    simp [ha, hbody]
  · simp [hma]

/-- Witness of `apply_keeps_earlier_generations`: the first `apply` on the tower of the
examples with the default location rewriter. -/
theorem apply_keeps_earlier_generations_witness :
    (∀ op, default_loc_rewriter_t.remove (default_loc_rewriter_t.insert op) = op)
    ∧ apply default_loc_rewriter_t example_pm ⟨0, 0⟩ example_state
        = .ok (⟨1, 1⟩, example_state_two)
    ∧ (∀ a, a < example_state.memory.length →
        example_state_two.memory[a]? = example_state.memory[a]?)
    ∧ (⟨1, 1⟩ : handle_t).mod = example_state.memory.length
    ∧ example_state_two.memory.length = example_state.memory.length + 1
    ∧ ∃ body r, example_state.memory[(⟨0, 0⟩ : handle_t).mod]? = some body
        ∧ example_pm.run (body.map default_loc_rewriter_t.insert) = some r
        ∧ example_state_two.memory[(⟨1, 1⟩ : handle_t).mod]? = some r :=
  ⟨fun _ => rfl, rfl,
    apply_keeps_earlier_generations default_loc_rewriter_t example_pm ⟨0, 0⟩ ⟨1, 1⟩
      example_state example_state_two (fun _ => rfl) rfl⟩

/-- C17 (as stated, refuted): on the tower with one generation, `apply` with a handle of
id 5 (out of range) and the module of generation 0 does not fail: it clones the module,
runs the passes and appends the clone as generation 1. -/
theorem apply_out_of_range_handle_succeeds :
    example_state.tower._modules.length ≤ (⟨5, 0⟩ : handle_t).id
    ∧ (apply default_loc_rewriter_t example_pm ⟨5, 0⟩ example_state).toOption
        = some (⟨1, 1⟩, example_state_two) := by
  decide

/-- C17 (amended): `apply` does not compare the id of the handle with the number of
stored generations.  For a handle whose id is out of range, whose module is a live module
and on whose clone the passes succeed, `apply` succeeds: the new generation holds the
result of the passes on the clone and is appended to the tower. -/
theorem apply_ignores_handle_id (lr : loc_rewriter_t) (pm : PassManager) (h : handle_t)
    (s : state) (body r : module_body)
    (_hid : s.tower._modules.length ≤ h.id)
    (hbody : s.memory[h.mod]? = some body)
    (hrun : pm.run (body.map lr.insert) = some r) :
    ∃ h' s', apply lr pm h s = .ok (h', s')
      ∧ s'.tower._modules = s.tower._modules ++ [h'.mod]
      ∧ s'.memory[h'.mod]? = some r
      ∧ ∀ k, apply lr pm ⟨k, h.mod⟩ s = .ok (h', s') := by
  refine ⟨_, _, apply_ok lr pm h s body r hbody hrun, rfl, by simp, ?_⟩
  intro k
  exact apply_ok lr pm ⟨k, h.mod⟩ s body r hbody hrun

/-- A failing pass ends `apply` in the fatal error of its check, whatever the handle. -/
theorem apply_failing_pass_example :
    apply default_loc_rewriter_t failing_pm ⟨0, 0⟩ example_state
      = .error (.fatal "Some pass in apply() failed") :=
  rfl

/-- Witness of `apply_ignores_handle_id`: the handle with id 5 on the tower with one
generation. -/
theorem apply_ignores_handle_id_witness :
    example_state.tower._modules.length ≤ (⟨5, 0⟩ : handle_t).id
    ∧ example_state.memory[(⟨5, 0⟩ : handle_t).mod]? = some [⟨1, .plain 10⟩, ⟨2, .plain 20⟩]
    ∧ example_pm.run
        (([⟨1, .plain 10⟩, ⟨2, .plain 20⟩] : module_body).map default_loc_rewriter_t.insert)
        = some [⟨101, .tagged 1 (.plain 10)⟩, ⟨102, .tagged 2 (.plain 20)⟩]
    ∧ ∃ h' s', apply default_loc_rewriter_t example_pm ⟨5, 0⟩ example_state = .ok (h', s')
      ∧ s'.tower._modules = example_state.tower._modules ++ [h'.mod]
      ∧ s'.memory[h'.mod]? = some [⟨101, .tagged 1 (.plain 10)⟩, ⟨102, .tagged 2 (.plain 20)⟩]
      ∧ ∀ k, apply default_loc_rewriter_t example_pm ⟨k, (⟨5, 0⟩ : handle_t).mod⟩ example_state
          = .ok (h', s') :=
  ⟨by decide, rfl, rfl,
    apply_ignores_handle_id default_loc_rewriter_t example_pm ⟨5, 0⟩ example_state
      [⟨1, .plain 10⟩, ⟨2, .plain 20⟩]
      [⟨101, .tagged 1 (.plain 10)⟩, ⟨102, .tagged 2 (.plain 20)⟩] (by decide) rfl rfl⟩

end tower

/-! ## Inlining the region of a wrapping operation -/

theorem replace_uses_nil (o : RegionOp) : inline_region_from_op.replace_uses [] [] o = o := by
  cases o with
  | other id operands => simp [inline_region_from_op.replace_uses, List.lookup]
  | unit_op => rfl

theorem filter_unit_op_of_not_mem (l : List RegionOp) (h : RegionOp.unit_op ∉ l) :
    l.filter (fun o => o != .unit_op) = l := by
  rw [List.filter_eq_self]
  intro o ho
  simp only [bne_iff_ne, ne_eq]
  intro he
  exact h (he ▸ ho)

/-- C18 (what the code does): for a wrapping operation that sits between the operations
`before` and `after` of the single block of its parent region and wraps one block with
the operations `body`, the rewrite leaves one block whose operations are `body`, then
`before`, then `after`: the body is placed in front of the operations that preceded the
wrapping operation, not at the position of the wrapping operation. -/
theorem inline_region_places_body_first (asserts_enabled : Bool)
    (before after body : List RegionOp)
    (hb : RegionOp.unit_op ∉ before) (ha : RegionOp.unit_op ∉ after)
    (hbody : RegionOp.unit_op ∉ body) :
    inline_region_from_op.matchAndRewrite asserts_enabled
        [⟨[], before ++ .unit_op :: after⟩] [⟨[], body⟩]
      = some [⟨[], body ++ before ++ after⟩] := by
  have hfun : (inline_region_from_op.replace_uses [] []) = id := by
    funext o; exact replace_uses_nil o
  simp [inline_region_from_op.matchAndRewrite, inline_region_from_op.mergeBlocks,
    inline_region_from_op.eraseOp, hfun, List.filter_append, List.filter_cons,
    filter_unit_op_of_not_mem _ hb, filter_unit_op_of_not_mem _ ha,
    filter_unit_op_of_not_mem _ hbody]

/-- Witness of `inline_region_places_body_first`: the block `[op 1, scope { op 2 }, op 3]`
becomes `[op 2, op 1, op 3]`, with `op 2`, which uses the result of `op 1`, in front of
`op 1`. -/
theorem inline_region_places_body_first_witness :
    RegionOp.unit_op ∉ [RegionOp.other 1 []] ∧ RegionOp.unit_op ∉ [RegionOp.other 3 []]
    ∧ RegionOp.unit_op ∉ [RegionOp.other 2 [1]]
    ∧ inline_region_from_op.matchAndRewrite true
        [⟨[], [RegionOp.other 1 []] ++ .unit_op :: [RegionOp.other 3 []]⟩]
        [⟨[], [RegionOp.other 2 [1]]⟩]
      = some [⟨[], [RegionOp.other 2 [1]] ++ [RegionOp.other 1 []] ++ [RegionOp.other 3 []]⟩] :=
  ⟨by decide, by decide, by decide,
    inline_region_places_body_first true [.other 1 []] [.other 3 []] [.other 2 [1]]
      (by decide) (by decide) (by decide)⟩

/-! ## Failing patterns -/

/-- C19 (what the code does): when the target function type is variadic, `func_op`
returns failure only after it has created the new function and moved the blocks of the
matched function into it: the new function exists and holds as many blocks as the matched
function had. -/
theorem func_op_failure_after_creation (tc : FnTypeConverter) (f : FuncOp)
    (t : LLVMFunctionType) (sig : SignatureConversion)
    (ht : tc.convert_fn_t f.inputs f.results = some (some t))
    (hs : tc.get_conversion_signature f (tc.is_variadic f) = some sig)
    (hv : t.isVarArg = true) :
    (func_op.matchAndRewrite tc f).result = .failure
    ∧ ∃ fn, (func_op.matchAndRewrite tc f).new_func = some fn
        ∧ fn.name = f.name ∧ fn.type = t ∧ fn.body.length = f.body.length := by
  have hfail : ∀ attrs, func_op.args_to_allocas tc (func_op.create_func tc f t sig attrs)
      = (.failure, func_op.create_func tc f t sig attrs) := by
    intro attrs
    simp [func_op.args_to_allocas, LLVMFuncOp.isVarArg, func_op.create_func, hv]
  have hm : func_op.matchAndRewrite tc f
      = ⟨.failure,
          some (func_op.create_func tc f t sig
            (f.arg_attrs.map (fun original_arg_attr =>
              func_op.redistribute sig original_arg_attr f.inputs.length 0 ⟨[], true⟩))),
          false,
          ((f.arg_attrs.map (fun original_arg_attr =>
              func_op.redistribute sig original_arg_attr f.inputs.length 0 ⟨[], true⟩)).map
            SmallVector.in_bounds).getD true⟩ := by
    simp only [func_op.matchAndRewrite, ht, hs, hfail]
  rw [hm]
  refine ⟨rfl, _, rfl, rfl, rfl, ?_⟩
  cases hb : f.body <;> simp [func_op.create_func, hb]

/-- Witness of `func_op_failure_after_creation`: the function `f(i32)` of the examples
with a variadic target type. -/
theorem func_op_failure_after_creation_witness :
    (example_fn_tc true).convert_fn_t example_func.inputs example_func.results
      = some (some ⟨.llvm_void, [.integer 32], true⟩)
    ∧ (example_fn_tc true).get_conversion_signature example_func
        ((example_fn_tc true).is_variadic example_func) = some ⟨[some ⟨0, 1⟩], [.integer 32]⟩
    ∧ (func_op.matchAndRewrite (example_fn_tc true) example_func).result = .failure
    ∧ ∃ fn, (func_op.matchAndRewrite (example_fn_tc true) example_func).new_func = some fn
        ∧ fn.name = example_func.name ∧ fn.type = ⟨.llvm_void, [.integer 32], true⟩
        ∧ fn.body.length = example_func.body.length :=
  ⟨rfl, rfl,
    func_op_failure_after_creation (example_fn_tc true) example_func
      ⟨.llvm_void, [.integer 32], true⟩ ⟨[some ⟨0, 1⟩], [.integer 32]⟩ rfl rfl rfl⟩

/-- The patterns `assign_pattern`, `unary_in_place`, `implicit_cast`, `call`, `cmp` and
`deref` return failure only before they create or replace anything. -/
theorem failure_before_any_creation :
    (∀ tc trg op, (assign_pattern.matchAndRewrite tc trg op).outcome = .failure →
        (assign_pattern.matchAndRewrite tc trg op).created = []
        ∧ (assign_pattern.matchAndRewrite tc trg op).replaced = none)
    ∧ (∀ trg y op, (unary_in_place.matchAndRewrite trg y op).outcome = .failure →
        (unary_in_place.matchAndRewrite trg y op).created = []
        ∧ (unary_in_place.matchAndRewrite trg y op).replaced = none)
    ∧ (∀ tc op, (implicit_cast.matchAndRewrite tc op).outcome = .failure →
        (implicit_cast.matchAndRewrite tc op).created = []
        ∧ (implicit_cast.matchAndRewrite tc op).replaced = none)
    ∧ (∀ conv op, (call.matchAndRewrite conv op).outcome = .failure →
        (call.matchAndRewrite conv op).created = []
        ∧ (call.matchAndRewrite conv op).replaced = none)
    ∧ (∀ op, (cmp.matchAndRewrite op).outcome = .failure →
        (cmp.matchAndRewrite op).created = [] ∧ (cmp.matchAndRewrite op).replaced = none)
    ∧ (∀ tc op, (deref.matchAndRewrite tc op).outcome = .failure →
        (deref.matchAndRewrite tc op).created = []
        ∧ (deref.matchAndRewrite tc op).replaced = none) := by
  refine ⟨?_, ?_, ?_, ?_, ?_, ?_⟩
  · intro tc trg op
    by_cases hl : is_lvalue_type op.src.type = true <;> cases trg <;>
      cases hc : tc.convert_type_to_type op.src_type <;>
      simp [assign_pattern.matchAndRewrite, hl, hc]
  · intro trg y op
    by_cases hl : unary_in_place.is_lvalue op.arg = true <;>
      simp [unary_in_place.matchAndRewrite, hl]
  · intro tc op
    cases hc : tc.convert_type_to_type op.type with
    | none => simp [implicit_cast.matchAndRewrite, VAST_PATTERN_CHECK, hc]
    | some t =>
      by_cases hk : op.kind = .LValueToRValue
      · by_cases hl : is_lvalue_type op.operand_type = true <;>
          simp [implicit_cast.matchAndRewrite, VAST_PATTERN_CHECK, hc, hk, hl]
      · by_cases hk2 : op.kind = .IntegralCast
        · cases hts : create_trunc_or_sext tc op.operand t 0 <;>
            simp [implicit_cast.matchAndRewrite, VAST_PATTERN_CHECK, hc, hk2, hts]
        · simp [implicit_cast.matchAndRewrite, VAST_PATTERN_CHECK, hc, hk, hk2]
  · intro conv op
    by_cases hm : op.in_module = true
    · cases hs : op.lookupSymbol with
      | none => simp [call.matchAndRewrite, hm, hs]
      | some ts =>
        cases hr : conv ts <;> simp [call.matchAndRewrite, hm, hs, hr]
    · simp [call.matchAndRewrite, hm]
  · intro op
    rcases hp : cmp.convert_predicate op.predicate with _ | _ | p <;>
      simp [cmp.matchAndRewrite, hp]
  · intro tc op
    cases hc : tc.convert_type_to_type op.type <;> simp [deref.matchAndRewrite, hc]

/-- C20 (what the code does): when the type converter returns no type for the matched
operation, `one_to_one`, `constant_int` and `assign_pattern` (with a target operation) do
not return failure: they go on to read the absent type (`*target_ty`), `assign_pattern`
after it has already created the load; only `deref` and `func_op` return failure. -/
theorem unconverted_type_outcomes (tc : TypeConverter) :
    (∀ (trg : String) (op : hl_Op), tc.convert_type_to_type op.type = none →
        (one_to_one.matchAndRewrite tc trg op).outcome = .undefined)
    ∧ (∀ op : hl_ConstantOp, tc.convert_type_to_type op.type = none →
        (constant_int.matchAndRewrite tc op).outcome = .undefined)
    ∧ (∀ (name : String) (op : hl_AssignOp), is_lvalue_type op.src.type = false →
        tc.convert_type_to_type op.src_type = none →
        (assign_pattern.matchAndRewrite tc (some name) op).outcome = .undefined
        ∧ (assign_pattern.matchAndRewrite tc (some name) op).created
            = [.LoadOp (pointee_type op.dst.type) op.dst.value])
    ∧ (∀ op : hl_Op, tc.convert_type_to_type op.type = none →
        (deref.matchAndRewrite tc op).outcome = .failure)
    ∧ (∀ (ftc : FnTypeConverter) (f : FuncOp),
        (ftc.convert_fn_t f.inputs f.results = none
          ∨ ftc.convert_fn_t f.inputs f.results = some none
          ∨ ftc.get_conversion_signature f (ftc.is_variadic f) = none) →
        func_op.matchAndRewrite ftc f = ⟨.failure, none, false, true⟩) := by
  refine ⟨?_, ?_, ?_, ?_, ?_⟩
  · intro trg op h
    simp [one_to_one.matchAndRewrite, h]
  · intro op h
    simp [constant_int.matchAndRewrite, h]
  · intro name op hl h
    simp [assign_pattern.matchAndRewrite, hl, h]
  · intro op h
    simp [deref.matchAndRewrite, h]
  · intro ftc f h
    rcases ht : ftc.convert_fn_t f.inputs f.results with _ | _ | t
    · simp [func_op.matchAndRewrite, ht]
    · simp [func_op.matchAndRewrite, ht]
    · rcases hs : ftc.get_conversion_signature f (ftc.is_variadic f) with _ | sig
      · simp [func_op.matchAndRewrite, ht, hs]
      · simp [ht, hs] at h

/-- Witness of `unconverted_type_outcomes`: an addition whose result type the type
converter does not convert. -/
theorem unconverted_type_outcomes_witness :
    failing_tc.convert_type_to_type
        (⟨.hl_integer 32 false, [.operand 0, .operand 1]⟩ : hl_Op).type = none
    ∧ (one_to_one.matchAndRewrite failing_tc "llvm.add"
        ⟨.hl_integer 32 false, [.operand 0, .operand 1]⟩).outcome = .undefined :=
  ⟨rfl, (unconverted_type_outcomes failing_tc).1 "llvm.add"
    ⟨.hl_integer 32 false, [.operand 0, .operand 1]⟩ rfl⟩

/-- The patterns that test the converted type with `VAST_PATTERN_CHECK` (`uninit_var`,
`init_list_expr`, `implicit_cast`) end in the fatal error of the failed check when the
type converter returns no type. -/
theorem unconverted_type_checked_patterns (tc : TypeConverter) :
    (∀ op : hl_Op, tc.convert_type_to_type op.type = none →
        (uninit_var.matchAndRewrite tc op).outcome = .fatal)
    ∧ (∀ (t : mlir_type) (elements : List PValue), tc.convert_type_to_type t = none →
        (init_list_expr.matchAndRewrite tc ⟨[t], elements⟩).outcome = .fatal)
    ∧ (∀ op : hl_ImplicitCastOp, tc.convert_type_to_type op.type = none →
        (implicit_cast.matchAndRewrite tc op).outcome = .fatal) := by
  refine ⟨?_, ?_, ?_⟩
  · intro op h
    simp [uninit_var.matchAndRewrite, VAST_PATTERN_CHECK, h]
  · intro t elements h
    simp [init_list_expr.matchAndRewrite, VAST_PATTERN_CHECK, h]
  · intro op h
    simp [implicit_cast.matchAndRewrite, VAST_PATTERN_CHECK, h]

/-! ## Record types in the codegen type driver -/

namespace cg

open type_conversion_driver

/-- C21 (as stated, refuted): in the example driver, where every type that is not a
record converts (the type `int` does), `convert_type` of the record type 9 does not
return an aggregate type: it ends with the error of `convert_record_decl_type`. -/
theorem convert_type_record_example :
    example_driver.record_decl (example_driver.getCanonicalType ⟨9, 0⟩) = some 0
    ∧ (convert_type example_driver ⟨32, 0⟩ example_state).1 = .ok (some (.integer 32))
    ∧ (convert_type example_driver ⟨9, 0⟩ example_state).1
        = .error (.unimplemented "convert_record_decl_type") := by
  refine ⟨rfl, rfl, rfl⟩

/-- C21 (amended): `convert_type` applied to a record type always fails with the error
"unimplemented" of `convert_record_decl_type`; it converts no field (there is no call of
`codegen.convert`), returns no type, and leaves the driver state, the type cache
included, as it was. -/
theorem convert_type_record_unimplemented (driver : codegen_driver)
    (s : type_conversion_driver) (type : qual_type) (decl : Nat)
    (hrec : driver.record_decl (driver.getCanonicalType type) = some decl) :
    convert_type driver type s = (.error (.unimplemented "convert_record_decl_type"), s) := by
  simp [convert_type, hrec, convert_record_decl_type]

/-- Witness of `convert_type_record_unimplemented`: the record type 9 of the example
driver. -/
theorem convert_type_record_unimplemented_witness :
    example_driver.record_decl (example_driver.getCanonicalType ⟨9, 0⟩) = some 0
    ∧ convert_type example_driver ⟨9, 0⟩ example_state
        = (.error (.unimplemented "convert_record_decl_type"), example_state) :=
  ⟨rfl, convert_type_record_unimplemented example_driver example_state ⟨9, 0⟩ 0 rfl⟩

end cg

/-! ## Registered patterns and legality of the core-to-LLVM pass -/

/-- C22 (as stated, refuted): the patterns `shl` and `shr` have the same source operation
kind, the left shift `hl::BinShlOp`; `shr` is not a candidate for a right-shift operation
(here the kind `hl::BinShrOp`), and no pattern of the pass is. -/
theorem shr_pattern_matches_left_shift :
    CoreToLLVMPass.shr.source = CoreToLLVMPass.shl.source
    ∧ CoreToLLVMPass.shr.source = ⟨.hl, "BinShlOp"⟩
    ∧ CoreToLLVMPass.shr.is_match ⟨.hl, "BinShrOp"⟩ = false
    ∧ CoreToLLVMPass.patterns_for ⟨.hl, "BinShrOp"⟩ = [] := by
  decide

/-- C22 (amended): the pass registers the two patterns `shl` and `shr`; both match one
and the same operation kind, the high-level left shift `hl::BinShlOp`, and no other kind,
and both replace the matched operation, when its type converts, with the LLVM left shift
on the same operands. -/
theorem shift_patterns_both_left (tc : TypeConverter) (op : hl_Op) (t : mlir_type)
    (hconv : tc.convert_type_to_type op.type = some t) :
    CoreToLLVMPass.patterns_for ⟨.hl, "BinShlOp"⟩ = [CoreToLLVMPass.shl, CoreToLLVMPass.shr]
    ∧ (∀ kind, CoreToLLVMPass.shl.is_match kind = true ↔ kind = ⟨.hl, "BinShlOp"⟩)
    ∧ (∀ kind, CoreToLLVMPass.shr.is_match kind = true ↔ kind = ⟨.hl, "BinShlOp"⟩)
    ∧ CoreToLLVMPass.shl.impl = .one_to_one "llvm.shl"
    ∧ CoreToLLVMPass.shr.impl = .one_to_one "llvm.shl"
    ∧ one_to_one.matchAndRewrite tc "llvm.shl" op
        = ⟨.success, [.target "llvm.shl" (some t) op.operands], some [.created 0]⟩ := by
  refine ⟨by decide, ?_, ?_, rfl, rfl, ?_⟩
  · intro kind
    simp only [RegisteredPattern.is_match, CoreToLLVMPass.shl, decide_eq_true_eq]
    exact eq_comm
  · intro kind
    simp only [RegisteredPattern.is_match, CoreToLLVMPass.shr, decide_eq_true_eq]
    exact eq_comm
  · simp [one_to_one.matchAndRewrite, hconv]

/-- Witness of `shift_patterns_both_left`: a left shift of the type `int`. -/
theorem shift_patterns_both_left_witness :
    (example_tc 32).convert_type_to_type
        (⟨.hl_integer 32 false, [.operand 0, .operand 1]⟩ : hl_Op).type = some (.integer 32)
    ∧ one_to_one.matchAndRewrite (example_tc 32) "llvm.shl"
        ⟨.hl_integer 32 false, [.operand 0, .operand 1]⟩
        = ⟨.success, [.target "llvm.shl" (some (.integer 32)) [.operand 0, .operand 1]],
            some [.created 0]⟩ :=
  ⟨rfl, (shift_patterns_both_left (example_tc 32)
    ⟨.hl_integer 32 false, [.operand 0, .operand 1]⟩ (.integer 32) rfl).2.2.2.2.2⟩

/-- C23: under the legality policy of the pass an `hl::InitListExpr` is legal exactly when
all of its result types are LLVM-compatible; the pattern `init_list_expr` replaces an
`InitListExpr` with one result, whose type converts, by an `InitListExpr` with the same
elements in the same order and the converted result type; when the converted type is
LLVM-compatible, the new operation is legal under the policy. -/
theorem init_list_expr_legal_after_rewrite (tc : TypeConverter) (t t' : mlir_type)
    (elements : List PValue) (hconv : tc.convert_type_to_type t = some t') :
    (∀ result_types, CoreToLLVMPass.is_legal ⟨.hl, "InitListExpr"⟩ result_types = true
        ↔ ∀ ty ∈ result_types, isCompatibleType ty = true)
    ∧ init_list_expr.matchAndRewrite tc ⟨[t], elements⟩
        = ⟨.success, [.InitListExpr t' elements], some [.created 0]⟩
    ∧ (isCompatibleType t' = true →
        CoreToLLVMPass.is_legal ⟨.hl, "InitListExpr"⟩ [t'] = true) := by
  have hlegal : ∀ result_types,
      CoreToLLVMPass.is_legal ⟨.hl, "InitListExpr"⟩ result_types = true
        ↔ ∀ ty ∈ result_types, isCompatibleType ty = true := by
    intro result_types
    have h : CoreToLLVMPass.is_legal ⟨.hl, "InitListExpr"⟩ result_types
        = has_llvm_only_types result_types := by
      simp [CoreToLLVMPass.is_legal]
    rw [h]
    simp [has_llvm_only_types, for_each_subtype, List.all_eq_true]
  refine ⟨hlegal, ?_, ?_⟩
  · simp [init_list_expr.matchAndRewrite, VAST_PATTERN_CHECK, hconv]
  · intro hc
    exact (hlegal [t']).mpr (by simpa using hc)

/-- Witness of `init_list_expr_legal_after_rewrite`: an initializer list of the type
`int` with two elements. -/
theorem init_list_expr_legal_after_rewrite_witness :
    (example_tc 32).convert_type_to_type (.hl_integer 32 false) = some (.integer 32)
    ∧ init_list_expr.matchAndRewrite (example_tc 32)
        ⟨[.hl_integer 32 false], [.operand 0, .operand 1]⟩
        = ⟨.success, [.InitListExpr (.integer 32) [.operand 0, .operand 1]],
            some [.created 0]⟩
    ∧ CoreToLLVMPass.is_legal ⟨.hl, "InitListExpr"⟩ [.hl_integer 32 false] = false
    ∧ CoreToLLVMPass.is_legal ⟨.hl, "InitListExpr"⟩ [.integer 32] = true :=
  ⟨rfl,
    (init_list_expr_legal_after_rewrite (example_tc 32) (.hl_integer 32 false) (.integer 32)
      [.operand 0, .operand 1] rfl).2.1,
    by decide,
    (init_list_expr_legal_after_rewrite (example_tc 32) (.hl_integer 32 false) (.integer 32)
      [.operand 0, .operand 1] rfl).2.2 (by decide)⟩

/-! ## The blocks built by `lazy_bin_logical` -/

/-- C24: `lazy_bin_logical` leaves three blocks.  The head block keeps the arguments of
the original block and holds the operations before the logical operation, then the body
of the left operand, then the comparison of the left value and a conditional branch whose
successors are the right-hand block and the join block.  The right-hand block holds the
body of the right operand, then the comparison of the right value and a branch to the
join block passing one value.  The join block has exactly one argument, of type `i1`, and
holds the zero-extension of that argument followed by the operations after the logical
operation, in which every use of the result of the logical operation is a use of the
zero-extension.  The lazy operations and their yields are in none of the blocks. -/
theorem lazy_bin_logical_three_blocks (tc : TypeConverter) (short_on_true : Bool)
    (op : LogicalOp) :
    (lazy_bin_logical.matchAndRewrite tc short_on_true op).curr_block.arguments = op.arguments
    ∧ (lazy_bin_logical.matchAndRewrite tc short_on_true op).curr_block.operations
        = op.before.map Operation.source ++ op.lhs.body.map Operation.source
          ++ [Operation.constant .zero (tc.convertType op.lhs.yield_type) 0,
              Operation.icmp .cmp_lhs .eq (.source op.lhs.yield_operand) .zero,
              if short_on_true then
                Operation.cond_br .cmp_lhs .end_block [.cmp_lhs] .rhs_block []
              else
                Operation.cond_br .cmp_lhs .rhs_block [] .end_block [.cmp_lhs]]
    ∧ (lazy_bin_logical.matchAndRewrite tc short_on_true op).rhs_block.arguments = []
    ∧ (lazy_bin_logical.matchAndRewrite tc short_on_true op).rhs_block.operations
        = op.rhs.body.map Operation.source
          ++ [Operation.icmp .cmp_rhs .eq (.source op.rhs.yield_operand) .zero,
              Operation.br [.cmp_rhs] .end_block]
    ∧ (lazy_bin_logical.matchAndRewrite tc short_on_true op).end_block.arguments
        = [(.end_arg, .integer 1)]
    ∧ (lazy_bin_logical.matchAndRewrite tc short_on_true op).end_block.operations
        = Operation.zext .zext (tc.convertType op.result_type) .end_arg
          :: op.after.map (fun o =>
              Operation.source (o.replace_uses (.source op.result) .zext))
    ∧ (∀ o ∈ op.after,
        Value.source op.result ∉ (o.replace_uses (.source op.result) .zext).operands) := by
  refine ⟨rfl, ?_, rfl, ?_, rfl, ?_, ?_⟩
  · cases short_on_true <;>
      simp [lazy_bin_logical.matchAndRewrite, lazy_bin_logical.insert_lazy_to_block]
  · simp [lazy_bin_logical.matchAndRewrite, lazy_bin_logical.insert_lazy_to_block]
  · simp [lazy_bin_logical.matchAndRewrite, lazy_bin_logical.insert_lazy_to_block]
  · intro o _
    simp only [SourceOp.replace_uses, List.mem_map, not_exists, not_and]
    intro v _
    by_cases hv : v = .source op.result
    · simp [hv]
    · simp [hv]

/-- C25 (what the code does): for the operand bodies yielding `a` and `b`, the value that
replaces the lowered logical-AND is 1 exactly when `a = 0` and `b = 0`, and the value
that replaces the lowered logical-OR is 1 exactly when `a = 0` or `b = 0`: the truth
values of the operands are negated, so `1 && 1` gives 0 and `0 || 0` gives 1. -/
theorem lazy_logical_value (tc : TypeConverter) (a b : Int) :
    (run (lazy_bin_logical.lazy_land tc (example_logical a b)) 3 .curr_block []
        example_machine).map (fun m => m.env .zext)
      = some (if a = 0 ∧ b = 0 then 1 else 0)
    ∧ (run (lazy_bin_logical.lazy_lor tc (example_logical a b)) 3 .curr_block []
        example_machine).map (fun m => m.env .zext)
      = some (if a = 0 ∨ b = 0 then 1 else 0) := by
  by_cases ha : a = 0 <;> by_cases hb : b = 0 <;>
    simp [lazy_bin_logical.lazy_land, lazy_bin_logical.lazy_lor,
      lazy_bin_logical.matchAndRewrite, lazy_bin_logical.insert_lazy_to_block, run,
      Lowered.block, bind_arguments, exec_ops, SourceOp.exec, Machine.set, Machine.log,
      ICmpPredicate.eval, example_logical, example_machine, SourceOp.replace_uses, ha, hb]

/-- The values of `1 && 1` and `0 || 0` after the lowering: 0 and 1. -/
theorem lazy_logical_value_examples :
    (run (lazy_bin_logical.lazy_land (example_tc 32) (example_logical 1 1)) 3 .curr_block []
        example_machine).map (fun m => m.env .zext) = some 0
    ∧ (run (lazy_bin_logical.lazy_lor (example_tc 32) (example_logical 0 0)) 3 .curr_block []
        example_machine).map (fun m => m.env .zext) = some 1 := by
  decide


/-! ## Variable declarations: `vardecl_op` -/

theorem mem_defs_after (v : VValue) (defined : List VValue) (ops : List VOp) :
    v ∈ defs_after defined ops ↔ v ∈ ops.map VOp.result ∨ v ∈ defined := by
  simp [defs_after]

theorem dominated_append (xs ys : List VOp) :
    ∀ defined, dominated defined (xs ++ ys)
      = (dominated defined xs && dominated (defs_after defined xs) ys) := by
  induction xs with
  | nil => intro defined; simp [dominated, defs_after]
  | cons x xs ih =>
    intro defined
    simp [dominated, ih, defs_after, Bool.and_assoc]

theorem replace_uses_result (old new : VValue) (o : VOp) :
    (vardecl_op.replace_uses old new o).result = o.result := by
  cases o <;> rfl

theorem replace_uses_operands (old new : VValue) (o : VOp) :
    (vardecl_op.replace_uses old new o).operands
      = o.operands.map (fun v => if v = old then new else v) := by
  cases o <;> simp [vardecl_op.replace_uses, VOp.operands]

theorem replace_uses_map_result (old new : VValue) (ops : List VOp) :
    (ops.map (vardecl_op.replace_uses old new)).map VOp.result = ops.map VOp.result := by
  simp [replace_uses_result]

theorem dominated_replace (old new : VValue) (ops : List VOp) :
    ∀ D E : List VValue, (∀ v ∈ D, v ≠ old → v ∈ E) → new ∈ E → dominated D ops = true →
      dominated E (ops.map (vardecl_op.replace_uses old new)) = true := by
  induction ops with
  | nil => intro D E _ _ _; rfl
  | cons o ops ih =>
    intro D E hsub hnew h
    simp only [dominated, Bool.and_eq_true, List.all_eq_true, decide_eq_true_eq] at h
    simp only [List.map_cons, dominated, Bool.and_eq_true, List.all_eq_true,
      decide_eq_true_eq, replace_uses_operands, replace_uses_result]
    refine ⟨?_, ih (o.result :: D) (o.result :: E) ?_ (List.mem_cons_of_mem _ hnew) h.2⟩
    · intro v hv
      obtain ⟨u, hu, rfl⟩ := List.mem_map.mp hv
      by_cases hold : u = old
      · simpa [hold] using hnew
      · simpa [hold] using hsub u (h.1 u hu) hold
    · intro v hv hne
      rcases List.mem_cons.mp hv with rfl | hv
      · exact List.mem_cons_self _ _
      · exact List.mem_cons_of_mem _ (hsub v hv hne)

theorem VOp.result_ne_var (o : VOp) : o.result ≠ VValue.var := by
  cases o <;> simp [VOp.result]

theorem dominated_no_use (ops : List VOp) :
    ∀ D : List VValue, VValue.var ∉ D → dominated D ops = true →
      ∀ o ∈ ops, VValue.var ∉ o.operands := by
  induction ops with
  | nil => intro D _ _ o ho; cases ho
  | cons x ops ih =>
    intro D hD h o ho
    simp only [dominated, Bool.and_eq_true, List.all_eq_true, decide_eq_true_eq] at h
    rcases List.mem_cons.mp ho with rfl | ho
    · intro hmem; exact hD (h.1 _ hmem)
    · refine ih (x.result :: D) ?_ h.2 o ho
      intro hmem
      rcases List.mem_cons.mp hmem with heq | hmem
      · exact VOp.result_ne_var x heq.symm
      · exact hD hmem

theorem replace_uses_of_no_use (old new : VValue) (ops : List VOp)
    (h : ∀ o ∈ ops, old ∉ o.operands) :
    ops.map (vardecl_op.replace_uses old new) = ops := by
  induction ops with
  | nil => rfl
  | cons o ops ih =>
    have ho := h o (List.mem_cons_self _ _)
    have hrest := ih (fun p hp => h p (List.mem_cons_of_mem _ hp))
    simp only [List.map_cons, hrest, List.cons.injEq, and_true]
    cases o with
    | other id operands =>
      simp only [vardecl_op.replace_uses, VOp.other.injEq, true_and]
      simp only [VOp.operands] at ho
      conv_rhs => rw [← List.map_id operands]
      apply List.map_congr_left
      intro v hv
      have : v ≠ old := fun e => ho (e ▸ hv)
      simp [this]
    | UninitializedVar type => rfl
    | InitializeVar type addr elements =>
      simp only [VOp.operands, List.mem_cons, not_or] at ho
      simp only [vardecl_op.replace_uses, VOp.InitializeVar.injEq, true_and]
      refine ⟨by simp [Ne.symm ho.1], ?_⟩
      conv_rhs => rw [← List.map_id elements]
      apply List.map_congr_left
      intro v hv
      have : v ≠ old := fun e => ho.2 (e ▸ hv)
      simp [this]


/-- A region of several blocks: `inlineRegionBefore` places the blocks before the last
one in front of the block of the declaration. -/
theorem vardecl_op_leading_blocks (op : hl_VarDeclOp) (init : Initializer)
    (before after : List VOp) (h : op.initializer = some init) :
    (vardecl_op.matchAndRewrite op before after).blocks_before
      = (init.leading_blocks.map (fun b => b.map
          (vardecl_op.set_operands (vardecl_op.fix_init_refs init op.users)))).map
          (fun b => b.map (vardecl_op.replace_uses .var .init_var)) := by
  simp [vardecl_op.matchAndRewrite, h]

/-- C26 (what the code does): the declaration `struct node h = { &h, &h }` inside a
function, whose initializer holds two operations (1 and 2) that use `h` itself, whatever
the order `users` of the use list is.  The walk of `fix_init_refs` ends after the first
user it redirects, so at most one of the two operations refers to the `UninitializedVar`;
the other one is left to `replaceOp` and refers to the `InitializeVar`, which comes after
it: the rewritten block does not keep definitions before uses. -/
theorem vardecl_op_two_users_use_before_definition (users : List VUser) :
    ∃ block,
      HLToLLVarsPass.runOnOperation (example_vardecl_two_users users) [] [.other 4 [.var]]
        = some ⟨[], block⟩
      ∧ (VOp.other 1 [.init_var] ∈ block ∨ VOp.other 2 [.init_var] ∈ block)
      ∧ block.getLast? = some (.other 4 [.init_var])
      ∧ block.get? 4
          = some (.InitializeVar (.hl_lvalue (.hl_other 0)) .uninit_var [.other 3])
      ∧ dominated [] block = false := by
  refine ⟨_, rfl, ?_, ?_, ?_, ?_⟩ <;>
    simp only [vardecl_op.matchAndRewrite, example_vardecl_two_users] <;>
    generalize vardecl_op.fix_init_refs _ users = fixed <;>
    by_cases h1 : fixed = some (.op 1) <;>
    by_cases h2 : fixed = some (.op 2) <;>
    by_cases h3 : fixed = some .yield <;>
    simp [vardecl_op.set_operands, vardecl_op.replace_uses, dominated, VOp.operands,
      VOp.result, h1, h2, h3]

/-- The declaration of C26 with its use list in both orders: with the uses in the order
of their creation reversed (4, 2, 1) operation 2 refers to the `UninitializedVar` and
operation 1 to the later `InitializeVar`; with the order 1, 2, 4 it is the other way
round. -/
theorem vardecl_op_two_users_examples :
    HLToLLVarsPass.runOnOperation (example_vardecl_two_users [.op 4, .op 2, .op 1]) []
        [.other 4 [.var]]
      = some ⟨[], [.UninitializedVar (.hl_lvalue (.hl_other 0)),
          .other 1 [.init_var], .other 2 [.uninit_var], .other 3 [.other 1, .other 2],
          .InitializeVar (.hl_lvalue (.hl_other 0)) .uninit_var [.other 3],
          .other 4 [.init_var]]⟩
    ∧ HLToLLVarsPass.runOnOperation (example_vardecl_two_users [.op 1, .op 2, .op 4]) []
        [.other 4 [.var]]
      = some ⟨[], [.UninitializedVar (.hl_lvalue (.hl_other 0)),
          .other 1 [.uninit_var], .other 2 [.init_var], .other 3 [.other 1, .other 2],
          .InitializeVar (.hl_lvalue (.hl_other 0)) .uninit_var [.other 3],
          .other 4 [.init_var]]⟩
    ∧ dominated [] [.UninitializedVar (.hl_lvalue (.hl_other 0)),
          .other 1 [.init_var], .other 2 [.uninit_var], .other 3 [.other 1, .other 2],
          .InitializeVar (.hl_lvalue (.hl_other 0)) .uninit_var [.other 3],
          .other 4 [.init_var]] = false
    ∧ dominated [] [.UninitializedVar (.hl_lvalue (.hl_other 0)),
          .other 1 [.uninit_var], .other 2 [.init_var], .other 3 [.other 1, .other 2],
          .InitializeVar (.hl_lvalue (.hl_other 0)) .uninit_var [.other 3],
          .other 4 [.init_var]] = false := by
  decide

theorem replace_uses_no_use_left (old new : VValue) (hne : new ≠ old) (o : VOp) :
    old ∉ (vardecl_op.replace_uses old new o).operands := by
  rw [replace_uses_operands]
  intro h
  obtain ⟨v, _, hv⟩ := List.mem_map.mp h
  by_cases hvo : v = old
  · rw [if_pos hvo] at hv; exact hne hv
  · rw [if_neg hvo] at hv; exact hvo hv

theorem replace_uses_self_of_no_use (old new : VValue) (o : VOp)
    (h : old ∉ o.operands) : vardecl_op.replace_uses old new o = o := by
  have := replace_uses_of_no_use old new [o] (by simpa using h)
  simpa using this

/-- When every operation of the initializer that uses the variable is the user that the
walk of `fix_init_refs` redirects, the walk leaves the operations of the initializer with
every use of the variable redirected. -/
theorem set_operands_eq_replace_uses (fixed : Option VUser) (body : List VOp)
    (hfixed : ∀ o ∈ body, VValue.var ∈ o.operands →
      ∃ id operands, o = .other id operands ∧ fixed = some (.op id)) :
    body.map (vardecl_op.set_operands fixed)
      = body.map (vardecl_op.replace_uses .var .uninit_var) := by
  apply List.map_congr_left
  intro o ho
  by_cases hv : VValue.var ∈ o.operands
  · obtain ⟨id, operands, rfl, hf⟩ := hfixed o ho hv
    simp [vardecl_op.set_operands, hf]
  · rw [replace_uses_self_of_no_use _ _ o hv]
    cases o with
    | other id operands =>
      by_cases hf : fixed = some (.op id)
      · simp only [vardecl_op.set_operands, hf, if_true]
        exact replace_uses_self_of_no_use _ _ _ hv
      · simp [vardecl_op.set_operands, hf]
    | UninitializedVar type => rfl
    | InitializeVar type addr elements => rfl

/-- The part of C26 that the code keeps.  For a declaration inside a function whose
initializer is one block with the operations `body` and the yielded value
`yield_operand`, in a block where definitions come before uses, and when the only user of
the variable inside the initializer is the one that the walk of `fix_init_refs` redirects,
the block becomes: the operations in front unchanged, the new `UninitializedVar`, the
operations of the initializer with each use of the variable redirected to the
`UninitializedVar`, an `InitializeVar` of the declared type on the `UninitializedVar` and
the yielded value, and the operations after the declaration with their uses redirected to
the `InitializeVar`; no use of the declaration remains, and definitions still come before
uses. With an empty initializer the declaration becomes the `UninitializedVar` alone, and
a declaration whose parent is the module is legal and left as it is. -/
theorem vardecl_op_single_user (type : mlir_type) (body : List VOp)
    (yield_operand : VValue) (before after : List VOp) (defined : List VValue)
    (users : List VUser)
    (hfresh : VValue.var ∉ defined)
    (hbefore : dominated defined before = true)
    (hbody : dominated (VValue.var :: defs_after defined before) body = true)
    (hyield : yield_operand ∈ defs_after (VValue.var :: defs_after defined before) body)
    (hafter : dominated (VValue.var :: defs_after defined before) after = true)
    (hfixed : ∀ o ∈ body, VValue.var ∈ o.operands →
      ∃ id operands, o = .other id operands
        ∧ vardecl_op.fix_init_refs ⟨[], body, yield_operand⟩ users = some (.op id))
    (hfixed_yield : yield_operand = .var →
      vardecl_op.fix_init_refs ⟨[], body, yield_operand⟩ users = some .yield) :
    (∃ block,
      HLToLLVarsPass.runOnOperation ⟨type, some ⟨[], body, yield_operand⟩, false, users⟩
          before after = some ⟨[], block⟩
      ∧ block = before ++ VOp.UninitializedVar type
          :: body.map (vardecl_op.replace_uses .var .uninit_var)
          ++ VOp.InitializeVar type .uninit_var
              [if yield_operand = .var then .uninit_var else yield_operand]
          :: after.map (vardecl_op.replace_uses .var .init_var)
      ∧ (∀ o ∈ block, VValue.var ∉ o.operands)
      ∧ dominated defined block = true)
    ∧ HLToLLVarsPass.runOnOperation ⟨type, none, false, users⟩ before after
        = some ⟨[], before ++ VOp.UninitializedVar type
            :: after.map (vardecl_op.replace_uses .var .uninit_var)⟩
    ∧ ∀ init, HLToLLVarsPass.is_legal ⟨type, init, true, users⟩ = true
        ∧ HLToLLVarsPass.runOnOperation ⟨type, init, true, users⟩ before after = none := by
  have hnone := dominated_no_use before defined hfresh hbefore
  have hb1 := replace_uses_of_no_use .var .init_var before hnone
  have hb2 := replace_uses_of_no_use .var .uninit_var before hnone
  have hdom : dominated defined (before ++ VOp.UninitializedVar type
          :: body.map (vardecl_op.replace_uses .var .uninit_var)
          ++ VOp.InitializeVar type .uninit_var
              [if yield_operand = .var then .uninit_var else yield_operand]
          :: after.map (vardecl_op.replace_uses .var .init_var)) = true := by
    have hbody2 := dominated_replace .var .uninit_var body
      (VValue.var :: defs_after defined before)
      (VValue.uninit_var :: defs_after defined before)
      (by
        intro v hv hne
        rcases List.mem_cons.mp hv with rfl | hv
        · exact absurd rfl hne
        · exact List.mem_cons_of_mem _ hv)
      (List.mem_cons_self _ _) hbody
    have hafter2 := dominated_replace .var .init_var after
      (VValue.var :: defs_after defined before)
      (VValue.init_var :: defs_after (VValue.uninit_var :: defs_after defined before)
        (body.map (vardecl_op.replace_uses .var .uninit_var)))
      (by
        intro v hv hne
        rcases List.mem_cons.mp hv with rfl | hv
        · exact absurd rfl hne
        · refine List.mem_cons_of_mem _ ((mem_defs_after _ _ _).mpr (Or.inr ?_))
          exact List.mem_cons_of_mem _ hv)
      (List.mem_cons_self _ _) hafter
    have hy : (if yield_operand = .var then VValue.uninit_var else yield_operand)
        ∈ defs_after (VValue.uninit_var :: defs_after defined before)
            (body.map (vardecl_op.replace_uses .var .uninit_var)) := by
      rw [mem_defs_after, replace_uses_map_result]
      by_cases hv : yield_operand = .var
      · simp [hv]
      · rw [if_neg hv]
        rcases (mem_defs_after _ _ _).mp hyield with h | h
        · exact Or.inl h
        · rcases List.mem_cons.mp h with h | h
          · exact absurd h hv
          · exact Or.inr (List.mem_cons_of_mem _ h)
    have hu : VValue.uninit_var
        ∈ defs_after (VValue.uninit_var :: defs_after defined before)
            (body.map (vardecl_op.replace_uses .var .uninit_var)) :=
      (mem_defs_after _ _ _).mpr (Or.inr (List.mem_cons_self _ _))
    rw [List.append_assoc, List.cons_append, dominated_append, hbefore, Bool.true_and]
    simp only [dominated, VOp.operands, VOp.result, List.all_nil, Bool.true_and]
    rw [dominated_append, hbody2, Bool.true_and]
    simp only [dominated, VOp.operands, VOp.result, List.all_cons, List.all_nil,
      Bool.and_true, Bool.and_eq_true, decide_eq_true_eq]
    exact ⟨⟨hu, hy⟩, hafter2⟩
  -- what the walk leaves is what the redirection of every use leaves
  have hset := set_operands_eq_replace_uses
    (vardecl_op.fix_init_refs ⟨[], body, yield_operand⟩ users) body hfixed
  have hbody3 : (body.map (vardecl_op.replace_uses .var .uninit_var)).map
      (vardecl_op.replace_uses .var .init_var)
        = body.map (vardecl_op.replace_uses .var .uninit_var) := by
    apply replace_uses_of_no_use
    intro o ho
    obtain ⟨o', _, rfl⟩ := List.mem_map.mp ho
    exact replace_uses_no_use_left .var .uninit_var (by decide) o'
  have hyield2 : (if vardecl_op.fix_init_refs ⟨[], body, yield_operand⟩ users = some .yield
        ∧ yield_operand = .var then VValue.uninit_var else yield_operand)
      = (if yield_operand = .var then VValue.uninit_var else yield_operand) := by
    by_cases hv : yield_operand = .var
    · rw [if_pos ⟨hfixed_yield hv, hv⟩, if_pos hv]
    · rw [if_neg (fun h => hv h.2), if_neg hv]
  have hyield3 : (if yield_operand = .var then VValue.uninit_var else yield_operand)
      ≠ VValue.var := by
    by_cases hv : yield_operand = .var
    · simp [hv]
    · simp [hv]
  refine ⟨⟨_, ?_, rfl, dominated_no_use _ defined hfresh hdom, hdom⟩, ?_, ?_⟩
  · simp only [HLToLLVarsPass.runOnOperation, HLToLLVarsPass.is_legal,
      vardecl_op.matchAndRewrite, Bool.false_eq_true, if_false, hset, hyield2,
      List.map_append, List.map_cons, hb1, hbody3, List.map_nil]
    simp [vardecl_op.replace_uses, hyield3]
  · simp [HLToLLVarsPass.runOnOperation, HLToLLVarsPass.is_legal,
      vardecl_op.matchAndRewrite, hb2]
  · intro init
    simp [HLToLLVarsPass.runOnOperation, HLToLLVarsPass.is_legal]

/-- The declaration `int *x = malloc(sizeof(*x))` of the comment in the source, which has
one user inside its initializer. -/
theorem vardecl_op_single_user_example :
    HLToLLVarsPass.runOnOperation example_vardecl [.other 0 []]
        [.other 2 [.var, .other 0]]
      = some ⟨[], [.other 0 [], .UninitializedVar (.hl_lvalue (.hl_other 0)),
          .other 1 [.uninit_var],
          .InitializeVar (.hl_lvalue (.hl_other 0)) .uninit_var [.other 1],
          .other 2 [.init_var, .other 0]]⟩
    ∧ dominated [] [.other 0 [], .UninitializedVar (.hl_lvalue (.hl_other 0)),
          .other 1 [.uninit_var],
          .InitializeVar (.hl_lvalue (.hl_other 0)) .uninit_var [.other 1],
          .other 2 [.init_var, .other 0]] = true := by
  decide

/-- The hypotheses of `vardecl_op_single_user` hold for the declaration
`int *x = malloc(sizeof(*x))` of the examples. -/
theorem vardecl_op_single_user_holds :
    ∃ block,
      HLToLLVarsPass.runOnOperation
          ⟨.hl_lvalue (.hl_other 0), some ⟨[], [.other 1 [.var]], .other 1⟩, false,
            [.op 2, .op 1]⟩
          [.other 0 []] [.other 2 [.var, .other 0]] = some ⟨[], block⟩
      ∧ (∀ o ∈ block, VValue.var ∉ o.operands)
      ∧ dominated [] block = true := by
  obtain ⟨⟨block, h1, _, h3, h4⟩, _⟩ :=
    vardecl_op_single_user (.hl_lvalue (.hl_other 0)) [.other 1 [.var]] (.other 1)
      [.other 0 []] [.other 2 [.var, .other 0]] [] [.op 2, .op 1]
      (by decide) (by decide) (by decide) (by decide) (by decide)
      (by
        intro o ho _
        rw [List.mem_singleton] at ho
        subst ho
        exact ⟨1, [.var], rfl, rfl⟩)
      (by intro h; cases h)
  exact ⟨block, h1, h3, h4⟩

/-! ## Implicit casts: `create_trunc_or_sext` and `implicit_cast` -/

/-- The part of C28 that the code keeps: between integer types `create_trunc_or_sext`
returns the operand itself and creates nothing when the two bit widths are equal, creates
one `SExtOp` when the target is wider and one `TruncOp` when it is narrower. For a cast
whose result type the type converter converts to `trg_type`, `implicit_cast` of kind
`IntegralCast` on an integer operand replaces the cast by that value, whatever the
high-level type `operand_type` of the operand is (signed or unsigned); a cast of kind
`LValueToRValue` whose operand is not of lvalue type, and a cast of any other kind, return
failure and create nothing. -/
theorem implicit_cast_trunc_or_sext (tc : TypeConverter) (cast : hl_ImplicitCastOp)
    (trg_type : mlir_type) (op : TypedValue) (target : mlir_type) (next : Nat)
    (hconv : tc.convert_type_to_type cast.type = some trg_type)
    (hop : is_integer_type op.type = true) (htarget : is_integer_type target = true) :
    (tc.getTypeSizeInBits target = tc.getTypeSizeInBits op.type →
        create_trunc_or_sext tc op target next = some (op.value, []))
    ∧ (tc.getTypeSizeInBits op.type < tc.getTypeSizeInBits target →
        create_trunc_or_sext tc op target next
          = some (.created next, [.SExtOp target op.value]))
    ∧ (tc.getTypeSizeInBits target < tc.getTypeSizeInBits op.type →
        create_trunc_or_sext tc op target next
          = some (.created next, [.TruncOp target op.value]))
    ∧ (cast.kind = .IntegralCast → cast.operand = op → trg_type = target →
        implicit_cast.matchAndRewrite tc cast
          = if tc.getTypeSizeInBits target = tc.getTypeSizeInBits op.type then
              ⟨.success, [], some [op.value]⟩
            else if tc.getTypeSizeInBits op.type < tc.getTypeSizeInBits target then
              ⟨.success, [.SExtOp target op.value], some [.created 0]⟩
            else ⟨.success, [.TruncOp target op.value], some [.created 0]⟩)
    ∧ (cast.kind = .LValueToRValue → is_lvalue_type cast.operand_type = false →
        implicit_cast.matchAndRewrite tc cast = ⟨.failure, [], none⟩)
    ∧ (cast.kind ≠ .LValueToRValue → cast.kind ≠ .IntegralCast →
        implicit_cast.matchAndRewrite tc cast = ⟨.failure, [], none⟩) := by
  have hcreate : ∀ n, create_trunc_or_sext tc op target n
      = if tc.getTypeSizeInBits target = tc.getTypeSizeInBits op.type then
          some (op.value, [])
        else if tc.getTypeSizeInBits op.type < tc.getTypeSizeInBits target then
          some (.created n, [.SExtOp target op.value])
        else some (.created n, [.TruncOp target op.value]) := by
    intro n
    simp [create_trunc_or_sext, hop, htarget]
  refine ⟨?_, ?_, ?_, ?_, ?_, ?_⟩
  · intro h
    rw [hcreate, if_pos h]
  · intro h
    rw [hcreate, if_neg (Nat.ne_of_gt h), if_pos h]
  · intro h
    rw [hcreate, if_neg (Nat.ne_of_lt h), if_neg (Nat.lt_asymm h)]
  · intro hkind hoperand htrg
    subst htrg
    simp only [implicit_cast.matchAndRewrite, hconv, VAST_PATTERN_CHECK, Option.isSome_some,
      if_true, hkind, hoperand, hcreate]
    by_cases he : tc.getTypeSizeInBits trg_type = tc.getTypeSizeInBits op.type
    · simp [he]
    · by_cases hl : tc.getTypeSizeInBits op.type < tc.getTypeSizeInBits trg_type
      · simp [he, hl]
      · simp [he, hl]
  · intro hkind hl
    simp [implicit_cast.matchAndRewrite, hconv, VAST_PATTERN_CHECK, hkind, hl]
  · intro h1 h2
    simp [implicit_cast.matchAndRewrite, hconv, VAST_PATTERN_CHECK, h1, h2]

theorem implicit_cast_trunc_or_sext_witness :
    ((example_tc 64).getTypeSizeInBits (.integer 64)
        = (example_tc 64).getTypeSizeInBits (.integer 32) →
        create_trunc_or_sext (example_tc 64) ⟨.operand 0, .integer 32⟩ (.integer 64) 0
          = some (.operand 0, []))
    ∧ ((example_tc 64).getTypeSizeInBits (.integer 32)
        < (example_tc 64).getTypeSizeInBits (.integer 64) →
        create_trunc_or_sext (example_tc 64) ⟨.operand 0, .integer 32⟩ (.integer 64) 0
          = some (.created 0, [.SExtOp (.integer 64) (.operand 0)]))
    ∧ ((example_tc 64).getTypeSizeInBits (.integer 64)
        < (example_tc 64).getTypeSizeInBits (.integer 32) →
        create_trunc_or_sext (example_tc 64) ⟨.operand 0, .integer 32⟩ (.integer 64) 0
          = some (.created 0, [.TruncOp (.integer 64) (.operand 0)]))
    ∧ (CastKind.IntegralCast = .IntegralCast →
        (⟨.operand 0, .integer 32⟩ : TypedValue) = ⟨.operand 0, .integer 32⟩ →
        mlir_type.integer 64 = .integer 64 →
        implicit_cast.matchAndRewrite (example_tc 64)
            ⟨.hl_integer 64 false, .IntegralCast, .hl_integer 32 true,
              ⟨.operand 0, .integer 32⟩⟩
          = if (example_tc 64).getTypeSizeInBits (.integer 64)
                = (example_tc 64).getTypeSizeInBits (.integer 32) then
              ⟨.success, [], some [.operand 0]⟩
            else if (example_tc 64).getTypeSizeInBits (.integer 32)
                < (example_tc 64).getTypeSizeInBits (.integer 64) then
              ⟨.success, [.SExtOp (.integer 64) (.operand 0)], some [.created 0]⟩
            else ⟨.success, [.TruncOp (.integer 64) (.operand 0)], some [.created 0]⟩)
    ∧ (CastKind.IntegralCast = .LValueToRValue →
        is_lvalue_type (.hl_integer 32 true) = false →
        implicit_cast.matchAndRewrite (example_tc 64)
            ⟨.hl_integer 64 false, .IntegralCast, .hl_integer 32 true,
              ⟨.operand 0, .integer 32⟩⟩ = ⟨.failure, [], none⟩)
    ∧ (CastKind.IntegralCast ≠ .LValueToRValue → CastKind.IntegralCast ≠ .IntegralCast →
        implicit_cast.matchAndRewrite (example_tc 64)
            ⟨.hl_integer 64 false, .IntegralCast, .hl_integer 32 true,
              ⟨.operand 0, .integer 32⟩⟩ = ⟨.failure, [], none⟩) :=
  implicit_cast_trunc_or_sext (example_tc 64)
    ⟨.hl_integer 64 false, .IntegralCast, .hl_integer 32 true, ⟨.operand 0, .integer 32⟩⟩
    (.integer 64) ⟨.operand 0, .integer 32⟩ (.integer 64) 0 rfl rfl rfl

/-- C28 (what the code does): for a cast whose result type the type converter does not
convert, `implicit_cast` stops in the fatal check `VAST_PATTERN_CHECK` before it looks at
the kind of the cast.  The outcome is then the fatal stop and not a returned failure, for
every kind: also for an `LValueToRValue` cast whose operand is not of lvalue type and for a
cast of a kind other than `LValueToRValue` and `IntegralCast`; nothing is created. -/
theorem implicit_cast_unconverted_type_fatal (tc : TypeConverter)
    (cast : hl_ImplicitCastOp) (hnone : tc.convert_type_to_type cast.type = none) :
    implicit_cast.matchAndRewrite tc cast = ⟨.fatal, [], none⟩
    ∧ implicit_cast.matchAndRewrite tc cast ≠ ⟨.failure, [], none⟩
    ∧ (implicit_cast.matchAndRewrite tc cast).outcome ≠ .failure := by
  have h : implicit_cast.matchAndRewrite tc cast = ⟨.fatal, [], none⟩ := by
    simp [implicit_cast.matchAndRewrite, hnone, VAST_PATTERN_CHECK]
  rw [h]
  exact ⟨rfl, by decide, by decide⟩

theorem implicit_cast_unconverted_type_fatal_witness :
    implicit_cast.matchAndRewrite failing_tc
        ⟨.hl_other 3, .other 7, .hl_integer 32 false, ⟨.operand 0, .integer 32⟩⟩
      = ⟨.fatal, [], none⟩
    ∧ implicit_cast.matchAndRewrite failing_tc
        ⟨.hl_other 3, .other 7, .hl_integer 32 false, ⟨.operand 0, .integer 32⟩⟩
      ≠ ⟨.failure, [], none⟩
    ∧ (implicit_cast.matchAndRewrite failing_tc
        ⟨.hl_other 3, .other 7, .hl_integer 32 false, ⟨.operand 0, .integer 32⟩⟩).outcome
      ≠ .failure :=
  implicit_cast_unconverted_type_fatal failing_tc
    ⟨.hl_other 3, .other 7, .hl_integer 32 false, ⟨.operand 0, .integer 32⟩⟩ rfl

/-- The two failure cases of C28 on a result type that the example type converter does
not convert: a cast of another kind, and an `LValueToRValue` cast of a value that is not an
lvalue, both end in the fatal stop. -/
theorem implicit_cast_unconverted_type_examples :
    implicit_cast.matchAndRewrite (example_tc 32)
        ⟨.hl_other 3, .other 7, .hl_integer 32 false, ⟨.operand 0, .integer 32⟩⟩
      = ⟨.fatal, [], none⟩
    ∧ implicit_cast.matchAndRewrite (example_tc 32)
        ⟨.hl_other 3, .LValueToRValue, .hl_integer 32 false, ⟨.operand 0, .integer 32⟩⟩
      = ⟨.fatal, [], none⟩ := by
  decide

/-- The cases of C28 evaluated: an unsigned 32-bit operand cast to 64 bits is
sign-extended, a 64-bit operand cast to 32 bits is truncated, equal widths create nothing;
an `LValueToRValue` cast of a value that is not an lvalue, and a cast of another kind,
fail. -/
theorem implicit_cast_examples :
    implicit_cast.matchAndRewrite (example_tc 64)
        ⟨.hl_integer 64 false, .IntegralCast, .hl_integer 32 true,
          ⟨.operand 0, .integer 32⟩⟩
      = ⟨.success, [.SExtOp (.integer 64) (.operand 0)], some [.created 0]⟩
    ∧ implicit_cast.matchAndRewrite (example_tc 32)
        ⟨.hl_integer 32 false, .IntegralCast, .hl_integer 64 false,
          ⟨.operand 0, .integer 64⟩⟩
      = ⟨.success, [.TruncOp (.integer 32) (.operand 0)], some [.created 0]⟩
    ∧ implicit_cast.matchAndRewrite (example_tc 32)
        ⟨.hl_integer 32 false, .IntegralCast, .hl_integer 32 true,
          ⟨.operand 0, .integer 32⟩⟩
      = ⟨.success, [], some [.operand 0]⟩
    ∧ implicit_cast.matchAndRewrite (example_tc 32)
        ⟨.hl_integer 32 false, .LValueToRValue, .hl_integer 32 false,
          ⟨.operand 0, .integer 32⟩⟩
      = ⟨.failure, [], none⟩
    ∧ implicit_cast.matchAndRewrite (example_tc 32)
        ⟨.hl_integer 32 false, .other 7, .hl_integer 32 false,
          ⟨.operand 0, .integer 32⟩⟩
      = ⟨.failure, [], none⟩ := by
  decide


/-! ## Increments and decrements: `unary_in_place` -/

theorem one_emod_toNat (w : Nat) : ((1 : Int) % 2 ^ w).toNat = 1 % 2 ^ w := by
  have h : ((1 : Int) % 2 ^ w) = ((1 % 2 ^ w : Nat) : Int) := by push_cast; rfl
  rw [h, Int.toNat_ofNat]

theorem adjust_add (w v : Nat) :
    (((v + ((1 : Int) % 2 ^ w).toNat) % 2 ^ w : Nat) : Int) = ((v : Int) + 1) % 2 ^ w := by
  rw [one_emod_toNat, Nat.add_mod_mod]
  push_cast
  rfl

theorem adjust_sub (w v : Nat) :
    ((((v : Int) - (((1 : Int) % 2 ^ w).toNat : Int)) % 2 ^ w).toNat : Int)
      = ((v : Int) - 1) % 2 ^ w := by
  have hpos : (2 : Int) ^ w ≠ 0 := by positivity
  rw [Int.toNat_of_nonneg (Int.emod_nonneg _ hpos), one_emod_toNat]
  push_cast
  rw [Int.sub_emod, Int.emod_emod, ← Int.sub_emod]

/-- C27: `unary_in_place` on an address `p` (the operand `i`, a pointer to the `w`-bit
integer type) that holds the value `v`, with `Trg` the addition (`PreInc`, `PostInc`) or
the subtraction (`PreDec`, `PostDec`): the pattern succeeds, the created operations start
with the load from `p`, whose result is `v`, and end with the store to `p`; run on the
memory they leave `v + 1` resp. `v - 1` modulo `2^w` at `p` and every other address as it
was, and the value that replaces the operation is the stored value for the prefix forms
and the loaded `v` for the postfix forms. When the operand `lv` handed over is still of
lvalue type the pattern returns failure and creates nothing. -/
theorem unary_in_place_load_adjust_store (trg : String) (yield_at : YieldAt)
    (i w p v : Nat) (operands memory : Nat → Nat) (lv : TypedValue)
    (htrg : trg = "llvm.add" ∨ trg = "llvm.sub")
    (hp : operands i = p) (hv : memory p = v) (hw : v < 2 ^ w) :
    (unary_in_place.matchAndRewrite trg yield_at
        ⟨⟨.operand i, .llvm_ptr (.integer w)⟩⟩).outcome = .success
    ∧ (unary_in_place.matchAndRewrite trg yield_at
        ⟨⟨.operand i, .llvm_ptr (.integer w)⟩⟩).created.head?
        = some (.LoadOp (some (.integer w)) (.operand i))
    ∧ (unary_in_place.matchAndRewrite trg yield_at
        ⟨⟨.operand i, .llvm_ptr (.integer w)⟩⟩).created.getLast?
        = some (.StoreOp (.created 2) (.operand i))
    ∧ (∃ st y,
        ExecState.exec operands ⟨memory, []⟩
            (unary_in_place.matchAndRewrite trg yield_at
              ⟨⟨.operand i, .llvm_ptr (.integer w)⟩⟩).created = some st
        ∧ st.results.head? = some (some v)
        ∧ (st.memory p : Int)
            = (if trg = "llvm.add" then ((v : Int) + 1) % 2 ^ w
               else ((v : Int) - 1) % 2 ^ w)
        ∧ (∀ a, a ≠ p → st.memory a = memory a)
        ∧ (unary_in_place.matchAndRewrite trg yield_at
            ⟨⟨.operand i, .llvm_ptr (.integer w)⟩⟩).replaced = some [y]
        ∧ st.eval operands y
            = some (match yield_at with
                    | .pre => st.memory p
                    | .post => v))
    ∧ (unary_in_place.is_lvalue lv = true →
        unary_in_place.matchAndRewrite trg yield_at ⟨lv⟩ = ⟨.failure, [], none⟩) := by
  have _ := hw
  subst hp hv
  refine ⟨?_, ?_, ?_, ?_, ?_⟩
  · simp [unary_in_place.matchAndRewrite, unary_in_place.is_lvalue, is_lvalue_type]
  · simp [unary_in_place.matchAndRewrite, unary_in_place.is_lvalue, is_lvalue_type,
      pointee_type]
  · simp [unary_in_place.matchAndRewrite, unary_in_place.is_lvalue, is_lvalue_type]
  · rcases htrg with rfl | rfl
    · refine ⟨⟨fun b => if b = operands i then
          (memory (operands i) + ((1 : Int) % 2 ^ w).toNat) % 2 ^ w else memory b,
        [some (memory (operands i)), some ((1 : Int) % 2 ^ w).toNat,
          some ((memory (operands i) + ((1 : Int) % 2 ^ w).toNat) % 2 ^ w), none]⟩,
        (match yield_at with
          | .pre => .created 2
          | .post => .created 0), ?_, ?_, ?_, ?_, ?_, ?_⟩
      · simp [unary_in_place.matchAndRewrite, unary_in_place.is_lvalue, is_lvalue_type,
          pointee_type, ExecState.exec, ExecState.step, ExecState.eval, ExecState.push,
          integer_width]
      · rfl
      · simp only [↓reduceIte]
        exact adjust_add w _
      · intro a ha; simp [ha]
      · cases yield_at <;>
          simp [unary_in_place.matchAndRewrite, unary_in_place.is_lvalue, is_lvalue_type]
      · cases yield_at <;> simp [ExecState.eval]
    · refine ⟨⟨fun b => if b = operands i then
          (((memory (operands i) : Int) - ((((1 : Int) % 2 ^ w).toNat : Nat) : Int))
            % 2 ^ w).toNat else memory b,
        [some (memory (operands i)), some ((1 : Int) % 2 ^ w).toNat,
          some (((memory (operands i) : Int) - ((((1 : Int) % 2 ^ w).toNat : Nat) : Int))
            % 2 ^ w).toNat, none]⟩,
        (match yield_at with
          | .pre => .created 2
          | .post => .created 0), ?_, ?_, ?_, ?_, ?_, ?_⟩
      · simp [unary_in_place.matchAndRewrite, unary_in_place.is_lvalue, is_lvalue_type,
          pointee_type, ExecState.exec, ExecState.step, ExecState.eval, ExecState.push,
          integer_width]
      · rfl
      · have hne : ¬ ("llvm.sub" = "llvm.add") := by decide
        simp only [↓reduceIte, hne]
        exact adjust_sub w _
      · intro a ha; simp [ha]
      · cases yield_at <;>
          simp [unary_in_place.matchAndRewrite, unary_in_place.is_lvalue, is_lvalue_type]
      · cases yield_at <;> simp [ExecState.eval]
  · intro h
    simp [unary_in_place.matchAndRewrite, h]

theorem unary_in_place_load_adjust_store_witness :
    (unary_in_place.matchAndRewrite "llvm.add" .pre
        ⟨⟨.operand 0, .llvm_ptr (.integer 8)⟩⟩).outcome = .success
    ∧ (unary_in_place.matchAndRewrite "llvm.add" .pre
        ⟨⟨.operand 0, .llvm_ptr (.integer 8)⟩⟩).created.head?
        = some (.LoadOp (some (.integer 8)) (.operand 0))
    ∧ (unary_in_place.matchAndRewrite "llvm.add" .pre
        ⟨⟨.operand 0, .llvm_ptr (.integer 8)⟩⟩).created.getLast?
        = some (.StoreOp (.created 2) (.operand 0))
    ∧ (∃ st y,
        ExecState.exec (fun _ => 5) ⟨fun _ => 41, []⟩
            (unary_in_place.matchAndRewrite "llvm.add" .pre
              ⟨⟨.operand 0, .llvm_ptr (.integer 8)⟩⟩).created = some st
        ∧ st.results.head? = some (some 41)
        ∧ (st.memory 5 : Int)
            = (if "llvm.add" = "llvm.add" then (((41 : Nat) : Int) + 1) % 2 ^ 8
               else (((41 : Nat) : Int) - 1) % 2 ^ 8)
        ∧ (∀ a, a ≠ 5 → st.memory a = (fun _ => 41) a)
        ∧ (unary_in_place.matchAndRewrite "llvm.add" .pre
            ⟨⟨.operand 0, .llvm_ptr (.integer 8)⟩⟩).replaced = some [y]
        ∧ st.eval (fun _ => 5) y
            = some (match YieldAt.pre with
                    | .pre => st.memory 5
                    | .post => 41))
    ∧ (unary_in_place.is_lvalue ⟨.operand 0, .hl_lvalue (.hl_integer 32 false)⟩ = true →
        unary_in_place.matchAndRewrite "llvm.add" .pre
            ⟨⟨.operand 0, .hl_lvalue (.hl_integer 32 false)⟩⟩ = ⟨.failure, [], none⟩) :=
  unary_in_place_load_adjust_store "llvm.add" .pre 0 8 5 41 (fun _ => 5) (fun _ => 41)
    ⟨.operand 0, .hl_lvalue (.hl_integer 32 false)⟩ (Or.inl rfl) rfl rfl (by decide)

/-- The four patterns of `unary_in_place` as the pass registers them, run on an 8-bit
value: from 41 `PreInc` stores and yields 42, `PostInc` stores 42 and yields 41; from 0
`PreDec` stores and yields 255, `PostDec` stores 255 and yields 0. -/
theorem unary_in_place_examples :
    (⟨"pre_inc", ⟨.hl, "PreIncOp"⟩, .unary_in_place "llvm.add" .pre⟩
        : RegisteredPattern) ∈ CoreToLLVMPass.patterns
    ∧ (⟨"post_inc", ⟨.hl, "PostIncOp"⟩, .unary_in_place "llvm.add" .post⟩
        : RegisteredPattern) ∈ CoreToLLVMPass.patterns
    ∧ (⟨"pre_dec", ⟨.hl, "PreDecOp"⟩, .unary_in_place "llvm.sub" .pre⟩
        : RegisteredPattern) ∈ CoreToLLVMPass.patterns
    ∧ (⟨"post_dec", ⟨.hl, "PostDecOp"⟩, .unary_in_place "llvm.sub" .post⟩
        : RegisteredPattern) ∈ CoreToLLVMPass.patterns
    ∧ (example_memory.exec (fun _ => 5) (unary_in_place.matchAndRewrite "llvm.add" .pre
          ⟨⟨.operand 0, .llvm_ptr (.integer 8)⟩⟩).created).map
        (fun st => (st.memory 5, st.eval (fun _ => 5) (.created 2))) = some (42, some 42)
    ∧ (unary_in_place.matchAndRewrite "llvm.add" .pre
          ⟨⟨.operand 0, .llvm_ptr (.integer 8)⟩⟩).replaced = some [.created 2]
    ∧ (example_memory.exec (fun _ => 5) (unary_in_place.matchAndRewrite "llvm.add" .post
          ⟨⟨.operand 0, .llvm_ptr (.integer 8)⟩⟩).created).map
        (fun st => (st.memory 5, st.eval (fun _ => 5) (.created 0))) = some (42, some 41)
    ∧ (unary_in_place.matchAndRewrite "llvm.add" .post
          ⟨⟨.operand 0, .llvm_ptr (.integer 8)⟩⟩).replaced = some [.created 0]
    ∧ (zero_memory.exec (fun _ => 5) (unary_in_place.matchAndRewrite "llvm.sub" .pre
          ⟨⟨.operand 0, .llvm_ptr (.integer 8)⟩⟩).created).map
        (fun st => (st.memory 5, st.eval (fun _ => 5) (.created 2))) = some (255, some 255)
    ∧ (zero_memory.exec (fun _ => 5) (unary_in_place.matchAndRewrite "llvm.sub" .post
          ⟨⟨.operand 0, .llvm_ptr (.integer 8)⟩⟩).created).map
        (fun st => (st.memory 5, st.eval (fun _ => 5) (.created 0))) = some (255, some 0) := by
  refine ⟨by simp [CoreToLLVMPass.patterns], by simp [CoreToLLVMPass.patterns],
    by simp [CoreToLLVMPass.patterns], by simp [CoreToLLVMPass.patterns],
    by decide, by decide, by decide, by decide, by decide, by decide⟩

end vast
